import Mathlib

/-!
Verification development for the ImageLayoutManager repository.

Shallow embedding of:
  * the data model (`src/model/data_model.py`),
  * the hierarchical layout engine (`src/model/layout_engine.py`),
  * the structural command subsystem (`src/app/commands.py`),
  * the nested-reference cycle check (`src/model/nested_layout_utils.py`).

Millimetre arithmetic (Python `float`) is modelled by exact rationals `ℚ`.
Python dictionaries are modelled by association lists with Python's
assignment semantics (`dictSet` overwrites in place, appends new keys).
Python list indexing (which supports negative indices and raises
`IndexError` out of range) is modelled by `pyIndex` returning `Option`;
a `none` anywhere models an uncaught Python exception.
-/

namespace ILM

/-- Rectangle `(x, y, width, height)` in page millimetres. -/
structure Rect where
  x : ℚ
  y : ℚ
  w : ℚ
  h : ℚ
deriving DecidableEq

/-- The `TextItem` dataclass of `data_model.py`. -/
structure TextItem where
  id : String
  text : String
  font_family : String
  font_size_pt : Int
  font_weight : String
  color : String
  scope : String
  subtype : Option String
  parent_id : Option String
  x : ℚ
  y : ℚ
  anchor : Option String
  offset_x : ℚ
  offset_y : ℚ
deriving DecidableEq

/-- Scalar fields of the `Cell` dataclass of `data_model.py` (lines 54-143).

The fields `split_direction` and `split_ratios` (together with the
`children` list held by the `Cell` inductive below and the derived
`is_leaf` test) are Modelled from the spec: `data_model.py` as provided
does not declare them, yet `layout_engine.py`, `commands.py`,
`main_window.py` and the exporters read and write them throughout.
Spec section 3 describes them: a container cell "holds `children:
Cell[]` (ordered, >= 2), `split_direction in {horizontal, vertical}`,
`split_ratios: float[]`", and a leaf holds content and no children. -/
structure CellData where
  id : String
  row_index : Int
  col_index : Int
  image_path : Option String
  fit_mode : String
  rotation : Int
  align_h : String
  align_v : String
  padding_top : ℚ
  padding_bottom : ℚ
  padding_left : ℚ
  padding_right : ℚ
  is_placeholder : Bool
  nested_layout_path : Option String
  scale_bar_enabled : Bool
  scale_bar_mode : String
  scale_bar_length_um : ℚ
  scale_bar_color : String
  scale_bar_show_text : Bool
  scale_bar_thickness_mm : ℚ
  scale_bar_position : String
  scale_bar_offset_x : ℚ
  scale_bar_offset_y : ℚ
  split_direction : String
  split_ratios : List ℚ
deriving DecidableEq

/-- A cell: its scalar data plus its (possibly empty) list of children.
Modelled from the spec: the tree structure is spec section 3's per-slot
cell tree; the snapshot's `data_model.py` omits the `children` field its
callers use. -/
inductive Cell where
  | mk (data : CellData) (children : List Cell)

/-- Scalar data of a cell. -/
def Cell.data : Cell → CellData
  | .mk d _ => d

/-- Children of a cell. -/
def Cell.children : Cell → List Cell
  | .mk _ cs => cs

/-- Modelled from the spec: a cell is a leaf exactly when it has no
children (spec section 3: a cell is either a leaf holding content or a
container holding children). -/
def Cell.is_leaf (c : Cell) : Bool := c.children.isEmpty

/-- The `RowTemplate` dataclass of `data_model.py`. -/
structure RowTemplate where
  index : Int
  column_count : Int
  height_ratio : ℚ
  column_ratios : List ℚ
deriving DecidableEq

/-- The `Project` dataclass of `data_model.py`. -/
structure Project where
  name : String
  page_width_mm : ℚ
  page_height_mm : ℚ
  margin_left_mm : ℚ
  margin_right_mm : ℚ
  margin_top_mm : ℚ
  margin_bottom_mm : ℚ
  gap_mm : ℚ
  dpi : Int
  rows : List RowTemplate
  cells : List Cell
  text_items : List TextItem
  label_scheme : String
  label_placement : String
  label_font_family : String
  label_font_size : Int
  label_font_weight : String
  label_color : String
  label_anchor : String
  label_attach_to : String
  label_align : String
  label_offset_x : ℚ
  label_offset_y : ℚ
  label_row_height : ℚ
  corner_label_font_family : String
  corner_label_font_size : Int
  corner_label_font_weight : String
  corner_label_color : String

/-- Field defaults of the `Cell` dataclass constructor (id supplied
explicitly, standing for the `uuid4` default). -/
def defaultCellData (id : String) : CellData :=
  { id := id
    row_index := 0
    col_index := 0
    image_path := none
    fit_mode := "contain"
    rotation := 0
    align_h := "center"
    align_v := "center"
    padding_top := 2
    padding_bottom := 2
    padding_left := 2
    padding_right := 2
    is_placeholder := false
    nested_layout_path := none
    scale_bar_enabled := false
    scale_bar_mode := "rgb"
    scale_bar_length_um := 10
    scale_bar_color := "#FFFFFF"
    scale_bar_show_text := true
    scale_bar_thickness_mm := 1/2
    scale_bar_position := "bottom_right"
    scale_bar_offset_x := 2
    scale_bar_offset_y := 2
    split_direction := "none"
    split_ratios := [] }

/-- A `Cell(row_index=r, col_index=c, is_placeholder=True)` constructor
call, as the commands use it for fresh placeholder cells. -/
def placeholderCell (id : String) (row col : Int) : Cell :=
  .mk { defaultCellData id with row_index := row, col_index := col, is_placeholder := true } []

/-- Field defaults of the `RowTemplate` dataclass constructor. -/
def defaultRowTemplate : RowTemplate :=
  { index := 0, column_count := 1, height_ratio := 1, column_ratios := [] }

/-- Field defaults of the `Project` dataclass constructor. -/
def defaultProject : Project :=
  { name := "Untitled Project"
    page_width_mm := 210
    page_height_mm := 297
    margin_left_mm := 10
    margin_right_mm := 10
    margin_top_mm := 10
    margin_bottom_mm := 10
    gap_mm := 2
    dpi := 600
    rows := []
    cells := []
    text_items := []
    label_scheme := "(a)"
    label_placement := "in_cell"
    label_font_family := "Arial"
    label_font_size := 12
    label_font_weight := "bold"
    label_color := "#000000"
    label_anchor := "top_left"
    label_attach_to := "figure"
    label_align := "center"
    label_offset_x := 0
    label_offset_y := 0
    label_row_height := 0
    corner_label_font_family := "Arial"
    corner_label_font_size := 12
    corner_label_font_weight := "bold"
    corner_label_color := "#000000" }

/-- Python dict assignment `m[k] = v`: overwrite in place, else append. -/
def dictSet [DecidableEq α] : List (α × β) → α → β → List (α × β)
  | [], k, v => [(k, v)]
  | (k1, v1) :: rest, k, v =>
    if k1 = k then (k, v) :: rest else (k1, v1) :: dictSet rest k v

/-- Python dict lookup `m.get(k)`. -/
def dictGet [DecidableEq α] : List (α × β) → α → Option β
  | [], _ => none
  | (k1, v1) :: rest, k => if k1 = k then some v1 else dictGet rest k

/-- Python dict membership `k in m`. -/
def dictMem [DecidableEq α] (m : List (α × β)) (k : α) : Prop :=
  (dictGet m k).isSome = true

instance [DecidableEq α] (m : List (α × β)) (k : α) : Decidable (dictMem m k) := by
  unfold dictMem; infer_instance

/-- Python list subscript `l[i]`: negative indices count from the end,
out-of-range access raises `IndexError` (modelled as `none`). -/
def pyIndex (l : List α) (i : Int) : Option α :=
  if 0 ≤ i then l[i.toNat]?
  else if 0 ≤ (l.length : Int) + i then l[((l.length : Int) + i).toNat]?
  else none

/-- Python truthiness of an `Optional[str]` value: `None` and the empty
string are falsy. -/
def pyTruthyStr : Option String → Bool
  | none => false
  | some s => !s.isEmpty

/-- Stable insertion of a row template into a list sorted by `index`:
the new element goes after every element whose index is not larger. -/
def insertRowStable : List RowTemplate → RowTemplate → List RowTemplate
  | [], x => [x]
  | y :: ys, x => if x.index < y.index then x :: y :: ys else y :: insertRowStable ys x

/-- Python `sorted(rows, key=lambda r: r.index)` / `rows.sort(...)`: a
stable sort by `index` (structural insertion sort, stable because equal
keys keep their left-to-right order). -/
def sortRowsByIndex (l : List RowTemplate) : List RowTemplate :=
  l.foldl insertRowStable []

/-- The result dataclass of `layout_engine.py`. -/
structure LayoutResult where
  cell_rects : List (String × Rect)
  row_heights : List (Int × ℚ)
  figure_rects : List (String × Rect)
  label_rects : List (String × Rect)
  row_rects : List (Int × Rect)
deriving DecidableEq

/-- Pair of accumulating maps `(cell_rects, label_rects)` threaded through
the placement loops. -/
abbrev Rects := List (String × Rect) × List (String × Rect)

namespace LayoutEngine

/-- `LayoutEngine._label_row_height_mm`: label row height from font size,
clamped to `[5, 50]` (1.2 is exact here, the model uses 6/5). -/
def label_row_height_mm (p : Project) : ℚ :=
  let h : ℚ := (p.label_font_size : ℚ) * (6/5) + 2
  max 5 (min 50 h)

/-- The ratio list of `_compute_col_widths` after the default-fill and
the padding `while` loop: the row's `column_ratios` (equal weights when
empty) extended with `1.0` up to `column_count`. -/
def padded_col_ratios (r_temp : RowTemplate) : List ℚ :=
  let base := if r_temp.column_ratios.isEmpty then
      List.replicate r_temp.column_count.toNat (1 : ℚ)
    else r_temp.column_ratios
  base ++ List.replicate (r_temp.column_count.toNat - base.length) (1 : ℚ)

/-- The ratio list `_compute_col_widths` distributes over: padded, then
truncated to `column_count`. -/
def effective_col_ratios (r_temp : RowTemplate) : List ℚ :=
  (padded_col_ratios r_temp).take r_temp.column_count.toNat

/-- `LayoutEngine._compute_col_widths`. Returns the widths and the row
template as left behind by the call: the Python `while` loop appends
`1.0` entries onto `r_temp.column_ratios` itself whenever that list is
non-empty but shorter than `column_count` (the local alias is the same
list object), so the mutation is returned as an updated template. -/
def compute_col_widths (r_temp : RowTemplate) (content_width gap_mm : ℚ) :
    List ℚ × RowTemplate :=
  let col_count := r_temp.column_count
  if col_count ≤ 0 then ([], r_temp)
  else
    let total_horizontal_gaps : ℚ := if 1 < col_count then ((col_count : ℚ) - 1) * gap_mm else 0
    let available_width := content_width - total_horizontal_gaps
    let r_after := if r_temp.column_ratios.isEmpty then r_temp
      else { r_temp with column_ratios := padded_col_ratios r_temp }
    let col_ratios := effective_col_ratios r_temp
    let total_ratio0 := col_ratios.sum
    let total_ratio := if total_ratio0 ≤ 0 then (col_count : ℚ) else total_ratio0
    (col_ratios.map (fun r => r / total_ratio * available_width), r_after)

/-- Content width: page width minus left and right margins. -/
def content_width (p : Project) : ℚ :=
  p.page_width_mm - p.margin_left_mm - p.margin_right_mm

/-- Content height: page height minus top and bottom margins. -/
def content_height (p : Project) : ℚ :=
  p.page_height_mm - p.margin_top_mm - p.margin_bottom_mm

/-- `sorted(project.rows, key=lambda r: r.index)` (stable). -/
def sorted_rows (p : Project) : List RowTemplate :=
  sortRowsByIndex p.rows

/-- Whether label rows are in effect (`label_placement == "label_row_above"`). -/
def label_row_above (p : Project) : Bool :=
  decide (p.label_placement = "label_row_above")

/-- Effective label row height: explicit positive override, else computed. -/
def label_row_h (p : Project) : ℚ :=
  if label_row_above p then
    if 0 < p.label_row_height then p.label_row_height else label_row_height_mm p
  else 0

/-- One step of building `labeled_cell_ids`: cell-scoped, non-corner text
items with a truthy `parent_id` contribute that id. -/
def labeled_ids_step (acc : List String) (t : TextItem) : List String :=
  match t.parent_id with
  | some pid =>
    if t.scope = "cell" ∧ t.subtype ≠ some "corner" ∧ pid ≠ "" then acc.insert pid else acc
  | none => acc

/-- The set `labeled_cell_ids` (built only under `label_row_above`). -/
def labeled_cell_ids (p : Project) : List String :=
  if label_row_above p then p.text_items.foldl labeled_ids_step [] else []

/-- The set `rows_with_labels`: row indices of top-level cells whose id
carries a numbering label. -/
def rows_with_labels (p : Project) : List Int :=
  if label_row_above p then
    p.cells.foldl
      (fun acc c => if c.data.id ∈ labeled_cell_ids p then acc.insert c.data.row_index else acc) []
  else []

/-- `num_label_rows` as a rational (Python promotes the int in arithmetic). -/
def num_label_rows (p : Project) : ℚ :=
  if label_row_above p then ((rows_with_labels p).length : ℚ) else 0

/-- Total vertical gap budget: inter-row gaps plus one gap per label row. -/
def total_vertical_gaps (p : Project) : ℚ :=
  let base : ℚ := if 1 < (sorted_rows p).length then (((sorted_rows p).length : ℚ) - 1) * p.gap_mm else 0
  if 0 < num_label_rows p then base + num_label_rows p * p.gap_mm else base

/-- Total height reserved for label rows. -/
def total_label_height (p : Project) : ℚ :=
  if 0 < num_label_rows p then num_label_rows p * label_row_h p else 0

/-- Height left for picture rows, clamped at zero. -/
def available_height_for_rows (p : Project) : ℚ :=
  let a := content_height p - total_vertical_gaps p - total_label_height p
  if a < 0 then 0 else a

/-- Sum of row height ratios, with the zero-sum guard replacing it by the
row count (the Python guard tests `== 0`, not `<= 0`). -/
def rows_total_ratio (p : Project) : ℚ :=
  let t := ((sorted_rows p).map (fun r => r.height_ratio)).sum
  if t = 0 then ((sorted_rows p).length : ℚ) else t

/-- One row's computed vertical geometry `(lbl_y, lbl_h, pic_y, pic_h, r_temp)`. -/
structure RowGeom where
  lbl_y : Option ℚ
  lbl_h : ℚ
  pic_y : ℚ
  pic_h : ℚ
  r_temp : RowTemplate
deriving DecidableEq

/-- The row-geometry loop of `calculate_layout` step 3: walks the sorted
templates accumulating `current_y`, building the geometry list and the
`row_heights` dict. -/
def row_geoms_loop (templates : List RowTemplate) (total_ratio available gap lrh : ℚ)
    (lra : Bool) (rwl : List Int) (current_y : ℚ) (row_heights : List (Int × ℚ)) :
    List RowGeom × List (Int × ℚ) :=
  match templates with
  | [] => ([], row_heights)
  | r :: rest =>
    let ratio := if 0 < total_ratio then r.height_ratio else 1
    let pic_h := ratio / total_ratio * available
    let row_heights2 := dictSet row_heights r.index pic_h
    if lra = true ∧ r.index ∈ rwl then
      let pic_y := current_y + lrh + gap
      let g : RowGeom := ⟨some current_y, lrh, pic_y, pic_h, r⟩
      let res := row_geoms_loop rest total_ratio available gap lrh lra rwl (pic_y + pic_h + gap) row_heights2
      (g :: res.1, res.2)
    else
      let g : RowGeom := ⟨none, 0, current_y, pic_h, r⟩
      let res := row_geoms_loop rest total_ratio available gap lrh lra rwl (current_y + pic_h + gap) row_heights2
      (g :: res.1, res.2)

/-- Row geometries and the `row_heights` dict for a project. -/
def row_geoms (p : Project) : List RowGeom × List (Int × ℚ) :=
  row_geoms_loop (sorted_rows p) (rows_total_ratio p) (available_height_for_rows p)
    p.gap_mm (label_row_h p) (label_row_above p) (rows_with_labels p) p.margin_top_mm []

/-- Effective split ratio list of a container: `split_ratios` (copied),
default equal weights, padded with `1.0` and truncated to the child count. -/
def subcell_ratios (d : CellData) (children : List Cell) : List ℚ :=
  let n := children.length
  let base := if d.split_ratios.isEmpty then List.replicate n (1 : ℚ) else d.split_ratios
  let padded := base ++ List.replicate (n - base.length) (1 : ℚ)
  padded.take n

/-- Effective total split ratio, guarded to the child count when the sum
is not positive. -/
def subcell_total_ratio (d : CellData) (children : List Cell) : ℚ :=
  let t := (subcell_ratios d children).sum
  if t ≤ 0 then (children.length : ℚ) else t

/-- Total inter-child gap along the split axis. -/
def subcell_total_gap (children : List Cell) (gap : ℚ) : ℚ :=
  if 1 < children.length then ((children.length : ℚ) - 1) * gap else 0

/-- Label rows reserved above labelled leaf children of a vertical split. -/
def vertical_label_space (children : List Cell) (labeled : List String)
    (lra : Bool) (lrh gap : ℚ) : ℚ :=
  if lra then
    children.foldl
      (fun acc child =>
        if child.is_leaf = true ∧ child.data.id ∈ labeled then acc + (lrh + gap) else acc) 0
  else 0

/-- Clamped extent available along the split axis of a vertical split. -/
def subcell_available_v (extent total_gap label_space : ℚ) : ℚ :=
  let a := extent - total_gap - label_space
  if a < 0 then 0 else a

/-- Clamped extent available along the split axis of a horizontal split. -/
def subcell_available_h (extent total_gap : ℚ) : ℚ :=
  let a := extent - total_gap
  if a < 0 then 0 else a

/-- One proportional share: `(ratio / total_ratio) * available`. -/
def share (r total available : ℚ) : ℚ := r / total * available

mutual

/-- `LayoutEngine._layout_subcells`: recursively compute geometry for
sub-cells within a parent cell, accumulating into `(cell_rects, label_rects)`. -/
def layout_subcells (parent : Cell) (rect : Rect) (gap lrh : ℚ)
    (labeled : List String) (lra : Bool) (acc : Rects) : Rects :=
  match parent with
  | .mk d children =>
    if children.isEmpty then acc
    else
      let ratios := subcell_ratios d children
      let total_ratio := subcell_total_ratio d children
      let total_gap := subcell_total_gap children gap
      if d.split_direction = "vertical" then
        let label_space := vertical_label_space children labeled lra lrh gap
        let available := subcell_available_v rect.h total_gap label_space
        layout_children_v children ratios rect.x rect.y rect.w available total_ratio gap lrh labeled lra acc
      else if d.split_direction = "horizontal" then
        let available := subcell_available_h rect.w total_gap
        layout_children_h children ratios rect.x rect.y rect.h available total_ratio gap lrh labeled lra acc
      else acc

/-- Vertical stacking loop of `_layout_subcells`: one child per ratio,
reserving an inline label row above labelled leaf children. -/
def layout_children_v (children : List Cell) (ratios : List ℚ)
    (px current_y pw available total_ratio gap lrh : ℚ)
    (labeled : List String) (lra : Bool) (acc : Rects) : Rects :=
  match children, ratios with
  | [], _ => acc
  | _ :: _, [] => acc
  | child :: rest, r :: rs =>
    if lra = true ∧ child.is_leaf = true ∧ child.data.id ∈ labeled then
      let lr2 := dictSet acc.2 child.data.id ⟨px, current_y, pw, lrh⟩
      let y2 := current_y + lrh + gap
      let child_h := share r total_ratio available
      let cr2 := dictSet acc.1 child.data.id ⟨px, y2, pw, child_h⟩
      let acc2 := if child.is_leaf then ((cr2, lr2) : Rects)
        else layout_subcells child ⟨px, y2, pw, child_h⟩ gap lrh labeled lra (cr2, lr2)
      layout_children_v rest rs px (y2 + child_h + gap) pw available total_ratio gap lrh labeled lra acc2
    else
      let child_h := share r total_ratio available
      let cr2 := dictSet acc.1 child.data.id ⟨px, current_y, pw, child_h⟩
      let acc2 := if child.is_leaf then ((cr2, acc.2) : Rects)
        else layout_subcells child ⟨px, current_y, pw, child_h⟩ gap lrh labeled lra (cr2, acc.2)
      layout_children_v rest rs px (current_y + child_h + gap) pw available total_ratio gap lrh labeled lra acc2

/-- Horizontal stacking loop of `_layout_subcells`: one child per ratio;
labels of leaf children are not laid out here (inherited limitation). -/
def layout_children_h (children : List Cell) (ratios : List ℚ)
    (current_x py ph available total_ratio gap lrh : ℚ)
    (labeled : List String) (lra : Bool) (acc : Rects) : Rects :=
  match children, ratios with
  | [], _ => acc
  | _ :: _, [] => acc
  | child :: rest, r :: rs =>
    let child_w := share r total_ratio available
    let child_rect : Rect := ⟨current_x, py, child_w, ph⟩
    let cr2 := dictSet acc.1 child.data.id child_rect
    let acc2 := if child.is_leaf then ((cr2, acc.2) : Rects)
      else layout_subcells child child_rect gap lrh labeled lra (cr2, acc.2)
    layout_children_h rest rs (current_x + child_w + gap) py ph available total_ratio gap lrh labeled lra acc2

end

/-- Step 4 inner loop: place each top-level cell of one row. Skips cells
whose `col_index` is at least the column count; `pyIndex` failure models
the `IndexError` a sufficiently negative `col_index` raises. -/
def place_row_cells (row_cells : List Cell) (col_widths : List ℚ) (col_count : Int)
    (margin_left gap : ℚ) (lbl_y : Option ℚ) (lbl_h pic_y pic_h lrh : ℚ)
    (labeled : List String) (lra : Bool) (acc : Rects) : Option Rects :=
  match row_cells with
  | [] => some acc
  | cell :: rest =>
    if col_count ≤ cell.data.col_index then
      place_row_cells rest col_widths col_count margin_left gap lbl_y lbl_h pic_y pic_h lrh labeled lra acc
    else
      let x_pos := margin_left + ((col_widths.take cell.data.col_index.toNat).map (fun w => w + gap)).sum
      match pyIndex col_widths cell.data.col_index with
      | none => none
      | some col_w =>
        let cr2 := dictSet acc.1 cell.data.id ⟨x_pos, pic_y, col_w, pic_h⟩
        let lr2 := if lra = true ∧ lbl_y.isSome = true ∧ cell.data.id ∈ labeled ∧ cell.is_leaf = true then
            dictSet acc.2 cell.data.id ⟨x_pos, lbl_y.getD 0, col_w, lbl_h⟩
          else acc.2
        let acc2 := if cell.is_leaf then ((cr2, lr2) : Rects)
          else layout_subcells cell ⟨x_pos, pic_y, col_w, pic_h⟩ gap lrh labeled lra (cr2, lr2)
        place_row_cells rest col_widths col_count margin_left gap lbl_y lbl_h pic_y pic_h lrh labeled lra acc2

/-- Step 4 outer loop over the computed row geometries. -/
def place_rows (geoms : List RowGeom) (cells : List Cell) (cw margin_left gap lrh : ℚ)
    (labeled : List String) (lra : Bool) (acc : Rects) : Option Rects :=
  match geoms with
  | [] => some acc
  | g :: rest =>
    if g.r_temp.column_count ≤ 0 then place_rows rest cells cw margin_left gap lrh labeled lra acc
    else
      match place_row_cells (cells.filter (fun c => decide (c.data.row_index = g.r_temp.index)))
          ((compute_col_widths g.r_temp cw gap).1) g.r_temp.column_count margin_left gap
          g.lbl_y g.lbl_h g.pic_y g.pic_h lrh labeled lra acc with
      | none => none
      | some acc2 => place_rows rest cells cw margin_left gap lrh labeled lra acc2

/-- Row bounding rects (label row included when present). -/
def row_rects_calc (geoms : List RowGeom) (margin_left cw : ℚ) : List (Int × Rect) :=
  geoms.foldl
    (fun acc g =>
      match g.lbl_y with
      | some ly => dictSet acc g.r_temp.index ⟨margin_left, ly, cw, (g.pic_y - ly) + g.pic_h⟩
      | none => dictSet acc g.r_temp.index ⟨margin_left, g.pic_y, cw, g.pic_h⟩) []

/-- `LayoutEngine.calculate_layout`. Returns the result together with the
project as left behind by the call (`_compute_col_widths` pads short
non-empty `column_ratios` lists in place); `none` models an uncaught
`IndexError`. -/
def calculate_layout (p : Project) : Option (LayoutResult × Project) :=
  if content_width p ≤ 0 ∨ content_height p ≤ 0 then some (⟨[], [], [], [], []⟩, p)
  else if (sorted_rows p).isEmpty then some (⟨[], [], [], [], []⟩, p)
  else
    match place_rows (row_geoms p).1 p.cells (content_width p) p.margin_left_mm p.gap_mm
        (label_row_h p) (labeled_cell_ids p) (label_row_above p) ([], []) with
    | none => none
    | some acc =>
      some (⟨acc.1, (row_geoms p).2, acc.1, acc.2,
             row_rects_calc (row_geoms p).1 p.margin_left_mm (content_width p)⟩,
            { p with rows := p.rows.map (fun r => (compute_col_widths r (content_width p) p.gap_mm).2) })

end LayoutEngine

/-! Tree helpers. `find_cell_by_id` / `find_parent_of` are Modelled from
the spec: the snapshot's `data_model.py` does not declare them although
`commands.py` and `main_window.py` call them; spec section 9 describes
them as linear/recursive scans over the cell trees. Searches are
depth-first in list order, checking a node before its children. -/

mutual

/-- First cell with the given id in a forest (depth-first, node first). -/
def findCellList : List Cell → String → Option Cell
  | [], _ => none
  | c :: rest, cid =>
    match findCellIn c cid with
    | some found => some found
    | none => findCellList rest cid

/-- First cell with the given id in a tree (the node itself first). -/
def findCellIn : Cell → String → Option Cell
  | .mk d cs, cid => if d.id = cid then some (.mk d cs) else findCellList cs cid

end

mutual

/-- First cell (depth-first) having a direct child with the given id. -/
def findParentList : List Cell → String → Option Cell
  | [], _ => none
  | c :: rest, cid =>
    match findParentIn c cid with
    | some found => some found
    | none => findParentList rest cid

/-- First cell in this tree having a direct child with the given id. -/
def findParentIn : Cell → String → Option Cell
  | .mk d cs, cid =>
    if cs.any (fun ch => decide (ch.data.id = cid)) then some (.mk d cs)
    else findParentList cs cid

end

/-- Modelled from the spec: `Project.find_cell_by_id`. -/
def Project.find_cell_by_id (p : Project) (cid : String) : Option Cell :=
  findCellList p.cells cid

/-- Modelled from the spec: `Project.find_parent_of`. -/
def Project.find_parent_of (p : Project) (cid : String) : Option Cell :=
  findParentList p.cells cid

/-- Shallow update of a cell's scalar data (a Python attribute write on
the object itself, not on its children). -/
def Cell.mapTopData (f : CellData → CellData) : Cell → Cell
  | .mk d cs => .mk (f d) cs

mutual

/-- Rewrite the first cell (same depth-first order as `findCellList`)
with the given id, applying `f` to it; the value translation of mutating
the object `find_cell_by_id` returned. -/
def updateFirstById : List Cell → String → (Cell → Cell) → List Cell
  | [], _, _ => []
  | c :: rest, cid, f =>
    if (findCellIn c cid).isSome then updateInById c cid f :: rest
    else c :: updateFirstById rest cid f

/-- Rewrite the first cell with the given id inside one tree. -/
def updateInById : Cell → String → (Cell → Cell) → Cell
  | .mk d cs, cid, f =>
    if d.id = cid then f (.mk d cs) else .mk d (updateFirstById cs cid f)

end

mutual

/-- Rewrite the first cell (same depth-first order as `findParentList`)
having a direct child with the given id; the value translation of
mutating the object `find_parent_of` returned. -/
def updateFirstParent : List Cell → String → (Cell → Cell) → List Cell
  | [], _, _ => []
  | c :: rest, cid, f =>
    if (findParentIn c cid).isSome then updateInParent c cid f :: rest
    else c :: updateFirstParent rest cid f

/-- Rewrite the first parent of the given id inside one tree. -/
def updateInParent : Cell → String → (Cell → Cell) → Cell
  | .mk d cs, cid, f =>
    if cs.any (fun ch => decide (ch.data.id = cid)) then f (.mk d cs)
    else .mk d (updateFirstParent cs cid f)

end

mutual

/-- Apply a data transformation to every cell of a forest, at any depth
(the value translation of a Python attribute write reaching an object
wherever it sits in the trees). -/
def mapAllDataList : (CellData → CellData) → List Cell → List Cell
  | _, [] => []
  | f, c :: rest => mapAllDataCell f c :: mapAllDataList f rest

/-- Apply a data transformation to every cell of one tree. -/
def mapAllDataCell : (CellData → CellData) → Cell → Cell
  | f, .mk d cs => .mk (f d) (mapAllDataList f cs)

end

mutual

/-- All cells of a forest, each tree's root before its descendants. -/
def allCellsList : List Cell → List Cell
  | [] => []
  | c :: rest => allCellsIn c ++ allCellsList rest

/-- All cells of one tree (the root first). -/
def allCellsIn : Cell → List Cell
  | .mk d cs => .mk d cs :: allCellsList cs

end

/-- Python `list[:i]` slicing (negative index counts from the end). -/
def pySliceTo (l : List α) (i : Int) : List α :=
  if 0 ≤ i then l.take i.toNat else l.take ((l.length : Int) + i).toNat

/-- Python `list.remove(x)`: drop the first equal element. -/
def eraseFirst [DecidableEq α] : List α → α → List α
  | [], _ => []
  | x :: rest, a => if x = a then rest else x :: eraseFirst rest a

/-- Rewrite the first row template with the given index (the value
translation of mutating the object `next(...)` returned). -/
def updateFirstRow : List RowTemplate → Int → (RowTemplate → RowTemplate) → List RowTemplate
  | [], _, _ => []
  | r :: rest, i, f => if r.index = i then f r :: rest else r :: updateFirstRow rest i f

namespace Commands

/-! Commands from `src/app/commands.py`, as value transformers
`Project → Project`. A command object's constructor-time deep snapshots
(`old_rows`, `old_cells`, captured field values) are fields of the
command structure, filled by the `mk...` functions from the pre-apply
project. Fresh `uuid4` ids drawn for newly created cells are modelled as
ids supplied in the command value (a deterministic id source). -/

/-- The content attributes `SwapCellsCommand._swap` and
`MultiSwapCellsCommand.SWAP_ATTRS` exchange: take them from `src`,
keep every other field of `d`. -/
def swapAttrsInto (d src : CellData) : CellData :=
  { d with image_path := src.image_path, is_placeholder := src.is_placeholder,
           fit_mode := src.fit_mode, rotation := src.rotation,
           padding_top := src.padding_top, padding_bottom := src.padding_bottom,
           padding_left := src.padding_left, padding_right := src.padding_right }

/-- Scalar data of the first cell with the given id. -/
def findCellData (p : Project) (cid : String) : Option CellData :=
  (p.find_cell_by_id cid).map Cell.data

/-- Exchange the swap attributes between the cells with the two ids
(no-op when either id is absent; Python always holds live references). -/
def swapPair (p : Project) (id1 id2 : String) : Project :=
  match findCellData p id1, findCellData p id2 with
  | some v1, some v2 =>
    let f := fun d => if d.id = id1 then swapAttrsInto d v2
                      else if d.id = id2 then swapAttrsInto d v1 else d
    { p with cells := mapAllDataList f p.cells }
  | _, _ => p

/-- `SwapCellsCommand` (redo and undo both run `_swap`). -/
structure SwapCellsCommand where
  c1_id : String
  c2_id : String

/-- Redo of `SwapCellsCommand`. -/
def SwapCellsCommand.redo (cmd : SwapCellsCommand) (p : Project) : Project :=
  swapPair p cmd.c1_id cmd.c2_id

/-- Undo of `SwapCellsCommand` (same `_swap`). -/
def SwapCellsCommand.undo (cmd : SwapCellsCommand) (p : Project) : Project :=
  swapPair p cmd.c1_id cmd.c2_id

/-- `MultiSwapCellsCommand`: pairwise swaps of `zip(sources, targets)`. -/
structure MultiSwapCellsCommand where
  pairs : List (String × String)

/-- Redo of `MultiSwapCellsCommand`: sequential pairwise `_swap`. -/
def MultiSwapCellsCommand.redo (cmd : MultiSwapCellsCommand) (p : Project) : Project :=
  cmd.pairs.foldl (fun q pr => swapPair q pr.1 pr.2) p

/-- Undo of `MultiSwapCellsCommand` (same `_swap` sequence). -/
def MultiSwapCellsCommand.undo (cmd : MultiSwapCellsCommand) (p : Project) : Project :=
  cmd.pairs.foldl (fun q pr => swapPair q pr.1 pr.2) p

/-- `InsertRowCommand` with its constructor-time snapshot. -/
structure InsertRowCommand where
  insert_index : Int
  column_count : Int
  new_ids : List String
  old_rows : List RowTemplate
  old_cells : List Cell

/-- Constructor of `InsertRowCommand` (deep snapshot of rows and cells). -/
def mkInsertRowCommand (p : Project) (insert_index column_count : Int)
    (new_ids : List String) : InsertRowCommand :=
  ⟨insert_index, column_count, new_ids, p.rows, p.cells⟩

/-- Redo of `InsertRowCommand`: shift rows and cells at or past the
insertion index, append the new template, re-sort, add placeholder cells. -/
def InsertRowCommand.redo (cmd : InsertRowCommand) (p : Project) : Project :=
  let rows1 := p.rows.map (fun r =>
    if cmd.insert_index ≤ r.index then { r with index := r.index + 1 } else r)
  let cells1 := p.cells.map (Cell.mapTopData (fun d =>
    if cmd.insert_index ≤ d.row_index then { d with row_index := d.row_index + 1 } else d))
  let new_row : RowTemplate :=
    { index := cmd.insert_index, column_count := cmd.column_count, height_ratio := 1, column_ratios := [] }
  let rows2 := sortRowsByIndex (rows1 ++ [new_row])
  let new_cells := (List.range cmd.column_count.toNat).map
    (fun col => placeholderCell (cmd.new_ids.getD col "") cmd.insert_index (col : Int))
  { p with rows := rows2, cells := cells1 ++ new_cells }

/-- Undo of `InsertRowCommand`: restore the snapshot. -/
def InsertRowCommand.undo (cmd : InsertRowCommand) (p : Project) : Project :=
  { p with rows := cmd.old_rows, cells := cmd.old_cells }

/-- `InsertCellCommand` with its constructor-time snapshot. -/
structure InsertCellCommand where
  row_index : Int
  insert_col : Int
  new_id : String
  old_rows : List RowTemplate
  old_cells : List Cell

/-- Constructor of `InsertCellCommand`. -/
def mkInsertCellCommand (p : Project) (row_index insert_col : Int) (new_id : String) :
    InsertCellCommand :=
  ⟨row_index, insert_col, new_id, p.rows, p.cells⟩

/-- Redo of `InsertCellCommand`: no-op when the row is missing, else
shift columns, bump the row's column count, append a placeholder. -/
def InsertCellCommand.redo (cmd : InsertCellCommand) (p : Project) : Project :=
  match p.rows.find? (fun r => decide (r.index = cmd.row_index)) with
  | none => p
  | some _ =>
    let cells1 := p.cells.map (Cell.mapTopData (fun d =>
      if d.row_index = cmd.row_index ∧ cmd.insert_col ≤ d.col_index then
        { d with col_index := d.col_index + 1 } else d))
    let rows1 := updateFirstRow p.rows cmd.row_index
      (fun r => { r with column_count := r.column_count + 1 })
    { p with rows := rows1,
             cells := cells1 ++ [placeholderCell cmd.new_id cmd.row_index cmd.insert_col] }

/-- Undo of `InsertCellCommand`: restore the snapshot. -/
def InsertCellCommand.undo (cmd : InsertCellCommand) (p : Project) : Project :=
  { p with rows := cmd.old_rows, cells := cmd.old_cells }

/-- `DeleteRowCommand` with its constructor-time snapshot. -/
structure DeleteRowCommand where
  row_index : Int
  old_rows : List RowTemplate
  old_cells : List Cell

/-- Constructor of `DeleteRowCommand`. -/
def mkDeleteRowCommand (p : Project) (row_index : Int) : DeleteRowCommand :=
  ⟨row_index, p.rows, p.cells⟩

/-- Redo of `DeleteRowCommand`: remove the template and its cells,
shift later rows up. There is no guard on the number of rows. -/
def DeleteRowCommand.redo (cmd : DeleteRowCommand) (p : Project) : Project :=
  let rows1 := p.rows.filter (fun r => decide (r.index ≠ cmd.row_index))
  let cells1 := p.cells.filter (fun c => decide (c.data.row_index ≠ cmd.row_index))
  let rows2 := rows1.map (fun r =>
    if cmd.row_index < r.index then { r with index := r.index - 1 } else r)
  let cells2 := cells1.map (Cell.mapTopData (fun d =>
    if cmd.row_index < d.row_index then { d with row_index := d.row_index - 1 } else d))
  { p with rows := rows2, cells := cells2 }

/-- Undo of `DeleteRowCommand`: restore the snapshot. -/
def DeleteRowCommand.undo (cmd : DeleteRowCommand) (p : Project) : Project :=
  { p with rows := cmd.old_rows, cells := cmd.old_cells }

/-- `DeleteCellCommand` with its constructor-time snapshot. -/
structure DeleteCellCommand where
  row_index : Int
  col_index : Int
  old_rows : List RowTemplate
  old_cells : List Cell

/-- Constructor of `DeleteCellCommand`. -/
def mkDeleteCellCommand (p : Project) (row_index col_index : Int) : DeleteCellCommand :=
  ⟨row_index, col_index, p.rows, p.cells⟩

/-- Redo of `DeleteCellCommand`: refuses (no-op) when the row is missing
or has a single column; else removes the cell, shifts later columns left
and decrements the column count. -/
def DeleteCellCommand.redo (cmd : DeleteCellCommand) (p : Project) : Project :=
  match p.rows.find? (fun r => decide (r.index = cmd.row_index)) with
  | none => p
  | some row =>
    if row.column_count ≤ 1 then p
    else
      let cells1 := p.cells.filter (fun c =>
        decide (¬ (c.data.row_index = cmd.row_index ∧ c.data.col_index = cmd.col_index)))
      let cells2 := cells1.map (Cell.mapTopData (fun d =>
        if d.row_index = cmd.row_index ∧ cmd.col_index < d.col_index then
          { d with col_index := d.col_index - 1 } else d))
      let rows1 := updateFirstRow p.rows cmd.row_index
        (fun r => { r with column_count := r.column_count - 1 })
      { p with rows := rows1, cells := cells2 }

/-- Undo of `DeleteCellCommand`: restore the snapshot. -/
def DeleteCellCommand.undo (cmd : DeleteCellCommand) (p : Project) : Project :=
  { p with rows := cmd.old_rows, cells := cmd.old_cells }

/-- `DropImageCommand` with its constructor-time captured old values. -/
structure DropImageCommand where
  cell_id : String
  new_path : Option String
  old_path : Option String
  old_is_placeholder : Bool

/-- Constructor of `DropImageCommand`: captures the cell's current
image path and placeholder flag. -/
def mkDropImageCommand (p : Project) (cell_id : String) (new_path : Option String) :
    DropImageCommand :=
  match findCellData p cell_id with
  | some d => ⟨cell_id, new_path, d.image_path, d.is_placeholder⟩
  | none => ⟨cell_id, new_path, none, false⟩

/-- Redo of `DropImageCommand`. -/
def DropImageCommand.redo (cmd : DropImageCommand) (p : Project) : Project :=
  { p with cells := updateFirstById p.cells cmd.cell_id (Cell.mapTopData
      (fun d => { d with image_path := cmd.new_path, is_placeholder := false })) }

/-- Undo of `DropImageCommand`: restore the captured values. -/
def DropImageCommand.undo (cmd : DropImageCommand) (p : Project) : Project :=
  { p with cells := updateFirstById p.cells cmd.cell_id (Cell.mapTopData
      (fun d => { d with image_path := cmd.old_path, is_placeholder := cmd.old_is_placeholder })) }

/-- `ChangeRowCountCommand` with snapshot and a deterministic source of
fresh placeholder ids keyed by grid slot. -/
structure ChangeRowCountCommand where
  new_count : Int
  fresh : Int → Int → String
  old_rows : List RowTemplate
  old_cells : List Cell

/-- Constructor of `ChangeRowCountCommand`. -/
def mkChangeRowCountCommand (p : Project) (new_count : Int) (fresh : Int → Int → String) :
    ChangeRowCountCommand :=
  ⟨new_count, fresh, p.rows, p.cells⟩

/-- Redo of `ChangeRowCountCommand`: append or truncate row templates,
then reconcile the cell set (keep cells in valid slots, create missing
placeholders). -/
def ChangeRowCountCommand.redo (cmd : ChangeRowCountCommand) (p : Project) : Project :=
  let current : Int := (p.rows.length : Int)
  let rows1 :=
    if current < cmd.new_count then
      p.rows ++ ((List.range cmd.new_count.toNat).drop p.rows.length).map
        (fun i => { defaultRowTemplate with index := (i : Int), column_count := 2 })
    else if cmd.new_count < current then pySliceTo p.rows cmd.new_count
    else p.rows
  let valid_cells := p.cells.filter (fun c =>
    match rows1.find? (fun r => decide (r.index = c.data.row_index)) with
    | none => false
    | some rt => decide (c.data.col_index < rt.column_count))
  let keys := valid_cells.map (fun c => (c.data.row_index, c.data.col_index))
  let missing := rows1.flatMap (fun r =>
    (List.range r.column_count.toNat).filterMap (fun col =>
      if (r.index, (col : Int)) ∈ keys then none
      else some (placeholderCell (cmd.fresh r.index (col : Int)) r.index (col : Int))))
  { p with rows := rows1, cells := valid_cells ++ missing }

/-- Undo of `ChangeRowCountCommand`: restore the snapshot. -/
def ChangeRowCountCommand.undo (cmd : ChangeRowCountCommand) (p : Project) : Project :=
  { p with rows := cmd.old_rows, cells := cmd.old_cells }

/-- `AddTextCommand`. -/
structure AddTextCommand where
  item : TextItem

/-- Redo of `AddTextCommand`: append the item. -/
def AddTextCommand.redo (cmd : AddTextCommand) (p : Project) : Project :=
  { p with text_items := p.text_items ++ [cmd.item] }

/-- Undo of `AddTextCommand`: remove the first equal item if present. -/
def AddTextCommand.undo (cmd : AddTextCommand) (p : Project) : Project :=
  if cmd.item ∈ p.text_items then { p with text_items := eraseFirst p.text_items cmd.item } else p

/-- `DeleteTextCommand`. -/
structure DeleteTextCommand where
  item : TextItem

/-- Redo of `DeleteTextCommand`: remove the first equal item if present. -/
def DeleteTextCommand.redo (cmd : DeleteTextCommand) (p : Project) : Project :=
  if cmd.item ∈ p.text_items then { p with text_items := eraseFirst p.text_items cmd.item } else p

/-- Undo of `DeleteTextCommand`: append the item back. -/
def DeleteTextCommand.undo (cmd : DeleteTextCommand) (p : Project) : Project :=
  { p with text_items := p.text_items ++ [cmd.item] }

/-- First child of `SplitCellCommand`: a fresh cell carrying the split
cell's content fields (the listed constructor keywords of the Python call). -/
def splitFirstChild (d : CellData) (first_id : String) : Cell :=
  .mk { defaultCellData first_id with
        image_path := d.image_path, fit_mode := d.fit_mode, rotation := d.rotation,
        align_h := d.align_h, align_v := d.align_v,
        padding_top := d.padding_top, padding_bottom := d.padding_bottom,
        padding_left := d.padding_left, padding_right := d.padding_right,
        is_placeholder := d.is_placeholder, nested_layout_path := d.nested_layout_path,
        scale_bar_enabled := d.scale_bar_enabled, scale_bar_mode := d.scale_bar_mode,
        scale_bar_length_um := d.scale_bar_length_um, scale_bar_color := d.scale_bar_color,
        scale_bar_show_text := d.scale_bar_show_text,
        scale_bar_thickness_mm := d.scale_bar_thickness_mm,
        scale_bar_position := d.scale_bar_position,
        scale_bar_offset_x := d.scale_bar_offset_x,
        scale_bar_offset_y := d.scale_bar_offset_y } []

/-- In-place conversion of a leaf into a container, as `SplitCellCommand.redo`
performs it on the found cell. -/
def splitTransform (direction : String) (count : Int) (child_ids : List String)
    (cell : Cell) : Cell :=
  match cell with
  | .mk d _ =>
    let first := splitFirstChild d (child_ids.getD 0 "")
    let rest := (List.range (count.toNat - 1)).map
      (fun i => placeholderCell (child_ids.getD (i + 1) "") 0 0)
    .mk { d with split_direction := direction,
                 split_ratios := List.replicate count.toNat (1 : ℚ),
                 image_path := none, is_placeholder := false, nested_layout_path := none,
                 scale_bar_enabled := false } (first :: rest)

/-- `SplitCellCommand` with its constructor-time snapshot of the cells. -/
structure SplitCellCommand where
  cell_id : String
  direction : String
  count : Int
  child_ids : List String
  old_cells : List Cell

/-- Constructor of `SplitCellCommand`. -/
def mkSplitCellCommand (p : Project) (cell_id direction : String) (count : Int)
    (child_ids : List String) : SplitCellCommand :=
  ⟨cell_id, direction, count, child_ids, p.cells⟩

/-- Redo of `SplitCellCommand`: no-op unless the target is a leaf. -/
def SplitCellCommand.redo (cmd : SplitCellCommand) (p : Project) : Project :=
  match p.find_cell_by_id cmd.cell_id with
  | none => p
  | some cell =>
    if cell.is_leaf then
      let cells2 := updateFirstById p.cells cmd.cell_id
        (splitTransform cmd.direction cmd.count cmd.child_ids)
      { p with cells := cells2 }
    else p

/-- Undo of `SplitCellCommand`: restore the snapshot. -/
def SplitCellCommand.undo (cmd : SplitCellCommand) (p : Project) : Project :=
  { p with cells := cmd.old_cells }

/-- Sibling insertion into a parent container, as `InsertSubCellCommand.redo`
performs it: insert a placeholder before or after the target child and a
`1.0` ratio at the same position (ratio list padded to the old child
count first). -/
def insertSubCellTransform (cid position new_id : String) (parent : Cell) : Cell :=
  match parent with
  | .mk d children =>
    match children.findIdx? (fun ch => decide (ch.data.id = cid)) with
    | none => .mk d children
    | some idx =>
      let insert_at := if position = "before" then idx else idx + 1
      let children2 := children.insertIdx insert_at (placeholderCell new_id 0 0)
      let padded := d.split_ratios ++
        List.replicate ((children2.length - 1) - d.split_ratios.length) (1 : ℚ)
      .mk { d with split_ratios := padded.insertIdx insert_at (1 : ℚ) } children2

/-- `InsertSubCellCommand` with its constructor-time snapshot. -/
structure InsertSubCellCommand where
  cell_id : String
  position : String
  new_id : String
  old_cells : List Cell

/-- Constructor of `InsertSubCellCommand`. -/
def mkInsertSubCellCommand (p : Project) (cell_id position new_id : String) :
    InsertSubCellCommand :=
  ⟨cell_id, position, new_id, p.cells⟩

/-- Redo of `InsertSubCellCommand`: refuses (no-op) on a cell with no
parent container. -/
def InsertSubCellCommand.redo (cmd : InsertSubCellCommand) (p : Project) : Project :=
  match p.find_parent_of cmd.cell_id with
  | none => p
  | some parent =>
    match parent.children.findIdx? (fun ch => decide (ch.data.id = cmd.cell_id)) with
    | none => p
    | some _ =>
      let cells2 := updateFirstParent p.cells cmd.cell_id
        (insertSubCellTransform cmd.cell_id cmd.position cmd.new_id)
      { p with cells := cells2 }

/-- Undo of `InsertSubCellCommand`: restore the snapshot. -/
def InsertSubCellCommand.undo (cmd : InsertSubCellCommand) (p : Project) : Project :=
  { p with cells := cmd.old_cells }

/-- Child deletion with unwrap, as `DeleteSubCellCommand.redo` performs
it on the found parent: pop the child and its ratio entry; if exactly one
child remains, promote its content and children into the parent. -/
def deleteSubCellTransform (cid : String) (parent : Cell) : Cell :=
  match parent with
  | .mk d children =>
    match children.findIdx? (fun ch => decide (ch.data.id = cid)) with
    | none => .mk d children
    | some idx =>
      let children2 := children.eraseIdx idx
      let ratios2 := if idx < d.split_ratios.length then d.split_ratios.eraseIdx idx
        else d.split_ratios
      match children2 with
      | [sole] =>
        let sd := sole.data
        let emptyChildren := sole.children.isEmpty
        .mk { d with
              split_direction := if emptyChildren then "none" else sd.split_direction,
              split_ratios := if emptyChildren then [] else sd.split_ratios,
              image_path := sd.image_path, is_placeholder := sd.is_placeholder,
              fit_mode := sd.fit_mode, rotation := sd.rotation,
              nested_layout_path := sd.nested_layout_path,
              scale_bar_enabled := sd.scale_bar_enabled } sole.children
      | _ => .mk { d with split_ratios := ratios2 } children2

/-- `DeleteSubCellCommand` with its constructor-time snapshot. -/
structure DeleteSubCellCommand where
  cell_id : String
  old_cells : List Cell

/-- Constructor of `DeleteSubCellCommand`. -/
def mkDeleteSubCellCommand (p : Project) (cell_id : String) : DeleteSubCellCommand :=
  ⟨cell_id, p.cells⟩

/-- Redo of `DeleteSubCellCommand`: refuses (no-op) when there is no
parent or the parent has a single child. -/
def DeleteSubCellCommand.redo (cmd : DeleteSubCellCommand) (p : Project) : Project :=
  match p.find_parent_of cmd.cell_id with
  | none => p
  | some parent =>
    if parent.children.length ≤ 1 then p
    else
      match parent.children.findIdx? (fun ch => decide (ch.data.id = cmd.cell_id)) with
      | none => p
      | some _ =>
        let cells2 := updateFirstParent p.cells cmd.cell_id
          (deleteSubCellTransform cmd.cell_id)
        { p with cells := cells2 }

/-- Undo of `DeleteSubCellCommand`: restore the snapshot. -/
def DeleteSubCellCommand.undo (cmd : DeleteSubCellCommand) (p : Project) : Project :=
  { p with cells := cmd.old_cells }

/-- In-place wrap of a cell into a new split container holding a deep
copy of itself (same id) plus a fresh placeholder, as the else-branch of
`WrapAndInsertCommand.redo` performs it. -/
def wrapTransform (direction position new_id : String) (cell : Cell) : Cell :=
  match cell with
  | .mk d cs =>
    let clone := Cell.mk d cs
    let newc := placeholderCell new_id 0 0
    let children := if position = "before" then [newc, clone] else [clone, newc]
    .mk { d with split_direction := direction, split_ratios := [1, 1],
                 image_path := none, is_placeholder := false,
                 nested_layout_path := none, scale_bar_enabled := false } children

/-- `WrapAndInsertCommand` with its constructor-time snapshot. -/
structure WrapAndInsertCommand where
  cell_id : String
  direction : String
  position : String
  new_id : String
  old_cells : List Cell

/-- Constructor of `WrapAndInsertCommand`. -/
def mkWrapAndInsertCommand (p : Project) (cell_id direction position new_id : String) :
    WrapAndInsertCommand :=
  ⟨cell_id, direction, position, new_id, p.cells⟩

/-- Redo of `WrapAndInsertCommand`: sibling insertion when the parent
already splits along the direction, else wrap in place. -/
def WrapAndInsertCommand.redo (cmd : WrapAndInsertCommand) (p : Project) : Project :=
  match p.find_cell_by_id cmd.cell_id with
  | none => p
  | some _ =>
    match p.find_parent_of cmd.cell_id with
    | some parent =>
      if parent.data.split_direction = cmd.direction then
        match parent.children.findIdx? (fun ch => decide (ch.data.id = cmd.cell_id)) with
        | none => p
        | some _ =>
          let cells2 := updateFirstParent p.cells cmd.cell_id
            (insertSubCellTransform cmd.cell_id cmd.position cmd.new_id)
          { p with cells := cells2 }
      else
        let cells2 := updateFirstById p.cells cmd.cell_id
          (wrapTransform cmd.direction cmd.position cmd.new_id)
        { p with cells := cells2 }
    | none =>
      let cells2 := updateFirstById p.cells cmd.cell_id
        (wrapTransform cmd.direction cmd.position cmd.new_id)
      { p with cells := cells2 }

/-- Undo of `WrapAndInsertCommand`: restore the snapshot. -/
def WrapAndInsertCommand.undo (cmd : WrapAndInsertCommand) (p : Project) : Project :=
  { p with cells := cmd.old_cells }

/-- Ratio entry update, as `ChangeSubCellRatioCommand.redo` performs it
on the found parent (ratio list padded to the child count first). -/
def changeRatioTransform (cid : String) (new_ratio : ℚ) (parent : Cell) : Cell :=
  match parent with
  | .mk d children =>
    match children.findIdx? (fun ch => decide (ch.data.id = cid)) with
    | none => .mk d children
    | some idx =>
      let padded := d.split_ratios ++
        List.replicate (children.length - d.split_ratios.length) (1 : ℚ)
      .mk { d with split_ratios := padded.set idx new_ratio } children

/-- `ChangeSubCellRatioCommand` with its constructor-time snapshot. -/
structure ChangeSubCellRatioCommand where
  cell_id : String
  new_ratio : ℚ
  old_cells : List Cell

/-- Constructor of `ChangeSubCellRatioCommand`. -/
def mkChangeSubCellRatioCommand (p : Project) (cell_id : String) (new_ratio : ℚ) :
    ChangeSubCellRatioCommand :=
  ⟨cell_id, new_ratio, p.cells⟩

/-- Redo of `ChangeSubCellRatioCommand`: no-op when there is no parent. -/
def ChangeSubCellRatioCommand.redo (cmd : ChangeSubCellRatioCommand) (p : Project) : Project :=
  match p.find_parent_of cmd.cell_id with
  | none => p
  | some parent =>
    match parent.children.findIdx? (fun ch => decide (ch.data.id = cmd.cell_id)) with
    | none => p
    | some _ =>
      let cells2 := updateFirstParent p.cells cmd.cell_id
        (changeRatioTransform cmd.cell_id cmd.new_ratio)
      { p with cells := cells2 }

/-- Undo of `ChangeSubCellRatioCommand`: restore the snapshot. -/
def ChangeSubCellRatioCommand.undo (cmd : ChangeSubCellRatioCommand) (p : Project) : Project :=
  { p with cells := cmd.old_cells }

end Commands

namespace NestedLayout

/-! `src/model/nested_layout_utils.py`. The filesystem is modelled as an
association list from normalized absolute paths to parse results: a
missing key is a missing file (`open` raises), `some none` is an
unreadable or malformed file (`json.load` raises), `some (some entries)`
lists each cell dict's `nested_layout_path` value. The composition
`os.path.normcase(os.path.abspath(.))` is the parameter `norm`. -/

/-- Parse results keyed by normalized path. -/
abbrev FileSystem := List (String × Option (List (Option String)))

/-- Python `os.path.isfile`: the normalized path names a file. -/
def isfile (fs : FileSystem) (norm : String → String) (path : String) : Bool :=
  (dictGet fs (norm path)).isSome

/-- Count of filesystem keys not yet visited (termination measure of the
walk: every successful read adds a fresh key to `visited`). -/
def unvisited (fs : FileSystem) (visited : List String) : Nat :=
  ((fs.map Prod.fst).filter (fun k => decide (k ∉ visited))).length

mutual

/-- `_walk_for_cycle`: normalize, test membership in `visited`, read the
file (failures are acyclic), then scan its cells. Returns the verdict
together with the grown visited set (Python mutates the set in place). -/
def walk_for_cycle (fs : FileSystem) (norm : String → String) (path : String)
    (visited : List String) : Bool × { v : List String // visited ⊆ v } :=
  let p := norm path
  if hp : p ∈ visited then (true, ⟨visited, fun _ h => h⟩)
  else
    match hread : dictGet fs p with
    | none => (false, ⟨p :: visited, List.subset_cons_self p visited⟩)
    | some none => (false, ⟨p :: visited, List.subset_cons_self p visited⟩)
    | some (some entries) =>
      let res := walk_entries fs norm entries (p :: visited)
      (res.1, ⟨res.2.val, (List.subset_cons_self p visited).trans res.2.property⟩)
termination_by (unvisited fs visited, 0)
decreasing_by
  simp_wf
  apply Prod.Lex.left
  have hkey : ∀ (l : FileSystem) (v : Option (List (Option String))),
      dictGet l (norm path) = some v → (norm path) ∈ l.map Prod.fst := by
    intro l v h
    induction l with
    | nil => simp [dictGet] at h
    | cons kv rest ih =>
      obtain ⟨k1, v1⟩ := kv
      rw [dictGet] at h
      by_cases hk : k1 = norm path
      · simp [hk]
      · rw [if_neg hk] at h
        exact List.mem_cons_of_mem _ (ih h)
  have hmem : (norm path) ∈ fs.map Prod.fst := hkey fs _ hread
  unfold unvisited
  have hsub : List.Sublist ((fs.map Prod.fst).filter (fun k => decide (k ∉ norm path :: visited)))
      ((fs.map Prod.fst).filter (fun k => decide (k ∉ visited))) := by
    apply List.monotone_filter_right
    intro a ha
    simp only [decide_eq_true_eq, List.mem_cons, not_or] at ha ⊢
    exact ha.2
  have hin : (norm path) ∈ (fs.map Prod.fst).filter (fun k => decide (k ∉ visited)) := by
    simp only [List.mem_filter, decide_eq_true_eq]
    exact ⟨hmem, hp⟩
  have hnotin : (norm path) ∉ (fs.map Prod.fst).filter (fun k => decide (k ∉ norm path :: visited)) := by
    simp [List.mem_filter]
  rcases Nat.lt_or_ge (((fs.map Prod.fst).filter (fun k => decide (k ∉ norm path :: visited))).length)
      (((fs.map Prod.fst).filter (fun k => decide (k ∉ visited))).length) with hlt | hge
  · exact hlt
  · exfalso
    have heq := hsub.eq_of_length (le_antisymm hsub.length_le hge)
    rw [heq] at hnotin
    exact hnotin hin

/-- The cell loop of `_walk_for_cycle`: recurse into each truthy
`nested_layout_path` that names a file, short-circuiting on `True`. -/
def walk_entries (fs : FileSystem) (norm : String → String)
    (entries : List (Option String)) (visited : List String) :
    Bool × { v : List String // visited ⊆ v } :=
  match entries with
  | [] => (false, ⟨visited, fun _ h => h⟩)
  | e :: rest =>
    match e with
    | some nested =>
      if nested ≠ "" ∧ isfile fs norm nested = true then
        match walk_for_cycle fs norm nested visited with
        | (true, v2) => (true, ⟨v2.val, v2.property⟩)
        | (false, v2) =>
          let res := walk_entries fs norm rest v2.val
          (res.1, ⟨res.2.val, v2.property.trans res.2.property⟩)
      else walk_entries fs norm rest visited
    | none => walk_entries fs norm rest visited
termination_by (unvisited fs visited, entries.length + 1)
decreasing_by
  all_goals simp_wf
  all_goals try (apply Prod.Lex.right; omega)
  all_goals
    (have hle : unvisited fs v2.val ≤ unvisited fs visited := by
      unfold unvisited
      apply List.Sublist.length_le
      apply List.monotone_filter_right
      intro a ha
      simp only [decide_eq_true_eq] at ha ⊢
      exact fun hmem => ha (v2.property hmem)
     rcases Nat.lt_or_ge (unvisited fs v2.val) (unvisited fs visited) with hlt | hge
     · exact Prod.Lex.left _ _ hlt
     · have heq : unvisited fs v2.val = unvisited fs visited := le_antisymm hle hge
       rw [heq]
       apply Prod.Lex.right
       omega)

end

/-- `detect_circular_reference` (with the default fresh `visited`):
normalize both paths, equal paths are circular, otherwise walk the
candidate with the parent pre-visited. -/
def detect_circular_reference (fs : FileSystem) (norm : String → String)
    (parent_path candidate_path : String) : Bool :=
  let pp := norm parent_path
  if pp = norm candidate_path then true
  else (walk_for_cycle fs norm candidate_path [pp]).1

/-- Transitive reference through truthy `nested_layout_path` entries of
readable files, from a normalized path into a target set: either the
path is already in the set, or some nested entry of its parsed cells
names an existing file from whose normalized path the set is reachable.
This formalizes the claim's phrase "the candidate transitively
references the parent". -/
inductive Reaches (fs : FileSystem) (norm : String → String) : String → List String → Prop
  | base (p : String) (V : List String) : p ∈ V → Reaches fs norm p V
  | step (p : String) (V : List String) (entries : List (Option String)) (nested : String) :
      dictGet fs p = some (some entries) → (some nested) ∈ entries → nested ≠ "" →
      isfile fs norm nested = true → Reaches fs norm (norm nested) V → Reaches fs norm p V

end NestedLayout

/-! Concrete projects used by counterexamples and witnesses. -/

/-- A top-level leaf cell at a grid slot. -/
def topCell (id : String) (row col : Int) : Cell :=
  .mk { defaultCellData id with row_index := row, col_index := col } []

/-- The spec section-8 scenario: page 210 by 297, margins 10, gap 2,
2 rows by 2 columns, equal ratios, no labels. -/
def exAfourGrid : Project :=
  { defaultProject with
      rows := [{ index := 0, column_count := 2, height_ratio := 1, column_ratios := [] },
               { index := 1, column_count := 2, height_ratio := 1, column_ratios := [] }]
      cells := [topCell "r0c0" 0 0, topCell "r0c1" 0 1, topCell "r1c0" 1 0, topCell "r1c1" 1 1] }

/-- A project whose single row has `column_ratios = [1.0]` but
`column_count = 2` (non-empty list shorter than the count). -/
def exShortRatios : Project :=
  { defaultProject with
      rows := [{ index := 0, column_count := 2, height_ratio := 1, column_ratios := [1] }]
      cells := [topCell "a" 0 0, topCell "b" 0 1] }

/-- A project whose column gaps exceed the content width: 100 columns
with gap 2 on a 190 mm content width. -/
def exManyColumns : Project :=
  { defaultProject with
      rows := [{ index := 0, column_count := 100, height_ratio := 1, column_ratios := [] }]
      cells := [topCell "a" 0 0] }

/-- A project with exactly one row (two columns). -/
def exOneRow : Project :=
  { defaultProject with
      rows := [{ index := 0, column_count := 2, height_ratio := 1, column_ratios := [] }]
      cells := [topCell "a" 0 0, topCell "b" 0 1] }

/-- A project with a top-level cell whose `col_index` is `-3` in a
two-column row. -/
def exNegCol : Project :=
  { defaultProject with
      rows := [{ index := 0, column_count := 2, height_ratio := 1, column_ratios := [] }]
      cells := [topCell "a" 0 (-3)] }

/-- A project whose two rows both have `height_ratio = 0` (zero ratio sum). -/
def exZeroRatios : Project :=
  { defaultProject with
      rows := [{ index := 0, column_count := 1, height_ratio := 0, column_ratios := [] },
               { index := 1, column_count := 1, height_ratio := 0, column_ratios := [] }]
      cells := [topCell "a" 0 0, topCell "b" 1 0] }

/-- Cell `a`: image `pa`, left horizontal alignment. -/
def exSwapA : Cell :=
  .mk { defaultCellData "a" with image_path := some "pa", align_h := "left" } []

/-- Cell `b`: image `pb`, right horizontal alignment. -/
def exSwapB : Cell :=
  .mk { defaultCellData "b" with col_index := 1, image_path := some "pb", align_h := "right" } []

/-- A one-row project whose two cells differ in image and in alignment. -/
def exSwap : Project :=
  { defaultProject with
      rows := [{ index := 0, column_count := 2, height_ratio := 1, column_ratios := [] }]
      cells := [exSwapA, exSwapB] }

/-- The identity-and-position projection of a cell's data. -/
def cellKey (d : CellData) : String × Int × Int :=
  (d.id, d.row_index, d.col_index)

/-- Cell `a` holding image `pa`. -/
def exMultiA : Cell :=
  .mk { defaultCellData "a" with image_path := some "pa" } []

/-- Cell `b` holding image `pb`. -/
def exMultiB : Cell :=
  .mk { defaultCellData "b" with col_index := 1, image_path := some "pb" } []

/-- Cell `c` holding image `pc`. -/
def exMultiC : Cell :=
  .mk { defaultCellData "c" with col_index := 2, image_path := some "pc" } []

/-- A one-row, three-cell project with distinct images, the overlap
scenario for MultiSwap: the pair list names cell `b` twice. -/
def exMulti : Project :=
  { defaultProject with
      rows := [{ index := 0, column_count := 3, height_ratio := 1, column_ratios := [] }]
      cells := [exMultiA, exMultiB, exMultiC] }

/-- A numbering label (cell-scoped text item) attached to cell `s`. -/
def exC10Label : TextItem :=
  { id := "t1", text := "(a)", font_family := "Arial", font_size_pt := 12,
    font_weight := "bold", color := "#000000", scope := "cell",
    subtype := some "numbering", parent_id := some "s", x := 0, y := 0,
    anchor := none, offset_x := 0, offset_y := 0 }

/-- Label-row project: one real cell `v` in the only row, plus a stray
cell `s` whose `row_index` 99 matches no row template, with a numbering
label attached to the stray. -/
def exC10 : Project :=
  { defaultProject with
      label_placement := "label_row_above"
      rows := [{ index := 0, column_count := 1, height_ratio := 1, column_ratios := [] }]
      cells := [topCell "v" 0 0, topCell "s" 99 0]
      text_items := [exC10Label] }

/-- The same project with the stray cell removed. -/
def exC10b : Project :=
  { defaultProject with
      label_placement := "label_row_above"
      rows := [{ index := 0, column_count := 1, height_ratio := 1, column_ratios := [] }]
      cells := [topCell "v" 0 0]
      text_items := [exC10Label] }

/-- A project with an unlabeled stray cell `s` (row 99 has no template). -/
def exC10w : Project :=
  { defaultProject with
      rows := [{ index := 0, column_count := 2, height_ratio := 1, column_ratios := [] }]
      cells := [topCell "a" 0 0, topCell "b" 0 1, topCell "s" 99 0] }

/-- Every rect in a rect map has nonnegative width and height. -/
def rectsNonneg (m : List (α × Rect)) : Prop :=
  ∀ e ∈ m, 0 ≤ e.2.w ∧ 0 ≤ e.2.h

/-- Every split-ratio entry of the cell and its descendants is nonnegative. -/
def deepRatiosNonneg (c : Cell) : Prop :=
  ∀ c0 ∈ allCellsIn c, ∀ q ∈ c0.data.split_ratios, 0 ≤ q

/-! Theorems. -/

/-- Claim C3 (counterexample). In the 2 by 2, no-label scenario the
engine assigns cell r0c0 the rect `(10, 10, 94, 137.5)`: the width is 94,
not approximately 92.5 (off by 1.5 mm), and the height is 137.5, not
approximately 138.5 (off by 1 mm) — the claimed numbers contradict the
computation at millimetre scale. -/
theorem C3_counterexample :
    ((LayoutEngine.calculate_layout exAfourGrid).map (fun r => dictGet r.1.cell_rects "r0c0"))
      = some (some ⟨10, 10, 94, 275/2⟩)
    ∧ (94 : ℚ) - 185/2 = 3/2 ∧ (277/2 : ℚ) - 275/2 = 1 := by
  refine ⟨?_, by norm_num, by norm_num⟩
  norm_num [LayoutEngine.calculate_layout, LayoutEngine.content_width,
    LayoutEngine.content_height, LayoutEngine.sorted_rows, sortRowsByIndex, insertRowStable,
    LayoutEngine.label_row_above, LayoutEngine.label_row_h, LayoutEngine.label_row_height_mm,
    LayoutEngine.labeled_cell_ids, LayoutEngine.labeled_ids_step, LayoutEngine.rows_with_labels,
    LayoutEngine.num_label_rows, LayoutEngine.total_vertical_gaps, LayoutEngine.total_label_height,
    LayoutEngine.available_height_for_rows, LayoutEngine.rows_total_ratio, LayoutEngine.row_geoms,
    LayoutEngine.row_geoms_loop, LayoutEngine.compute_col_widths, LayoutEngine.padded_col_ratios,
    LayoutEngine.effective_col_ratios, LayoutEngine.place_rows,
    LayoutEngine.place_row_cells, pyIndex, dictSet, dictGet, topCell, defaultCellData,
    defaultProject, exAfourGrid, Cell.is_leaf, Cell.data, Cell.children,
    LayoutEngine.row_rects_calc, LayoutEngine.share, Int.toNat]
  try simp +decide

/-- Claim C3 (amended). In the 2 by 2, no-label scenario each cell
receives width 94 = (190 - 2) / 2 and height 137.5 = (277 - 2) / 2, at
the four positions x in {10, 106} and y in {10, 149.5}. -/
theorem C3_amended :
    ((LayoutEngine.calculate_layout exAfourGrid).map (fun r => r.1.cell_rects)) =
      some [("r0c0", ⟨10, 10, 94, 275/2⟩), ("r0c1", ⟨106, 10, 94, 275/2⟩),
            ("r1c0", ⟨10, 299/2, 94, 275/2⟩), ("r1c1", ⟨106, 299/2, 94, 275/2⟩)] := by
  norm_num [LayoutEngine.calculate_layout, LayoutEngine.content_width,
    LayoutEngine.content_height, LayoutEngine.sorted_rows, sortRowsByIndex, insertRowStable,
    LayoutEngine.label_row_above, LayoutEngine.label_row_h, LayoutEngine.label_row_height_mm,
    LayoutEngine.labeled_cell_ids, LayoutEngine.labeled_ids_step, LayoutEngine.rows_with_labels,
    LayoutEngine.num_label_rows, LayoutEngine.total_vertical_gaps, LayoutEngine.total_label_height,
    LayoutEngine.available_height_for_rows, LayoutEngine.rows_total_ratio, LayoutEngine.row_geoms,
    LayoutEngine.row_geoms_loop, LayoutEngine.compute_col_widths, LayoutEngine.padded_col_ratios,
    LayoutEngine.effective_col_ratios, LayoutEngine.place_rows,
    LayoutEngine.place_row_cells, pyIndex, dictSet, dictGet, topCell, defaultCellData,
    defaultProject, exAfourGrid, Cell.is_leaf, Cell.data, Cell.children,
    LayoutEngine.row_rects_calc, LayoutEngine.share, Int.toNat]
  simp +decide

/-- Claim C2 (code bug). `calculate_layout` mutates its input: on a
project whose single row has `column_ratios = [1.0]` and
`column_count = 2`, the call leaves the row's `column_ratios` as
`[1.0, 1.0]` — the `while` loop in `_compute_col_widths` appends onto
the row template's own list. -/
theorem C2_padding_mutation :
    ((LayoutEngine.calculate_layout exShortRatios).map
        (fun r => r.2.rows.map (fun t => t.column_ratios))) = some [[1, 1]]
    ∧ exShortRatios.rows.map (fun t => t.column_ratios) = [[1]] := by
  constructor
  · norm_num [LayoutEngine.calculate_layout, LayoutEngine.content_width,
      LayoutEngine.content_height, LayoutEngine.sorted_rows, sortRowsByIndex, insertRowStable,
      LayoutEngine.label_row_above, LayoutEngine.label_row_h, LayoutEngine.label_row_height_mm,
      LayoutEngine.labeled_cell_ids, LayoutEngine.labeled_ids_step, LayoutEngine.rows_with_labels,
      LayoutEngine.num_label_rows, LayoutEngine.total_vertical_gaps, LayoutEngine.total_label_height,
      LayoutEngine.available_height_for_rows, LayoutEngine.rows_total_ratio, LayoutEngine.row_geoms,
      LayoutEngine.row_geoms_loop, LayoutEngine.compute_col_widths, LayoutEngine.padded_col_ratios,
    LayoutEngine.effective_col_ratios, LayoutEngine.place_rows,
      LayoutEngine.place_row_cells, pyIndex, dictSet, dictGet, topCell, defaultCellData,
      defaultProject, exShortRatios, Cell.is_leaf, Cell.data, Cell.children,
      LayoutEngine.row_rects_calc, LayoutEngine.share, Int.toNat]
    try simp +decide
  · norm_num [exShortRatios]

/-- Claim C7 (counterexample). With 100 columns of gap 2 mm on a 190 mm
content width, the column gaps (198 mm) exceed the content width and
`_compute_col_widths` does not clamp: cell a receives the rect
`(10, 10, -0.08, 277)` with a negative width, contradicting the claim
that no rect of the result has negative width or height. -/
theorem C7_counterexample :
    ((LayoutEngine.calculate_layout exManyColumns).map (fun r => dictGet r.1.cell_rects "a"))
      = some (some ⟨10, 10, -2/25, 277⟩)
    ∧ (-2/25 : ℚ) < 0 := by
  refine ⟨?_, by norm_num⟩
  norm_num [LayoutEngine.calculate_layout, LayoutEngine.content_width,
    LayoutEngine.content_height, LayoutEngine.sorted_rows, sortRowsByIndex, insertRowStable,
    LayoutEngine.label_row_above, LayoutEngine.label_row_h, LayoutEngine.label_row_height_mm,
    LayoutEngine.labeled_cell_ids, LayoutEngine.labeled_ids_step, LayoutEngine.rows_with_labels,
    LayoutEngine.num_label_rows, LayoutEngine.total_vertical_gaps, LayoutEngine.total_label_height,
    LayoutEngine.available_height_for_rows, LayoutEngine.rows_total_ratio, LayoutEngine.row_geoms,
    LayoutEngine.row_geoms_loop, LayoutEngine.compute_col_widths, LayoutEngine.padded_col_ratios,
    LayoutEngine.effective_col_ratios, LayoutEngine.place_rows,
    LayoutEngine.place_row_cells, pyIndex, dictSet, dictGet, topCell, defaultCellData,
    defaultProject, exManyColumns, Cell.is_leaf, Cell.data, Cell.children,
    LayoutEngine.row_rects_calc, LayoutEngine.share, Int.toNat]
  try simp +decide

/-- Claim C4 (counterexample). `DeleteRowCommand.redo` has no last-row
guard: applied to a project with exactly one row it removes that row
(and its cells) instead of refusing as a no-op. -/
theorem C4_counterexample :
    ((Commands.mkDeleteRowCommand exOneRow 0).redo exOneRow).rows = []
    ∧ exOneRow.rows ≠ [] := by
  constructor
  · norm_num [Commands.mkDeleteRowCommand, Commands.DeleteRowCommand.redo, exOneRow,
      topCell, defaultProject, defaultCellData, Cell.mapTopData, Cell.data]
    try simp +decide
  · norm_num [exOneRow, defaultProject]

/-- Claim C1 (counterexample). `calculate_layout` is not total on every
Project value: a top-level cell with `col_index = -3` in a two-column
row drives `col_widths[cell.col_index]` out of range (Python negative
indexing below `-len`), raising `IndexError` — modelled by the engine
returning `none`. -/
theorem C1_counterexample :
    LayoutEngine.calculate_layout exNegCol = none := by
  norm_num [LayoutEngine.calculate_layout, LayoutEngine.content_width,
    LayoutEngine.content_height, LayoutEngine.sorted_rows, sortRowsByIndex, insertRowStable,
    LayoutEngine.label_row_above, LayoutEngine.label_row_h, LayoutEngine.label_row_height_mm,
    LayoutEngine.labeled_cell_ids, LayoutEngine.labeled_ids_step, LayoutEngine.rows_with_labels,
    LayoutEngine.num_label_rows, LayoutEngine.total_vertical_gaps, LayoutEngine.total_label_height,
    LayoutEngine.available_height_for_rows, LayoutEngine.rows_total_ratio, LayoutEngine.row_geoms,
    LayoutEngine.row_geoms_loop, LayoutEngine.compute_col_widths, LayoutEngine.padded_col_ratios,
    LayoutEngine.effective_col_ratios, LayoutEngine.place_rows,
    LayoutEngine.place_row_cells, pyIndex, dictSet, dictGet, topCell, defaultCellData,
    defaultProject, exNegCol, Cell.is_leaf, Cell.data, Cell.children,
    LayoutEngine.row_rects_calc, LayoutEngine.share, Int.toNat]

/-- The effective column ratio list always has exactly `column_count`
entries (clamped at zero for nonpositive counts). -/
theorem effective_col_ratios_length (r : RowTemplate) :
    (LayoutEngine.effective_col_ratios r).length = r.column_count.toNat := by
  unfold LayoutEngine.effective_col_ratios LayoutEngine.padded_col_ratios
  by_cases h : r.column_ratios.isEmpty <;>
    simp [h, List.length_take] <;> omega

/-- For a positive column count, `_compute_col_widths` returns exactly
`column_count` widths. -/
theorem compute_col_widths_length (r : RowTemplate) (cw g : ℚ) (h : 0 < r.column_count) :
    ((LayoutEngine.compute_col_widths r cw g).1).length = r.column_count.toNat := by
  unfold LayoutEngine.compute_col_widths
  rw [if_neg (by omega)]
  simp [effective_col_ratios_length]

/-- Python indexing succeeds on a nonnegative in-range index. -/
theorem pyIndex_isSome (l : List α) (i : Int) (h0 : 0 ≤ i) (h1 : i < (l.length : Int)) :
    (pyIndex l i).isSome = true := by
  unfold pyIndex
  rw [if_pos h0]
  have hn : i.toNat < l.length := by omega
  rw [List.getElem?_eq_getElem hn]
  rfl

/-- The per-row placement loop never fails when every cell in the row
has a nonnegative column index. -/
theorem place_row_cells_isSome (row_cells : List Cell) (col_widths : List ℚ)
    (col_count : Int) (ml g : ℚ) (lbl_y : Option ℚ) (lbl_h pic_y pic_h lrh : ℚ)
    (labeled : List String) (lra : Bool) (acc : Rects)
    (hlen : (col_widths.length : Int) = col_count)
    (hcells : ∀ c ∈ row_cells, 0 ≤ c.data.col_index) :
    (LayoutEngine.place_row_cells row_cells col_widths col_count ml g lbl_y lbl_h
      pic_y pic_h lrh labeled lra acc).isSome = true := by
  induction row_cells generalizing acc with
  | nil => simp [LayoutEngine.place_row_cells]
  | cons cell rest ih =>
    unfold LayoutEngine.place_row_cells
    by_cases hskip : col_count ≤ cell.data.col_index
    · rw [if_pos hskip]
      exact ih acc (fun c hc => hcells c (List.mem_cons_of_mem _ hc))
    · rw [if_neg hskip]
      have h0 : 0 ≤ cell.data.col_index := hcells cell (List.mem_cons_self _ _)
      have hs : (pyIndex col_widths cell.data.col_index).isSome = true :=
        pyIndex_isSome _ _ h0 (by omega)
      obtain ⟨w, hw⟩ := Option.isSome_iff_exists.mp hs
      rw [hw]
      exact ih _ (fun c hc => hcells c (List.mem_cons_of_mem _ hc))

/-- The placement over all rows never fails when every top-level cell
has a nonnegative column index. -/
theorem place_rows_isSome (geoms : List LayoutEngine.RowGeom) (cells : List Cell)
    (cw ml g lrh : ℚ) (labeled : List String) (lra : Bool) (acc : Rects)
    (hcells : ∀ c ∈ cells, 0 ≤ c.data.col_index) :
    (LayoutEngine.place_rows geoms cells cw ml g lrh labeled lra acc).isSome = true := by
  induction geoms generalizing acc with
  | nil => simp [LayoutEngine.place_rows]
  | cons geo rest ih =>
    unfold LayoutEngine.place_rows
    by_cases hcc : geo.r_temp.column_count ≤ 0
    · rw [if_pos hcc]
      exact ih acc
    · rw [if_neg hcc]
      have hlen : ((((LayoutEngine.compute_col_widths geo.r_temp cw g).1).length : Nat) : Int)
          = geo.r_temp.column_count := by
        rw [compute_col_widths_length geo.r_temp cw g (by omega)]
        omega
      have hrow := place_row_cells_isSome
        (cells.filter (fun c => decide (c.data.row_index = geo.r_temp.index)))
        ((LayoutEngine.compute_col_widths geo.r_temp cw g).1) geo.r_temp.column_count
        ml g geo.lbl_y geo.lbl_h geo.pic_y geo.pic_h lrh labeled lra acc hlen
        (fun c hc => hcells c (List.mem_of_mem_filter hc))
      obtain ⟨acc2, hacc2⟩ := Option.isSome_iff_exists.mp hrow
      rw [hacc2]
      exact ih acc2

/-- Claim C1 (amended). `calculate_layout` completes and returns a
`LayoutResult` (raising no exception, modelled by `isSome`) on every
Project whose top-level cells have nonnegative `col_index` — in
particular on every well-formed Project and on cells built by the `Cell`
constructor, whose default `col_index` is 0. The engine is a pure
function of the Project value in the model, hence deterministic. -/
theorem C1_amended (p : Project) (h : ∀ c ∈ p.cells, 0 ≤ c.data.col_index) :
    (LayoutEngine.calculate_layout p).isSome = true := by
  unfold LayoutEngine.calculate_layout
  split
  · rfl
  · split
    · rfl
    · have hpr := place_rows_isSome (LayoutEngine.row_geoms p).1 p.cells
        (LayoutEngine.content_width p) p.margin_left_mm p.gap_mm
        (LayoutEngine.label_row_h p) (LayoutEngine.labeled_cell_ids p)
        (LayoutEngine.label_row_above p) ([], []) h
      obtain ⟨acc, hacc⟩ := Option.isSome_iff_exists.mp hpr
      rw [hacc]
      rfl

/-- Claim C1 (witness). The amended totality theorem applied to the
concrete one-row project. -/
theorem C1_amended_witness : (LayoutEngine.calculate_layout exOneRow).isSome = true := by
  apply C1_amended exOneRow
  intro c hc
  simp only [exOneRow, defaultProject, topCell, List.mem_cons, List.not_mem_nil, or_false] at hc
  rcases hc with h | h <;> subst h <;> norm_num [Cell.data, defaultCellData]

/-- Claim C4 (amended). `DeleteCellCommand.redo` refuses silently (exact
no-op on the Project) whenever the addressed row is missing or has at
most one column; `DeleteRowCommand.redo` has no last-row guard: on a
project all of whose rows carry the deleted index (in particular a
single-row project) it leaves zero rows. -/
theorem C4_amended :
    (∀ (p : Project) (ri ci : Int),
        (∀ r ∈ p.rows, r.index = ri → r.column_count ≤ 1) →
        (Commands.mkDeleteCellCommand p ri ci).redo p = p)
    ∧ (∀ (p : Project) (ri : Int),
        (∀ r ∈ p.rows, r.index = ri) →
        ((Commands.mkDeleteRowCommand p ri).redo p).rows = []) := by
  constructor
  · intro p ri ci hguard
    unfold Commands.mkDeleteCellCommand Commands.DeleteCellCommand.redo
    cases hf : p.rows.find? (fun r => decide (r.index = ri)) with
    | none => rfl
    | some row =>
      have hmem := List.mem_of_find?_eq_some hf
      have heq : row.index = ri := by
        have := List.find?_some hf
        simpa using this
      have hle : row.column_count ≤ 1 := hguard row hmem heq
      dsimp only
      rw [if_pos hle]
  · intro p ri hall
    unfold Commands.mkDeleteRowCommand Commands.DeleteRowCommand.redo
    have hnil : p.rows.filter (fun r => decide (r.index ≠ ri)) = [] := by
      rw [List.filter_eq_nil_iff]
      intro r hr
      simp [hall r hr]
    simp [hnil]
    exact hall

/-- Claim C4 (witness). The amended theorem at the one-row project:
deleting a cell of a missing row is a no-op, deleting row 0 of the
single-row project empties the rows. -/
theorem C4_amended_witness :
    (Commands.mkDeleteCellCommand exOneRow 5 0).redo exOneRow = exOneRow
    ∧ ((Commands.mkDeleteRowCommand exOneRow 0).redo exOneRow).rows = [] := by
  constructor
  · apply C4_amended.1 exOneRow 5 0
    intro r hr heq
    simp only [exOneRow, defaultProject, List.mem_cons, List.not_mem_nil, or_false] at hr
    subst hr
    simp at heq
  · apply C4_amended.2 exOneRow 0
    intro r hr
    simp only [exOneRow, defaultProject, List.mem_cons, List.not_mem_nil, or_false] at hr
    subst hr
    rfl

/-- Claim C5 (counterexample). Partition completeness fails on a project
with positive content area whose height ratios sum to zero: both rows
get picture height 0, and 0 + 0 plus the single 2 mm inter-row gap does
not equal the 277 mm content height. -/
theorem C5_counterexample :
    ((LayoutEngine.calculate_layout exZeroRatios).map (fun r => r.1.row_heights))
      = some [(0, 0), (1, 0)]
    ∧ LayoutEngine.content_height exZeroRatios = 277
    ∧ ((0 : ℚ) + 0 + 2 ≠ 277) := by
  refine ⟨?_, by norm_num [LayoutEngine.content_height, exZeroRatios, defaultProject], by norm_num⟩
  norm_num [LayoutEngine.calculate_layout, LayoutEngine.content_width,
    LayoutEngine.content_height, LayoutEngine.sorted_rows, sortRowsByIndex, insertRowStable,
    LayoutEngine.label_row_above, LayoutEngine.label_row_h, LayoutEngine.label_row_height_mm,
    LayoutEngine.labeled_cell_ids, LayoutEngine.labeled_ids_step, LayoutEngine.rows_with_labels,
    LayoutEngine.num_label_rows, LayoutEngine.total_vertical_gaps, LayoutEngine.total_label_height,
    LayoutEngine.available_height_for_rows, LayoutEngine.rows_total_ratio, LayoutEngine.row_geoms,
    LayoutEngine.row_geoms_loop, LayoutEngine.compute_col_widths, LayoutEngine.padded_col_ratios,
    LayoutEngine.effective_col_ratios, LayoutEngine.place_rows,
    LayoutEngine.place_row_cells, pyIndex, dictSet, dictGet, topCell, defaultCellData,
    defaultProject, exZeroRatios, Cell.is_leaf, Cell.data, Cell.children,
    LayoutEngine.row_rects_calc, LayoutEngine.share, Int.toNat]
  try simp +decide

/-- Distributing shares over a ratio list: the shares sum to
`sum / total * available`. -/
theorem map_share_sum (l : List ℚ) (T A : ℚ) :
    (l.map (fun q => q / T * A)).sum = l.sum / T * A := by
  induction l with
  | nil => simp
  | cons q rest ih =>
    simp only [List.map_cons, List.sum_cons, ih]
    ring

/-- The picture heights produced by the row-geometry loop sum to
`(sum of height ratios) / total * available`, for a positive total. -/
theorem row_geoms_loop_pic_h_sum (templates : List RowTemplate) (T A gap lrh : ℚ)
    (lra : Bool) (rwl : List Int) (y : ℚ) (rh : List (Int × ℚ)) (hT : 0 < T) :
    (((LayoutEngine.row_geoms_loop templates T A gap lrh lra rwl y rh).1).map
        (fun g => g.pic_h)).sum
      = (templates.map (fun r => r.height_ratio)).sum / T * A := by
  induction templates generalizing y rh with
  | nil => simp [LayoutEngine.row_geoms_loop]
  | cons r rest ih =>
    unfold LayoutEngine.row_geoms_loop
    rw [if_pos hT]
    by_cases hlbl : lra = true ∧ r.index ∈ rwl
    · rw [if_pos hlbl]
      simp only [List.map_cons, List.sum_cons, ih]
      ring
    · rw [if_neg hlbl]
      simp only [List.map_cons, List.sum_cons, ih]
      ring

/-- Claim C5 (amended). Exact partition identities of the engine, each
under the conditions the code's fallbacks and clamps impose: (i) the row
picture heights plus inter-row gaps plus label-row reservations equal
the content height whenever the height ratios have positive sum and the
available height is not clamped; (ii) a row's column widths plus its
inter-column gaps equal the content width whenever its effective column
ratios have positive sum (no clamp exists on this axis); (iii) for every
split container at any depth, the children's shares along the split
axis plus inter-child gaps (plus, for vertical splits, inline label
reservations) equal the parent extent whenever the effective split
ratios have positive sum and the available extent is not clamped. -/
theorem C5_amended :
    (∀ p : Project,
        0 < ((LayoutEngine.sorted_rows p).map (fun r => r.height_ratio)).sum →
        0 ≤ LayoutEngine.content_height p - LayoutEngine.total_vertical_gaps p
            - LayoutEngine.total_label_height p →
        (((LayoutEngine.row_geoms p).1).map (fun g => g.pic_h)).sum
            + LayoutEngine.total_vertical_gaps p + LayoutEngine.total_label_height p
          = LayoutEngine.content_height p)
    ∧ (∀ (r : RowTemplate) (cw gap : ℚ),
        0 < r.column_count →
        0 < (LayoutEngine.effective_col_ratios r).sum →
        ((LayoutEngine.compute_col_widths r cw gap).1).sum
            + (if 1 < r.column_count then ((r.column_count : ℚ) - 1) * gap else 0)
          = cw)
    ∧ (∀ (d : CellData) (children : List Cell) (extent gap lrh : ℚ)
          (labeled : List String) (lra : Bool),
        0 < (LayoutEngine.subcell_ratios d children).sum →
        0 ≤ extent - LayoutEngine.subcell_total_gap children gap
            - LayoutEngine.vertical_label_space children labeled lra lrh gap →
        ((LayoutEngine.subcell_ratios d children).map
            (fun q => LayoutEngine.share q (LayoutEngine.subcell_total_ratio d children)
              (LayoutEngine.subcell_available_v extent
                (LayoutEngine.subcell_total_gap children gap)
                (LayoutEngine.vertical_label_space children labeled lra lrh gap)))).sum
            + LayoutEngine.subcell_total_gap children gap
            + LayoutEngine.vertical_label_space children labeled lra lrh gap
          = extent)
    ∧ (∀ (d : CellData) (children : List Cell) (extent gap : ℚ),
        0 < (LayoutEngine.subcell_ratios d children).sum →
        0 ≤ extent - LayoutEngine.subcell_total_gap children gap →
        ((LayoutEngine.subcell_ratios d children).map
            (fun q => LayoutEngine.share q (LayoutEngine.subcell_total_ratio d children)
              (LayoutEngine.subcell_available_h extent
                (LayoutEngine.subcell_total_gap children gap)))).sum
            + LayoutEngine.subcell_total_gap children gap
          = extent) := by
  refine ⟨?_, ?_, ?_, ?_⟩
  · intro p hS hA
    have hSne : ((LayoutEngine.sorted_rows p).map (fun r => r.height_ratio)).sum ≠ 0 :=
      ne_of_gt hS
    have hT : LayoutEngine.rows_total_ratio p
        = ((LayoutEngine.sorted_rows p).map (fun r => r.height_ratio)).sum := by
      unfold LayoutEngine.rows_total_ratio
      rw [if_neg hSne]
    have hAv : LayoutEngine.available_height_for_rows p
        = LayoutEngine.content_height p - LayoutEngine.total_vertical_gaps p
          - LayoutEngine.total_label_height p := by
      unfold LayoutEngine.available_height_for_rows
      rw [if_neg (by linarith)]
    unfold LayoutEngine.row_geoms
    rw [row_geoms_loop_pic_h_sum _ _ _ _ _ _ _ _ _ (by rw [hT]; exact hS)]
    rw [hT, div_self hSne, one_mul, hAv]
    ring
  · intro r cw gap hcc hS
    unfold LayoutEngine.compute_col_widths
    rw [if_neg (by omega)]
    simp only
    rw [if_neg (not_le.mpr hS)]
    rw [map_share_sum, div_self (ne_of_gt hS), one_mul]
    ring
  · intro d children extent gap lrh labeled lra hS hA
    have hT : LayoutEngine.subcell_total_ratio d children
        = (LayoutEngine.subcell_ratios d children).sum := by
      unfold LayoutEngine.subcell_total_ratio
      rw [if_neg (not_le.mpr hS)]
    have hAv : LayoutEngine.subcell_available_v extent
        (LayoutEngine.subcell_total_gap children gap)
        (LayoutEngine.vertical_label_space children labeled lra lrh gap)
        = extent - LayoutEngine.subcell_total_gap children gap
          - LayoutEngine.vertical_label_space children labeled lra lrh gap := by
      unfold LayoutEngine.subcell_available_v
      rw [if_neg (by linarith)]
    simp only [LayoutEngine.share, hT, hAv]
    rw [map_share_sum, div_self (ne_of_gt hS), one_mul]
    ring
  · intro d children extent gap hS hA
    have hT : LayoutEngine.subcell_total_ratio d children
        = (LayoutEngine.subcell_ratios d children).sum := by
      unfold LayoutEngine.subcell_total_ratio
      rw [if_neg (not_le.mpr hS)]
    have hAv : LayoutEngine.subcell_available_h extent
        (LayoutEngine.subcell_total_gap children gap)
        = extent - LayoutEngine.subcell_total_gap children gap := by
      unfold LayoutEngine.subcell_available_h
      rw [if_neg (by linarith)]
    simp only [LayoutEngine.share, hT, hAv]
    rw [map_share_sum, div_self (ne_of_gt hS), one_mul]
    ring

/-- Claim C5 (witness). The partition identities instantiated: the
2 by 2 scenario rows sum to the content height; a 2-column row's widths
sum with its gap to 190; a vertical and a horizontal 2-way split of a
100 mm extent partition it exactly. -/
theorem C5_amended_witness :
    ((((LayoutEngine.row_geoms exAfourGrid).1).map (fun g => g.pic_h)).sum
        + LayoutEngine.total_vertical_gaps exAfourGrid
        + LayoutEngine.total_label_height exAfourGrid
      = LayoutEngine.content_height exAfourGrid)
    ∧ (((LayoutEngine.compute_col_widths
          { index := 0, column_count := 2, height_ratio := 1, column_ratios := [] } 190 2).1).sum
          + (if 1 < (2 : Int) then (((2 : Int) : ℚ) - 1) * 2 else 0)
        = 190)
    ∧ (((LayoutEngine.subcell_ratios (defaultCellData "k") [topCell "x" 0 0, topCell "y" 0 0]).map
          (fun q => LayoutEngine.share q
            (LayoutEngine.subcell_total_ratio (defaultCellData "k") [topCell "x" 0 0, topCell "y" 0 0])
            (LayoutEngine.subcell_available_v 100
              (LayoutEngine.subcell_total_gap [topCell "x" 0 0, topCell "y" 0 0] 2)
              (LayoutEngine.vertical_label_space [topCell "x" 0 0, topCell "y" 0 0] [] false 0 2)))).sum
          + LayoutEngine.subcell_total_gap [topCell "x" 0 0, topCell "y" 0 0] 2
          + LayoutEngine.vertical_label_space [topCell "x" 0 0, topCell "y" 0 0] [] false 0 2
        = 100)
    ∧ (((LayoutEngine.subcell_ratios (defaultCellData "k") [topCell "x" 0 0, topCell "y" 0 0]).map
          (fun q => LayoutEngine.share q
            (LayoutEngine.subcell_total_ratio (defaultCellData "k") [topCell "x" 0 0, topCell "y" 0 0])
            (LayoutEngine.subcell_available_h 100
              (LayoutEngine.subcell_total_gap [topCell "x" 0 0, topCell "y" 0 0] 2)))).sum
          + LayoutEngine.subcell_total_gap [topCell "x" 0 0, topCell "y" 0 0] 2
        = 100) := by
  refine ⟨C5_amended.1 exAfourGrid ?_ ?_, C5_amended.2.1 _ 190 2 (by norm_num) ?_,
          C5_amended.2.2.1 _ _ 100 2 0 [] false ?_ ?_, C5_amended.2.2.2 _ _ 100 2 ?_ ?_⟩
  · norm_num [LayoutEngine.sorted_rows, sortRowsByIndex, insertRowStable, exAfourGrid,
      defaultProject]
  · norm_num [LayoutEngine.content_height, LayoutEngine.total_vertical_gaps,
      LayoutEngine.total_label_height, LayoutEngine.num_label_rows, LayoutEngine.label_row_above,
      LayoutEngine.sorted_rows, sortRowsByIndex, insertRowStable, exAfourGrid, defaultProject]
    try simp +decide
    try norm_num
  · norm_num [LayoutEngine.effective_col_ratios, LayoutEngine.padded_col_ratios]
  · norm_num [LayoutEngine.subcell_ratios, defaultCellData]
  · norm_num [LayoutEngine.subcell_total_gap, LayoutEngine.vertical_label_space]
  · norm_num [LayoutEngine.subcell_ratios, defaultCellData]
  · norm_num [LayoutEngine.subcell_total_gap]

/-- Python dict assignment preserves a pointwise property of the values. -/
theorem dictSet_forall [DecidableEq α] (P : β → Prop) :
    ∀ (m : List (α × β)) (k : α) (v : β), (∀ e ∈ m, P e.2) → P v →
      ∀ e ∈ dictSet m k v, P e.2 := by
  intro m
  induction m with
  | nil =>
    intro k v _ hv e he
    simp only [dictSet, List.mem_singleton] at he
    subst he
    exact hv
  | cons kv rest ih =>
    intro k v hm hv e he
    obtain ⟨k1, v1⟩ := kv
    rw [dictSet] at he
    by_cases hk : k1 = k
    · rw [if_pos hk] at he
      rcases List.mem_cons.mp he with h | h
      · subst h; exact hv
      · exact hm e (List.mem_cons_of_mem _ h)
    · rw [if_neg hk] at he
      rcases List.mem_cons.mp he with h | h
      · subst h; exact hm (k1, v1) (List.mem_cons_self _ _)
      · exact ih k v (fun x hx => hm x (List.mem_cons_of_mem _ hx)) hv e h

/-- A successful Python subscript returns an element of the list. -/
theorem pyIndex_mem (l : List α) (i : Int) (a : α) (h : pyIndex l i = some a) : a ∈ l := by
  unfold pyIndex at h
  split at h
  · exact List.getElem?_mem h
  · split at h
    · exact List.getElem?_mem h
    · cases h

/-- Entries of the effective column ratio list are nonnegative when the
row's stored ratios are (the fills are all `1.0`). -/
theorem effective_col_ratios_nonneg (r : RowTemplate)
    (h : ∀ x ∈ r.column_ratios, 0 ≤ x) :
    ∀ q ∈ LayoutEngine.effective_col_ratios r, 0 ≤ q := by
  intro q hq
  simp only [LayoutEngine.effective_col_ratios, LayoutEngine.padded_col_ratios] at hq
  have hq2 := List.mem_of_mem_take hq
  rcases List.mem_append.mp hq2 with h1 | h1
  · by_cases he : r.column_ratios.isEmpty
    · rw [if_pos he] at h1
      have := List.eq_of_mem_replicate h1
      subst this
      norm_num
    · rw [if_neg he] at h1
      exact h _ h1
  · have := List.eq_of_mem_replicate h1
    subst this
    norm_num

/-- Entries of the effective split ratio list are nonnegative when the
container's stored ratios are. -/
theorem subcell_ratios_nonneg (d : CellData) (children : List Cell)
    (h : ∀ x ∈ d.split_ratios, 0 ≤ x) :
    ∀ q ∈ LayoutEngine.subcell_ratios d children, 0 ≤ q := by
  intro q hq
  simp only [LayoutEngine.subcell_ratios] at hq
  have hq2 := List.mem_of_mem_take hq
  rcases List.mem_append.mp hq2 with h1 | h1
  · by_cases he : d.split_ratios.isEmpty
    · rw [if_pos he] at h1
      have := List.eq_of_mem_replicate h1
      subst this
      norm_num
    · rw [if_neg he] at h1
      exact h _ h1
  · have := List.eq_of_mem_replicate h1
    subst this
    norm_num

/-- The guarded total split ratio is positive for a nonempty child list. -/
theorem subcell_total_ratio_pos (d : CellData) (children : List Cell)
    (hne : children ≠ []) : 0 < LayoutEngine.subcell_total_ratio d children := by
  unfold LayoutEngine.subcell_total_ratio
  by_cases h : (LayoutEngine.subcell_ratios d children).sum ≤ 0
  · simp only [h, if_true]
    have : 0 < children.length := List.length_pos.mpr hne
    exact_mod_cast this
  · simp only [h, if_false]
    linarith [not_le.mp h]

/-- A share of a nonnegative extent with nonnegative ratio and positive
total is nonnegative. -/
theorem share_nonneg (q T A : ℚ) (hq : 0 ≤ q) (hT : 0 < T) (hA : 0 ≤ A) :
    0 ≤ LayoutEngine.share q T A :=
  mul_nonneg (div_nonneg hq hT.le) hA

/-- The clamped vertical available extent is nonnegative. -/
theorem subcell_available_v_nonneg (e g l : ℚ) :
    0 ≤ LayoutEngine.subcell_available_v e g l := by
  unfold LayoutEngine.subcell_available_v
  by_cases h : e - g - l < 0 <;> simp [h] <;> linarith

/-- The clamped horizontal available extent is nonnegative. -/
theorem subcell_available_h_nonneg (e g : ℚ) :
    0 ≤ LayoutEngine.subcell_available_h e g := by
  unfold LayoutEngine.subcell_available_h
  by_cases h : e - g < 0 <;> simp [h] <;> linarith

/-- The effective label row height is nonnegative. -/
theorem label_row_h_nonneg (p : Project) : 0 ≤ LayoutEngine.label_row_h p := by
  unfold LayoutEngine.label_row_h
  split
  · split
    · linarith [(by assumption : 0 < p.label_row_height)]
    · unfold LayoutEngine.label_row_height_mm
      have := le_max_left (5 : ℚ) (min 50 ((p.label_font_size : ℚ) * (6/5) + 2))
      linarith
  · exact le_refl 0

/-- Cells of a member tree are cells of the forest. -/
theorem allCellsIn_sub (c : Cell) (cs : List Cell) (hc : c ∈ cs) :
    ∀ x ∈ allCellsIn c, x ∈ allCellsList cs := by
  induction cs with
  | nil => cases hc
  | cons c0 rest ih =>
    intro x hx
    rw [allCellsList]
    rcases List.mem_cons.mp hc with h | h
    · subst h; exact List.mem_append.mpr (Or.inl hx)
    · exact List.mem_append.mpr (Or.inr (ih h x hx))

/-- Deep ratio nonnegativity passes to every child. -/
theorem deepRatiosNonneg_child (d : CellData) (children : List Cell)
    (hd : deepRatiosNonneg (.mk d children)) (c : Cell) (hc : c ∈ children) :
    deepRatiosNonneg c := by
  intro c0 hc0
  apply hd
  rw [allCellsIn]
  exact List.mem_cons_of_mem _ (allCellsIn_sub c children hc c0 hc0)

/-- Deep ratio nonnegativity covers the node's own split ratios. -/
theorem deepRatiosNonneg_self (d : CellData) (cs : List Cell)
    (h : deepRatiosNonneg (.mk d cs)) : ∀ q ∈ d.split_ratios, 0 ≤ q := by
  intro q hq
  have hm : Cell.mk d cs ∈ allCellsIn (.mk d cs) := by
    rw [allCellsIn]
    exact List.mem_cons_self _ _
  exact h (.mk d cs) hm q hq

/-- Size-bounded invariant: the sub-cell layout recursion only records
rects with nonnegative width and height, given nonnegative deep split
ratios, a nonnegative parent rect and label row height. -/
theorem layout_nonneg_aux : ∀ N : Nat,
    (∀ (parent : Cell) (rect : Rect) (gap lrh : ℚ) (labeled : List String) (lra : Bool)
        (acc : Rects), sizeOf parent ≤ N → deepRatiosNonneg parent →
        0 ≤ rect.w → 0 ≤ rect.h → 0 ≤ lrh → rectsNonneg acc.1 → rectsNonneg acc.2 →
        rectsNonneg (LayoutEngine.layout_subcells parent rect gap lrh labeled lra acc).1
        ∧ rectsNonneg (LayoutEngine.layout_subcells parent rect gap lrh labeled lra acc).2)
    ∧ (∀ (children : List Cell) (ratios : List ℚ) (px cy pw available T gap lrh : ℚ)
        (labeled : List String) (lra : Bool) (acc : Rects), sizeOf children ≤ N →
        (∀ c ∈ children, deepRatiosNonneg c) → (∀ q ∈ ratios, 0 ≤ q) →
        0 < T → 0 ≤ available → 0 ≤ pw → 0 ≤ lrh → rectsNonneg acc.1 → rectsNonneg acc.2 →
        rectsNonneg (LayoutEngine.layout_children_v children ratios px cy pw available T
          gap lrh labeled lra acc).1
        ∧ rectsNonneg (LayoutEngine.layout_children_v children ratios px cy pw available T
          gap lrh labeled lra acc).2)
    ∧ (∀ (children : List Cell) (ratios : List ℚ) (cx py ph available T gap lrh : ℚ)
        (labeled : List String) (lra : Bool) (acc : Rects), sizeOf children ≤ N →
        (∀ c ∈ children, deepRatiosNonneg c) → (∀ q ∈ ratios, 0 ≤ q) →
        0 < T → 0 ≤ available → 0 ≤ ph → 0 ≤ lrh → rectsNonneg acc.1 → rectsNonneg acc.2 →
        rectsNonneg (LayoutEngine.layout_children_h children ratios cx py ph available T
          gap lrh labeled lra acc).1
        ∧ rectsNonneg (LayoutEngine.layout_children_h children ratios cx py ph available T
          gap lrh labeled lra acc).2) := by
  intro N
  induction N using Nat.strong_induction_on with
  | _ N ih =>
    refine ⟨?_, ?_, ?_⟩
    · intro parent rect gap lrh labeled lra acc hsz hdeep hw hh hlrh h1 h2
      obtain ⟨d, children⟩ := parent
      rw [LayoutEngine.layout_subcells]
      dsimp only
      have hszc : sizeOf children < N := by
        simp only [Cell.mk.sizeOf_spec] at hsz
        omega
      by_cases hemp : children.isEmpty = true
      · rw [if_pos hemp]; exact ⟨h1, h2⟩
      · rw [if_neg hemp]
        have hne : children ≠ [] := by simpa using hemp
        by_cases hv : d.split_direction = "vertical"
        · rw [if_pos hv]
          exact (ih _ hszc).2.1 children (LayoutEngine.subcell_ratios d children)
            rect.x rect.y rect.w _ _ gap lrh labeled lra acc (le_refl _)
            (fun c hc => deepRatiosNonneg_child d children hdeep c hc)
            (subcell_ratios_nonneg d children (deepRatiosNonneg_self d children hdeep))
            (subcell_total_ratio_pos d children hne)
            (subcell_available_v_nonneg _ _ _) hw hlrh h1 h2
        · rw [if_neg hv]
          by_cases hho : d.split_direction = "horizontal"
          · rw [if_pos hho]
            exact (ih _ hszc).2.2 children (LayoutEngine.subcell_ratios d children)
              rect.x rect.y rect.h _ _ gap lrh labeled lra acc (le_refl _)
              (fun c hc => deepRatiosNonneg_child d children hdeep c hc)
              (subcell_ratios_nonneg d children (deepRatiosNonneg_self d children hdeep))
              (subcell_total_ratio_pos d children hne)
              (subcell_available_h_nonneg _ _) hh hlrh h1 h2
          · rw [if_neg hho]
            exact ⟨h1, h2⟩
    · intro children ratios px cy pw available T gap lrh labeled lra acc hsz hdeep hrat hT hav hpw hlrh h1 h2
      cases children with
      | nil =>
        rw [LayoutEngine.layout_children_v]
        exact ⟨h1, h2⟩
      | cons child rest =>
        cases ratios with
        | nil =>
          rw [LayoutEngine.layout_children_v]
          exact ⟨h1, h2⟩
        | cons r rs =>
          rw [LayoutEngine.layout_children_v]
          dsimp only
          have hszrest : sizeOf rest < N := by
            simp only [List.cons.sizeOf_spec] at hsz
            omega
          have hszchild : sizeOf child < N := by
            simp only [List.cons.sizeOf_spec] at hsz
            omega
          have hchild_h : 0 ≤ LayoutEngine.share r T available :=
            share_nonneg r T available (hrat r (List.mem_cons_self _ _)) hT hav
          have hratrest : ∀ q ∈ rs, 0 ≤ q := fun q hq => hrat q (List.mem_cons_of_mem _ hq)
          have hdeeprest : ∀ c ∈ rest, deepRatiosNonneg c :=
            fun c hc => hdeep c (List.mem_cons_of_mem _ hc)
          have hdc : deepRatiosNonneg child := hdeep child (List.mem_cons_self _ _)
          by_cases hlbl : lra = true ∧ child.is_leaf = true ∧ child.data.id ∈ labeled
          · rw [if_pos hlbl]
            have hlr2 : rectsNonneg (dictSet acc.2 child.data.id ⟨px, cy, pw, lrh⟩) :=
              dictSet_forall (fun v : Rect => 0 ≤ v.w ∧ 0 ≤ v.h) acc.2 _ _ h2 ⟨hpw, hlrh⟩
            have hcr2 : rectsNonneg (dictSet acc.1 child.data.id
                ⟨px, cy + lrh + gap, pw, LayoutEngine.share r T available⟩) :=
              dictSet_forall (fun v : Rect => 0 ≤ v.w ∧ 0 ≤ v.h) acc.1 _ _ h1 ⟨hpw, hchild_h⟩
            have hacc2 : rectsNonneg (if child.is_leaf then ((dictSet acc.1 child.data.id
                  ⟨px, cy + lrh + gap, pw, LayoutEngine.share r T available⟩,
                  dictSet acc.2 child.data.id ⟨px, cy, pw, lrh⟩) : Rects)
                else LayoutEngine.layout_subcells child
                  ⟨px, cy + lrh + gap, pw, LayoutEngine.share r T available⟩ gap lrh labeled lra
                  (dictSet acc.1 child.data.id
                    ⟨px, cy + lrh + gap, pw, LayoutEngine.share r T available⟩,
                   dictSet acc.2 child.data.id ⟨px, cy, pw, lrh⟩)).1
              ∧ rectsNonneg (if child.is_leaf then ((dictSet acc.1 child.data.id
                  ⟨px, cy + lrh + gap, pw, LayoutEngine.share r T available⟩,
                  dictSet acc.2 child.data.id ⟨px, cy, pw, lrh⟩) : Rects)
                else LayoutEngine.layout_subcells child
                  ⟨px, cy + lrh + gap, pw, LayoutEngine.share r T available⟩ gap lrh labeled lra
                  (dictSet acc.1 child.data.id
                    ⟨px, cy + lrh + gap, pw, LayoutEngine.share r T available⟩,
                   dictSet acc.2 child.data.id ⟨px, cy, pw, lrh⟩)).2 := by
              by_cases hl : child.is_leaf
              · rw [if_pos hl]; exact ⟨hcr2, hlr2⟩
              · rw [if_neg hl]
                exact (ih _ hszchild).1 child _ gap lrh labeled lra _ (le_refl _) hdc
                  hpw hchild_h hlrh hcr2 hlr2
            exact (ih _ hszrest).2.1 rest rs px _ pw available T gap lrh labeled lra _
              (le_refl _) hdeeprest hratrest hT hav hpw hlrh hacc2.1 hacc2.2
          · rw [if_neg hlbl]
            have hcr2 : rectsNonneg (dictSet acc.1 child.data.id
                ⟨px, cy, pw, LayoutEngine.share r T available⟩) :=
              dictSet_forall (fun v : Rect => 0 ≤ v.w ∧ 0 ≤ v.h) acc.1 _ _ h1 ⟨hpw, hchild_h⟩
            have hacc2 : rectsNonneg (if child.is_leaf then ((dictSet acc.1 child.data.id
                  ⟨px, cy, pw, LayoutEngine.share r T available⟩, acc.2) : Rects)
                else LayoutEngine.layout_subcells child
                  ⟨px, cy, pw, LayoutEngine.share r T available⟩ gap lrh labeled lra
                  (dictSet acc.1 child.data.id
                    ⟨px, cy, pw, LayoutEngine.share r T available⟩, acc.2)).1
              ∧ rectsNonneg (if child.is_leaf then ((dictSet acc.1 child.data.id
                  ⟨px, cy, pw, LayoutEngine.share r T available⟩, acc.2) : Rects)
                else LayoutEngine.layout_subcells child
                  ⟨px, cy, pw, LayoutEngine.share r T available⟩ gap lrh labeled lra
                  (dictSet acc.1 child.data.id
                    ⟨px, cy, pw, LayoutEngine.share r T available⟩, acc.2)).2 := by
              by_cases hl : child.is_leaf
              · rw [if_pos hl]; exact ⟨hcr2, h2⟩
              · rw [if_neg hl]
                exact (ih _ hszchild).1 child _ gap lrh labeled lra _ (le_refl _) hdc
                  hpw hchild_h hlrh hcr2 h2
            exact (ih _ hszrest).2.1 rest rs px _ pw available T gap lrh labeled lra _
              (le_refl _) hdeeprest hratrest hT hav hpw hlrh hacc2.1 hacc2.2
    · intro children ratios cx py ph available T gap lrh labeled lra acc hsz hdeep hrat hT hav hph hlrh h1 h2
      cases children with
      | nil =>
        rw [LayoutEngine.layout_children_h]
        exact ⟨h1, h2⟩
      | cons child rest =>
        cases ratios with
        | nil =>
          rw [LayoutEngine.layout_children_h]
          exact ⟨h1, h2⟩
        | cons r rs =>
          rw [LayoutEngine.layout_children_h]
          try dsimp only
          have hszrest : sizeOf rest < N := by
            simp only [List.cons.sizeOf_spec] at hsz
            omega
          have hszchild : sizeOf child < N := by
            simp only [List.cons.sizeOf_spec] at hsz
            omega
          have hchild_w : 0 ≤ LayoutEngine.share r T available :=
            share_nonneg r T available (hrat r (List.mem_cons_self _ _)) hT hav
          have hratrest : ∀ q ∈ rs, 0 ≤ q := fun q hq => hrat q (List.mem_cons_of_mem _ hq)
          have hdeeprest : ∀ c ∈ rest, deepRatiosNonneg c :=
            fun c hc => hdeep c (List.mem_cons_of_mem _ hc)
          have hdc : deepRatiosNonneg child := hdeep child (List.mem_cons_self _ _)
          have hcr2 : rectsNonneg (dictSet acc.1 child.data.id
              ⟨cx, py, LayoutEngine.share r T available, ph⟩) :=
            dictSet_forall (fun v : Rect => 0 ≤ v.w ∧ 0 ≤ v.h) acc.1 _ _ h1 ⟨hchild_w, hph⟩
          have hacc2 : rectsNonneg (if child.is_leaf then ((dictSet acc.1 child.data.id
                ⟨cx, py, LayoutEngine.share r T available, ph⟩, acc.2) : Rects)
              else LayoutEngine.layout_subcells child
                ⟨cx, py, LayoutEngine.share r T available, ph⟩ gap lrh labeled lra
                (dictSet acc.1 child.data.id
                  ⟨cx, py, LayoutEngine.share r T available, ph⟩, acc.2)).1
            ∧ rectsNonneg (if child.is_leaf then ((dictSet acc.1 child.data.id
                ⟨cx, py, LayoutEngine.share r T available, ph⟩, acc.2) : Rects)
              else LayoutEngine.layout_subcells child
                ⟨cx, py, LayoutEngine.share r T available, ph⟩ gap lrh labeled lra
                (dictSet acc.1 child.data.id
                  ⟨cx, py, LayoutEngine.share r T available, ph⟩, acc.2)).2 := by
            by_cases hl : child.is_leaf
            · rw [if_pos hl]; exact ⟨hcr2, h2⟩
            · rw [if_neg hl]
              exact (ih _ hszchild).1 child _ gap lrh labeled lra _ (le_refl _) hdc
                hchild_w hph hlrh hcr2 h2
          exact (ih _ hszrest).2.2 rest rs _ py ph available T gap lrh labeled lra _
            (le_refl _) hdeeprest hratrest hT hav hph hlrh hacc2.1 hacc2.2

/-- Sub-cell layout records only nonnegative rects (wrapper without the
size bound). -/
theorem layout_subcells_nonneg (parent : Cell) (rect : Rect) (gap lrh : ℚ)
    (labeled : List String) (lra : Bool) (acc : Rects)
    (hdeep : deepRatiosNonneg parent) (hw : 0 ≤ rect.w) (hh : 0 ≤ rect.h)
    (hlrh : 0 ≤ lrh) (h1 : rectsNonneg acc.1) (h2 : rectsNonneg acc.2) :
    rectsNonneg (LayoutEngine.layout_subcells parent rect gap lrh labeled lra acc).1
    ∧ rectsNonneg (LayoutEngine.layout_subcells parent rect gap lrh labeled lra acc).2 :=
  (layout_nonneg_aux (sizeOf parent)).1 parent rect gap lrh labeled lra acc
    (le_refl _) hdeep hw hh hlrh h1 h2

/-- Stable insertion permutes to consing. -/
theorem insertRowStable_perm (l : List RowTemplate) (x : RowTemplate) :
    List.Perm (insertRowStable l x) (x :: l) := by
  induction l with
  | nil => exact List.Perm.refl _
  | cons y ys ih =>
    rw [insertRowStable]
    by_cases h : x.index < y.index
    · rw [if_pos h]
    · rw [if_neg h]
      exact (List.Perm.cons y ih).trans (List.Perm.swap x y ys)

/-- The insertion-sort fold permutes to appending. -/
theorem foldl_insertRow_perm :
    ∀ (l acc : List RowTemplate), List.Perm (l.foldl insertRowStable acc) (acc ++ l) := by
  intro l
  induction l with
  | nil => intro acc; simp
  | cons x xs ih =>
    intro acc
    rw [List.foldl_cons]
    have h1 := ih (insertRowStable acc x)
    have h2 : List.Perm (insertRowStable acc x ++ xs) ((x :: acc) ++ xs) :=
      List.Perm.append_right xs (insertRowStable_perm acc x)
    have h3 : List.Perm ((x :: acc) ++ xs) (acc ++ x :: xs) := by
      simpa using List.perm_middle.symm
    exact h1.trans (h2.trans h3)

/-- The sorted row list is a permutation of the project rows. -/
theorem sorted_rows_perm (p : Project) :
    List.Perm (LayoutEngine.sorted_rows p) p.rows := by
  unfold LayoutEngine.sorted_rows sortRowsByIndex
  simpa using foldl_insertRow_perm p.rows []

/-- Membership transfers between the sorted and the stored row lists. -/
theorem mem_sorted_rows (p : Project) (r : RowTemplate) :
    r ∈ LayoutEngine.sorted_rows p ↔ r ∈ p.rows :=
  (sorted_rows_perm p).mem_iff

/-- The guarded total height ratio is positive when the rows are
nonempty and the ratios nonnegative. -/
theorem rows_total_ratio_pos (p : Project)
    (hne : ¬(LayoutEngine.sorted_rows p).isEmpty = true)
    (hnn : ∀ r ∈ p.rows, 0 ≤ r.height_ratio) :
    0 < LayoutEngine.rows_total_ratio p := by
  have hnn2 : ∀ x ∈ (LayoutEngine.sorted_rows p).map (fun r => r.height_ratio), 0 ≤ x := by
    intro x hx
    obtain ⟨r, hr, hxe⟩ := List.mem_map.mp hx
    subst hxe
    exact hnn r ((mem_sorted_rows p r).mp hr)
  have hsum : 0 ≤ ((LayoutEngine.sorted_rows p).map (fun r => r.height_ratio)).sum :=
    List.sum_nonneg hnn2
  unfold LayoutEngine.rows_total_ratio
  by_cases hz : ((LayoutEngine.sorted_rows p).map (fun r => r.height_ratio)).sum = 0
  · rw [if_pos hz]
    have : (LayoutEngine.sorted_rows p).length ≠ 0 := by
      intro h0
      exact hne (List.isEmpty_iff_length_eq_zero.mpr h0)
    have : 0 < (LayoutEngine.sorted_rows p).length := Nat.pos_of_ne_zero this
    exact_mod_cast this
  · rw [if_neg hz]
    exact lt_of_le_of_ne hsum (Ne.symm hz)

/-- The clamped available height for rows is never negative. -/
theorem available_height_for_rows_nonneg (p : Project) :
    0 ≤ LayoutEngine.available_height_for_rows p := by
  unfold LayoutEngine.available_height_for_rows
  set a := LayoutEngine.content_height p - LayoutEngine.total_vertical_gaps p
    - LayoutEngine.total_label_height p with ha
  by_cases h : a < 0 <;> simp [h] <;> linarith

/-- Computed column widths are nonnegative when the stored ratios are
nonnegative and the gap budget does not exceed the content width. -/
theorem compute_col_widths_nonneg (r : RowTemplate) (cw g : ℚ)
    (hcc : 0 < r.column_count)
    (hrat : ∀ x ∈ r.column_ratios, 0 ≤ x)
    (hgw : ((r.column_count : ℚ) - 1) * g ≤ cw) :
    ∀ w ∈ (LayoutEngine.compute_col_widths r cw g).1, 0 ≤ w := by
  intro w hw
  unfold LayoutEngine.compute_col_widths at hw
  rw [if_neg (by omega)] at hw
  simp only [List.mem_map] at hw
  obtain ⟨q, hq, hwe⟩ := hw
  subst hwe
  have hq0 : 0 ≤ q := effective_col_ratios_nonneg r hrat q hq
  have haw : 0 ≤ cw - (if 1 < r.column_count then ((r.column_count : ℚ) - 1) * g else 0) := by
    by_cases h1 : 1 < r.column_count
    · rw [if_pos h1]; linarith
    · rw [if_neg h1]
      have hc1 : r.column_count = 1 := by omega
      have hz : ((r.column_count : ℚ) - 1) = 0 := by rw [hc1]; norm_num
      rw [hz, zero_mul] at hgw
      linarith
  have hT : 0 < (if (LayoutEngine.effective_col_ratios r).sum ≤ 0 then
      ((r.column_count : Int) : ℚ) else (LayoutEngine.effective_col_ratios r).sum) := by
    by_cases hs : (LayoutEngine.effective_col_ratios r).sum ≤ 0
    · rw [if_pos hs]
      exact_mod_cast hcc
    · rw [if_neg hs]
      linarith [not_le.mp hs]
  exact mul_nonneg (div_nonneg hq0 hT.le) haw

/-- Facts about the row geometries the loop produces: the template comes
from the input list, the picture height is nonnegative, the label strip
height is zero or the label row height, and a labelled geometry places
its picture exactly one label row plus one gap below the label. -/
theorem row_geoms_loop_facts (templates : List RowTemplate) (T A gap lrh : ℚ)
    (lra : Bool) (rwl : List Int) (y : ℚ) (rh : List (Int × ℚ))
    (hT : 0 < T) (hA : 0 ≤ A) (hnn : ∀ r ∈ templates, 0 ≤ r.height_ratio) :
    ∀ g ∈ (LayoutEngine.row_geoms_loop templates T A gap lrh lra rwl y rh).1,
      g.r_temp ∈ templates ∧ 0 ≤ g.pic_h ∧ (g.lbl_h = 0 ∨ g.lbl_h = lrh)
      ∧ (∀ ly, g.lbl_y = some ly → g.pic_y = ly + lrh + gap) := by
  induction templates generalizing y rh with
  | nil =>
    intro g hg
    simp [LayoutEngine.row_geoms_loop] at hg
  | cons r rest ih =>
    intro g hg
    rw [LayoutEngine.row_geoms_loop] at hg
    rw [if_pos hT] at hg
    have hpic : 0 ≤ r.height_ratio / T * A :=
      mul_nonneg (div_nonneg (hnn r (List.mem_cons_self _ _)) hT.le) hA
    by_cases hlbl : lra = true ∧ r.index ∈ rwl
    · rw [if_pos hlbl] at hg
      dsimp only at hg
      rcases List.mem_cons.mp hg with h | h
      · subst h
        refine ⟨List.mem_cons_self _ _, hpic, Or.inr rfl, ?_⟩
        intro ly hly
        simp only [Option.some.injEq] at hly
        subst hly
        rfl
      · have := ih _ _ (fun q hq => hnn q (List.mem_cons_of_mem _ hq)) g h
        exact ⟨List.mem_cons_of_mem _ this.1, this.2⟩
    · rw [if_neg hlbl] at hg
      dsimp only at hg
      rcases List.mem_cons.mp hg with h | h
      · subst h
        refine ⟨List.mem_cons_self _ _, hpic, Or.inl rfl, ?_⟩
        intro ly hly
        cases hly
      · have := ih _ _ (fun q hq => hnn q (List.mem_cons_of_mem _ hq)) g h
        exact ⟨List.mem_cons_of_mem _ this.1, this.2⟩

/-- The per-row placement loop preserves rect nonnegativity. -/
theorem place_row_cells_nonneg (row_cells : List Cell) (col_widths : List ℚ)
    (col_count : Int) (ml g : ℚ) (lbl_y : Option ℚ) (lbl_h pic_y pic_h lrh : ℚ)
    (labeled : List String) (lra : Bool) :
    ∀ (acc acc2 : Rects),
      (∀ w ∈ col_widths, 0 ≤ w) → 0 ≤ pic_h → 0 ≤ lbl_h → 0 ≤ lrh →
      (∀ c ∈ row_cells, deepRatiosNonneg c) →
      rectsNonneg acc.1 → rectsNonneg acc.2 →
      LayoutEngine.place_row_cells row_cells col_widths col_count ml g lbl_y lbl_h
        pic_y pic_h lrh labeled lra acc = some acc2 →
      rectsNonneg acc2.1 ∧ rectsNonneg acc2.2 := by
  induction row_cells with
  | nil =>
    intro acc acc2 _ _ _ _ _ h1 h2 heq
    rw [LayoutEngine.place_row_cells] at heq
    cases heq
    exact ⟨h1, h2⟩
  | cons cell rest ih =>
    intro acc acc2 hws hpic hlblh hlrh hdeep h1 h2 heq
    rw [LayoutEngine.place_row_cells] at heq
    by_cases hskip : col_count ≤ cell.data.col_index
    · rw [if_pos hskip] at heq
      exact ih acc acc2 hws hpic hlblh hlrh
        (fun c hc => hdeep c (List.mem_cons_of_mem _ hc)) h1 h2 heq
    · rw [if_neg hskip] at heq
      cases hpy : pyIndex col_widths cell.data.col_index with
      | none => rw [hpy] at heq; cases heq
      | some w =>
        rw [hpy] at heq
        dsimp only at heq
        have hw0 : 0 ≤ w := hws w (pyIndex_mem _ _ _ hpy)
        set x_pos := ml + ((col_widths.take cell.data.col_index.toNat).map
          (fun w => w + g)).sum with hx
        have hcr2 : rectsNonneg (dictSet acc.1 cell.data.id ⟨x_pos, pic_y, w, pic_h⟩) :=
          dictSet_forall (fun v : Rect => 0 ≤ v.w ∧ 0 ≤ v.h) acc.1 _ _ h1 ⟨hw0, hpic⟩
        have hlr2 : rectsNonneg (if lra = true ∧ lbl_y.isSome = true ∧ cell.data.id ∈ labeled
              ∧ cell.is_leaf = true then
            dictSet acc.2 cell.data.id ⟨x_pos, lbl_y.getD 0, w, lbl_h⟩ else acc.2) := by
          by_cases hc : lra = true ∧ lbl_y.isSome = true ∧ cell.data.id ∈ labeled
              ∧ cell.is_leaf = true
          · rw [if_pos hc]
            exact dictSet_forall (fun v : Rect => 0 ≤ v.w ∧ 0 ≤ v.h) acc.2 _ _ h2 ⟨hw0, hlblh⟩
          · rw [if_neg hc]; exact h2
        have hdc : deepRatiosNonneg cell := hdeep cell (List.mem_cons_self _ _)
        have hacc2 : rectsNonneg ((if cell.is_leaf then
              ((dictSet acc.1 cell.data.id ⟨x_pos, pic_y, w, pic_h⟩,
                if lra = true ∧ lbl_y.isSome = true ∧ cell.data.id ∈ labeled
                    ∧ cell.is_leaf = true then
                  dictSet acc.2 cell.data.id ⟨x_pos, lbl_y.getD 0, w, lbl_h⟩
                else acc.2) : Rects)
            else LayoutEngine.layout_subcells cell ⟨x_pos, pic_y, w, pic_h⟩ g lrh labeled lra
              (dictSet acc.1 cell.data.id ⟨x_pos, pic_y, w, pic_h⟩,
               if lra = true ∧ lbl_y.isSome = true ∧ cell.data.id ∈ labeled
                   ∧ cell.is_leaf = true then
                 dictSet acc.2 cell.data.id ⟨x_pos, lbl_y.getD 0, w, lbl_h⟩
               else acc.2))).1
          ∧ rectsNonneg ((if cell.is_leaf then
              ((dictSet acc.1 cell.data.id ⟨x_pos, pic_y, w, pic_h⟩,
                if lra = true ∧ lbl_y.isSome = true ∧ cell.data.id ∈ labeled
                    ∧ cell.is_leaf = true then
                  dictSet acc.2 cell.data.id ⟨x_pos, lbl_y.getD 0, w, lbl_h⟩
                else acc.2) : Rects)
            else LayoutEngine.layout_subcells cell ⟨x_pos, pic_y, w, pic_h⟩ g lrh labeled lra
              (dictSet acc.1 cell.data.id ⟨x_pos, pic_y, w, pic_h⟩,
               if lra = true ∧ lbl_y.isSome = true ∧ cell.data.id ∈ labeled
                   ∧ cell.is_leaf = true then
                 dictSet acc.2 cell.data.id ⟨x_pos, lbl_y.getD 0, w, lbl_h⟩
               else acc.2))).2 := by
          by_cases hl : cell.is_leaf
          · rw [if_pos hl]; exact ⟨hcr2, hlr2⟩
          · rw [if_neg hl]
            exact layout_subcells_nonneg cell _ g lrh labeled lra _ hdc hw0 hpic hlrh hcr2 hlr2
        exact ih _ acc2 hws hpic hlblh hlrh
          (fun c hc => hdeep c (List.mem_cons_of_mem _ hc)) hacc2.1 hacc2.2 heq

/-- The placement over all rows preserves rect nonnegativity, given the
per-row width conditions. -/
theorem place_rows_nonneg (geoms : List LayoutEngine.RowGeom) (cells : List Cell)
    (cw ml g lrh : ℚ) (labeled : List String) (lra : Bool) :
    ∀ (acc acc2 : Rects),
      (∀ geo ∈ geoms, 0 ≤ geo.pic_h ∧ 0 ≤ geo.lbl_h
        ∧ (∀ x ∈ geo.r_temp.column_ratios, 0 ≤ x)
        ∧ ((geo.r_temp.column_count : ℚ) - 1) * g ≤ cw) →
      0 ≤ lrh →
      (∀ c ∈ cells, deepRatiosNonneg c) →
      rectsNonneg acc.1 → rectsNonneg acc.2 →
      LayoutEngine.place_rows geoms cells cw ml g lrh labeled lra acc = some acc2 →
      rectsNonneg acc2.1 ∧ rectsNonneg acc2.2 := by
  induction geoms with
  | nil =>
    intro acc acc2 _ _ _ h1 h2 heq
    rw [LayoutEngine.place_rows] at heq
    cases heq
    exact ⟨h1, h2⟩
  | cons geo rest ih =>
    intro acc acc2 hgeo hlrh hdeep h1 h2 heq
    rw [LayoutEngine.place_rows] at heq
    by_cases hcc : geo.r_temp.column_count ≤ 0
    · rw [if_pos hcc] at heq
      exact ih acc acc2 (fun x hx => hgeo x (List.mem_cons_of_mem _ hx)) hlrh hdeep h1 h2 heq
    · rw [if_neg hcc] at heq
      have hfacts := hgeo geo (List.mem_cons_self _ _)
      have hws : ∀ w ∈ (LayoutEngine.compute_col_widths geo.r_temp cw g).1, 0 ≤ w :=
        compute_col_widths_nonneg geo.r_temp cw g (by omega) hfacts.2.2.1 hfacts.2.2.2
      cases hmid : LayoutEngine.place_row_cells
          (cells.filter (fun c => decide (c.data.row_index = geo.r_temp.index)))
          ((LayoutEngine.compute_col_widths geo.r_temp cw g).1) geo.r_temp.column_count
          ml g geo.lbl_y geo.lbl_h geo.pic_y geo.pic_h lrh labeled lra acc with
      | none => rw [hmid] at heq; cases heq
      | some accmid =>
        rw [hmid] at heq
        have hmidok := place_row_cells_nonneg _ _ _ _ _ _ _ _ _ _ _ _ acc accmid
          hws hfacts.1 hfacts.2.1 hlrh
          (fun c hc => hdeep c (List.mem_of_mem_filter hc)) h1 h2 hmid
        exact ih accmid acc2 (fun x hx => hgeo x (List.mem_cons_of_mem _ hx)) hlrh hdeep
          hmidok.1 hmidok.2 heq

/-- Row bounding rects are nonnegative, given the geometry facts. -/
theorem row_rects_calc_nonneg (geoms : List LayoutEngine.RowGeom) (ml cw gap lrh : ℚ)
    (hcw : 0 ≤ cw) (hgap : 0 ≤ gap) (hlrh : 0 ≤ lrh)
    (hgeo : ∀ geo ∈ geoms, 0 ≤ geo.pic_h
      ∧ (∀ ly, geo.lbl_y = some ly → geo.pic_y = ly + lrh + gap)) :
    rectsNonneg (LayoutEngine.row_rects_calc geoms ml cw) := by
  unfold LayoutEngine.row_rects_calc
  suffices h : ∀ (gs : List LayoutEngine.RowGeom) (acc : List (Int × Rect)),
      (∀ geo ∈ gs, 0 ≤ geo.pic_h ∧ (∀ ly, geo.lbl_y = some ly → geo.pic_y = ly + lrh + gap)) →
      rectsNonneg acc →
      rectsNonneg (gs.foldl (fun acc g =>
        match g.lbl_y with
        | some ly => dictSet acc g.r_temp.index ⟨ml, ly, cw, (g.pic_y - ly) + g.pic_h⟩
        | none => dictSet acc g.r_temp.index ⟨ml, g.pic_y, cw, g.pic_h⟩) acc) by
    exact h geoms [] hgeo (by intro e he; cases he)
  intro gs
  induction gs with
  | nil => intro acc _ hacc; exact hacc
  | cons geo rest ih =>
    intro acc hgs hacc
    rw [List.foldl_cons]
    refine ih _ (fun x hx => hgs x (List.mem_cons_of_mem _ hx)) ?_
    have hfacts := hgs geo (List.mem_cons_self _ _)
    cases hly : geo.lbl_y with
    | none =>
      exact dictSet_forall (fun v : Rect => 0 ≤ v.w ∧ 0 ≤ v.h) acc _ _ hacc ⟨hcw, hfacts.1⟩
    | some ly =>
      have hpy := hfacts.2 ly hly
      have : 0 ≤ (geo.pic_y - ly) + geo.pic_h := by
        rw [hpy]
        have := hfacts.1
        linarith
      exact dictSet_forall (fun v : Rect => 0 ≤ v.w ∧ 0 ≤ v.h) acc _ _ hacc ⟨hcw, this⟩

/-- Claim C7 (amended). The row-height and sub-cell computations clamp
their available extents at zero, so, given nonnegative gap, height
ratios, column ratios and deep split ratios, and per-row column gap
budgets within the content width, every rect of the returned
`LayoutResult` (cell, figure, label and row rects) has nonnegative width
and height. Column widths themselves are not clamped: without the gap
budget hypothesis negative widths occur (see the counterexample). -/
theorem C7_amended (p : Project)
    (hgap : 0 ≤ p.gap_mm)
    (hhr : ∀ r ∈ p.rows, 0 ≤ r.height_ratio)
    (hcr : ∀ r ∈ p.rows, ∀ q ∈ r.column_ratios, 0 ≤ q)
    (hgw : ∀ r ∈ p.rows, ((r.column_count : ℚ) - 1) * p.gap_mm ≤ LayoutEngine.content_width p)
    (hdeep : ∀ c ∈ p.cells, deepRatiosNonneg c)
    (res : LayoutResult) (pr : Project)
    (hres : LayoutEngine.calculate_layout p = some (res, pr)) :
    rectsNonneg res.cell_rects ∧ rectsNonneg res.figure_rects
    ∧ rectsNonneg res.label_rects ∧ rectsNonneg res.row_rects := by
  unfold LayoutEngine.calculate_layout at hres
  by_cases hdeg : LayoutEngine.content_width p ≤ 0 ∨ LayoutEngine.content_height p ≤ 0
  · rw [if_pos hdeg] at hres
    cases hres
    refine ⟨?_, ?_, ?_, ?_⟩ <;> intro e he <;> cases he
  · rw [if_neg hdeg] at hres
    by_cases hro : (LayoutEngine.sorted_rows p).isEmpty = true
    · rw [if_pos hro] at hres
      cases hres
      refine ⟨?_, ?_, ?_, ?_⟩ <;> intro e he <;> cases he
    · rw [if_neg hro] at hres
      push_neg at hdeg
      have hcw : 0 < LayoutEngine.content_width p := hdeg.1
      have hT : 0 < LayoutEngine.rows_total_ratio p := rows_total_ratio_pos p hro hhr
      have hlrh : 0 ≤ LayoutEngine.label_row_h p := label_row_h_nonneg p
      have hgfacts := row_geoms_loop_facts (LayoutEngine.sorted_rows p)
        (LayoutEngine.rows_total_ratio p) (LayoutEngine.available_height_for_rows p)
        p.gap_mm (LayoutEngine.label_row_h p) (LayoutEngine.label_row_above p)
        (LayoutEngine.rows_with_labels p) p.margin_top_mm [] hT
        (available_height_for_rows_nonneg p)
        (fun r hr => hhr r ((mem_sorted_rows p r).mp hr))
      cases hpl : LayoutEngine.place_rows (LayoutEngine.row_geoms p).1 p.cells
          (LayoutEngine.content_width p) p.margin_left_mm p.gap_mm
          (LayoutEngine.label_row_h p) (LayoutEngine.labeled_cell_ids p)
          (LayoutEngine.label_row_above p) ([], []) with
      | none => rw [hpl] at hres; cases hres
      | some acc =>
        rw [hpl] at hres
        dsimp only at hres
        have hresinj := Option.some.inj hres
        have hres1 : res = ⟨acc.1, (LayoutEngine.row_geoms p).2, acc.1, acc.2,
            LayoutEngine.row_rects_calc (LayoutEngine.row_geoms p).1 p.margin_left_mm
              (LayoutEngine.content_width p)⟩ := by
          have := congrArg Prod.fst hresinj
          exact this.symm
        have hplok := place_rows_nonneg (LayoutEngine.row_geoms p).1 p.cells
          (LayoutEngine.content_width p) p.margin_left_mm p.gap_mm
          (LayoutEngine.label_row_h p) (LayoutEngine.labeled_cell_ids p)
          (LayoutEngine.label_row_above p) ([], []) acc
          ?hg hlrh hdeep (by intro e he; cases he) (by intro e he; cases he) hpl
        case hg =>
          intro geo hgeo
          have hf := hgfacts geo hgeo
          have hmem := (mem_sorted_rows p geo.r_temp).mp hf.1
          refine ⟨hf.2.1, ?_, hcr geo.r_temp hmem, hgw geo.r_temp hmem⟩
          rcases hf.2.2.1 with h | h <;> rw [h] <;> exact hlrh
        have hrr : rectsNonneg (LayoutEngine.row_rects_calc (LayoutEngine.row_geoms p).1
            p.margin_left_mm (LayoutEngine.content_width p)) := by
          apply row_rects_calc_nonneg _ _ _ p.gap_mm (LayoutEngine.label_row_h p) hcw.le hgap hlrh
          intro geo hgeo
          exact ⟨(hgfacts geo hgeo).2.1, (hgfacts geo hgeo).2.2.2⟩
        rw [hres1]
        exact ⟨hplok.1, hplok.1, hplok.2, hrr⟩

/-- Claim C7 (witness). The amended theorem applied to the concrete
one-row project, whose layout result is computed explicitly. -/
theorem C7_amended_witness :
    rectsNonneg ((⟨[("a", ⟨10, 10, 94, 277⟩), ("b", ⟨106, 10, 94, 277⟩)], [(0, 277)],
      [("a", ⟨10, 10, 94, 277⟩), ("b", ⟨106, 10, 94, 277⟩)], [],
      [(0, ⟨10, 10, 190, 277⟩)]⟩ : LayoutResult)).cell_rects := by
  have hres : LayoutEngine.calculate_layout exOneRow =
      some (⟨[("a", ⟨10, 10, 94, 277⟩), ("b", ⟨106, 10, 94, 277⟩)], [(0, 277)],
        [("a", ⟨10, 10, 94, 277⟩), ("b", ⟨106, 10, 94, 277⟩)], [],
        [(0, ⟨10, 10, 190, 277⟩)]⟩, exOneRow) := by
    norm_num [LayoutEngine.calculate_layout, LayoutEngine.content_width,
      LayoutEngine.content_height, LayoutEngine.sorted_rows, sortRowsByIndex, insertRowStable,
      LayoutEngine.label_row_above, LayoutEngine.label_row_h, LayoutEngine.label_row_height_mm,
      LayoutEngine.labeled_cell_ids, LayoutEngine.labeled_ids_step, LayoutEngine.rows_with_labels,
      LayoutEngine.num_label_rows, LayoutEngine.total_vertical_gaps, LayoutEngine.total_label_height,
      LayoutEngine.available_height_for_rows, LayoutEngine.rows_total_ratio, LayoutEngine.row_geoms,
      LayoutEngine.row_geoms_loop, LayoutEngine.compute_col_widths, LayoutEngine.padded_col_ratios,
      LayoutEngine.effective_col_ratios, LayoutEngine.place_rows,
      LayoutEngine.place_row_cells, pyIndex, dictSet, dictGet, topCell, defaultCellData,
      defaultProject, exOneRow, Cell.is_leaf, Cell.data, Cell.children,
      LayoutEngine.row_rects_calc, LayoutEngine.share, Int.toNat]
    try simp +decide
  have h := C7_amended exOneRow (by norm_num [exOneRow, defaultProject])
    (by intro r hr
        simp only [exOneRow, defaultProject, List.mem_cons, List.not_mem_nil, or_false] at hr
        subst hr
        norm_num)
    (by intro r hr q hq
        simp only [exOneRow, defaultProject, List.mem_cons, List.not_mem_nil, or_false] at hr
        subst hr
        cases hq)
    (by intro r hr
        simp only [exOneRow, defaultProject, List.mem_cons, List.not_mem_nil, or_false] at hr
        subst hr
        norm_num [LayoutEngine.content_width, exOneRow, defaultProject])
    (by intro c hc
        simp only [exOneRow, defaultProject, topCell, List.mem_cons, List.not_mem_nil,
          or_false] at hc
        rcases hc with h | h <;> subst h <;>
          (intro c0 hc0
           simp only [allCellsIn, allCellsList, List.mem_cons, List.not_mem_nil, or_false] at hc0
           subst hc0
           intro q hq
           cases hq))
    _ _ hres
  exact h.1

/-- A transitive reference into a visited set also reaches any superset. -/
theorem Reaches_mono (fs : NestedLayout.FileSystem) (norm : String → String) :
    ∀ (s : String) (V : List String), NestedLayout.Reaches fs norm s V →
      ∀ (W : List String), V ⊆ W → NestedLayout.Reaches fs norm s W := by
  intro s V h
  induction h with
  | base p V hmem =>
    intro W hsub
    exact NestedLayout.Reaches.base p W (hsub hmem)
  | step p V entries nested hread hmem hne hfile _ ih =>
    intro W hsub
    exact NestedLayout.Reaches.step p W entries nested hread hmem hne hfile (ih W hsub)

/-- The walk returns `True` whenever the normalized start transitively
references the visited set. -/
theorem reaches_walk (fs : NestedLayout.FileSystem) (norm : String → String) :
    ∀ (s : String) (V : List String), NestedLayout.Reaches fs norm s V →
      ∀ (path : String) (W : List String), norm path = s → V ⊆ W →
      (NestedLayout.walk_for_cycle fs norm path W).1 = true := by
  intro s V h
  induction h with
  | base p V hmem =>
    intro path W hnp hsub
    rw [NestedLayout.walk_for_cycle]
    dsimp only
    rw [dif_pos (hsub (hnp ▸ hmem))]
  | step p V entries nested hread hmem hne hfile _ ih =>
    intro path W hnp hsub
    rw [NestedLayout.walk_for_cycle]
    dsimp only
    by_cases hin : norm path ∈ W
    · rw [dif_pos hin]
    · rw [dif_neg hin]
      have hwe : ∀ (es : List (Option String)) (W1 : List String), V ⊆ W1 →
          (some nested) ∈ es → (NestedLayout.walk_entries fs norm es W1).1 = true := by
        intro es
        induction es with
        | nil =>
          intro W1 _ hm
          cases hm
        | cons e rest ihe =>
          intro W1 hsub1 hm
          rw [NestedLayout.walk_entries.eq_def]
          rcases List.mem_cons.mp hm with he | he
          · subst he
            dsimp only
            rw [if_pos ⟨hne, hfile⟩]
            have hw := ih nested W1 rfl hsub1
            cases hcall : NestedLayout.walk_for_cycle fs norm nested W1 with
            | mk b v2 =>
              rw [hcall] at hw
              cases b with
              | true => rfl
              | false => simp at hw
          · cases e with
            | none =>
              dsimp only
              exact ihe W1 hsub1 he
            | some other =>
              dsimp only
              by_cases hup : other ≠ "" ∧ NestedLayout.isfile fs norm other = true
              · rw [if_pos hup]
                cases hcall : NestedLayout.walk_for_cycle fs norm other W1 with
                | mk b v2 =>
                  cases b with
                  | true => rfl
                  | false =>
                    dsimp only
                    exact ihe v2.val (hsub1.trans v2.property) he
              · rw [if_neg hup]
                exact ihe W1 hsub1 he
      split
      · rename_i heq
        rw [hnp, hread] at heq
        cases heq
      · rename_i heq
        rw [hnp, hread] at heq
        simp at heq
      · rename_i es heq
        rw [hnp, hread] at heq
        have hes : entries = es := by
          injection heq with h1
          injection h1
        subst hes
        dsimp only
        exact hwe entries (norm path :: W)
          (fun x hx => List.mem_cons_of_mem _ (hsub hx)) hmem

/-- Claim C9 (counterexample). When the candidate file equals the parent
and is unreadable (here: an empty filesystem), `detect_circular_reference`
returns True through the path-equality check, contradicting the claim
that it returns false whenever the candidate file is malformed or
unreadable. -/
theorem C9_counterexample :
    NestedLayout.detect_circular_reference [] (fun s => s) "a" "a" = true
    ∧ dictGet ([] : NestedLayout.FileSystem) "a" = none := by
  constructor
  · rfl
  · rfl

/-- Claim C9 (amended). The cycle check returns True when parent and
candidate normalize to the same path, and True whenever the candidate
transitively references the parent through truthy `nested_layout_path`
entries of readable existing files; it returns False — fail-open —
whenever the candidate file is missing or unreadable/malformed, unless
the candidate is the parent itself (the equality check precedes any
file access). -/
theorem C9_amended :
    (∀ (fs : NestedLayout.FileSystem) (norm : String → String) (parent candidate : String),
        norm parent = norm candidate →
        NestedLayout.detect_circular_reference fs norm parent candidate = true)
    ∧ (∀ (fs : NestedLayout.FileSystem) (norm : String → String) (parent candidate : String),
        NestedLayout.Reaches fs norm (norm candidate) [norm parent] →
        NestedLayout.detect_circular_reference fs norm parent candidate = true)
    ∧ (∀ (fs : NestedLayout.FileSystem) (norm : String → String) (parent candidate : String),
        norm parent ≠ norm candidate →
        (dictGet fs (norm candidate) = none ∨ dictGet fs (norm candidate) = some none) →
        NestedLayout.detect_circular_reference fs norm parent candidate = false) := by
  refine ⟨?_, ?_, ?_⟩
  · intro fs norm parent candidate heq
    unfold NestedLayout.detect_circular_reference
    rw [if_pos heq]
  · intro fs norm parent candidate hreach
    unfold NestedLayout.detect_circular_reference
    by_cases heq : norm parent = norm candidate
    · rw [if_pos heq]
    · rw [if_neg heq]
      exact reaches_walk fs norm (norm candidate) [norm parent] hreach candidate
        [norm parent] rfl (fun x hx => hx)
  · intro fs norm parent candidate hne hbad
    unfold NestedLayout.detect_circular_reference
    rw [if_neg hne]
    rw [NestedLayout.walk_for_cycle]
    dsimp only
    have hnin : norm candidate ∉ [norm parent] := by
      intro hc
      rcases List.mem_singleton.mp hc with h
      exact hne h.symm
    rw [dif_neg hnin]
    split
    · rfl
    · rfl
    · rename_i es heq
      rcases hbad with h | h <;> rw [h] at heq <;> simp at heq

/-- Claim C9 (witness). The amended theorem at concrete inputs: equal
paths are circular; a candidate whose cells name the parent (an existing
file) is circular; a missing candidate distinct from the parent is
treated as acyclic. -/
theorem C9_amended_witness :
    NestedLayout.detect_circular_reference [] (fun s => s) "a" "a" = true
    ∧ NestedLayout.detect_circular_reference
        [("c", some [some "p"]), ("p", none)] (fun s => s) "p" "c" = true
    ∧ NestedLayout.detect_circular_reference [] (fun s => s) "a" "b" = false := by
  refine ⟨C9_amended.1 [] (fun s => s) "a" "a" rfl, ?_, ?_⟩
  · apply C9_amended.2.1 [("c", some [some "p"]), ("p", none)] (fun s => s) "p" "c"
    apply NestedLayout.Reaches.step "c" ["p"] [some "p"] "p"
    · rfl
    · exact List.mem_singleton.mpr rfl
    · decide
    · rfl
    · exact NestedLayout.Reaches.base "p" ["p"] (List.mem_singleton.mpr rfl)
  · apply C9_amended.2.2 [] (fun s => s) "a" "b"
    · decide
    · left
      rfl

/-- The data of a deep-mapped cell is the mapped data. -/
theorem mapAllDataCell_data (f : CellData → CellData) (c : Cell) :
    (mapAllDataCell f c).data = f c.data := by
  cases c with
  | mk d cs => rfl

/-- Deep data-mapping with an id-preserving function commutes with the
depth-first search for an id. -/
theorem findCellList_mapAllData (f : CellData → CellData)
    (hf : ∀ d, (f d).id = d.id) (cid : String) :
    ∀ (n : Nat) (cs : List Cell), sizeOf cs ≤ n →
      findCellList (mapAllDataList f cs) cid
        = (findCellList cs cid).map (mapAllDataCell f) := by
  intro n
  induction n using Nat.strong_induction_on with
  | _ n ih =>
    intro cs hcs
    cases cs with
    | nil => rfl
    | cons c rest =>
      cases c with
      | mk d children =>
        have hsz : sizeOf children < n ∧ sizeOf rest < n := by
          simp only [List.cons.sizeOf_spec, Cell.mk.sizeOf_spec] at hcs
          omega
        rw [mapAllDataList, mapAllDataCell, findCellList, findCellIn, findCellList, findCellIn]
        rw [hf d]
        by_cases hid : d.id = cid
        · rw [if_pos hid, if_pos hid]
          rfl
        · rw [if_neg hid, if_neg hid]
          rw [ih (sizeOf children) hsz.1 children le_rfl]
          cases hfind : findCellList children cid with
          | some found => rfl
          | none =>
            dsimp only [Option.map_none]
            exact ih (sizeOf rest) hsz.2 rest le_rfl

/-- Deep data-mapping with a key-preserving function leaves every cell's
key projection unchanged, at any depth. -/
theorem allCells_mapAllData_key (f : CellData → CellData) (g : CellData → β)
    (hf : ∀ d, g (f d) = g d) :
    ∀ (n : Nat) (cs : List Cell), sizeOf cs ≤ n →
      (allCellsList (mapAllDataList f cs)).map (fun c => g c.data)
        = (allCellsList cs).map (fun c => g c.data) := by
  intro n
  induction n using Nat.strong_induction_on with
  | _ n ih =>
    intro cs hcs
    cases cs with
    | nil => rfl
    | cons c rest =>
      cases c with
      | mk d children =>
        have hsz : sizeOf children < n ∧ sizeOf rest < n := by
          simp only [List.cons.sizeOf_spec, Cell.mk.sizeOf_spec] at hcs
          omega
        rw [mapAllDataList, mapAllDataCell, allCellsList, allCellsIn, allCellsList, allCellsIn]
        simp only [List.map_append, List.map_cons]
        have ha : g (Cell.mk (f d) (mapAllDataList f children)).data = g d := hf d
        have hb : g (Cell.mk d children).data = g d := rfl
        rw [ha, hb, ih (sizeOf children) hsz.1 children le_rfl,
          ih (sizeOf rest) hsz.2 rest le_rfl]

/-- The depth-first search only returns a cell bearing the searched id. -/
theorem findCellList_id :
    ∀ (n : Nat) (cs : List Cell) (cid : String) (c : Cell), sizeOf cs ≤ n →
      findCellList cs cid = some c → c.data.id = cid := by
  intro n
  induction n using Nat.strong_induction_on with
  | _ n ih =>
    intro cs cid c hcs hfind
    cases cs with
    | nil =>
      rw [findCellList] at hfind
      cases hfind
    | cons c0 rest =>
      cases c0 with
      | mk d children =>
        have hsz : sizeOf children < n ∧ sizeOf rest < n := by
          simp only [List.cons.sizeOf_spec, Cell.mk.sizeOf_spec] at hcs
          omega
        rw [findCellList, findCellIn] at hfind
        by_cases hid : d.id = cid
        · rw [if_pos hid] at hfind
          cases hfind
          exact hid
        · rw [if_neg hid] at hfind
          cases hchild : findCellList children cid with
          | some found =>
            rw [hchild] at hfind
            cases hfind
            exact ih (sizeOf children) hsz.1 children cid _ le_rfl hchild
          | none =>
            rw [hchild] at hfind
            exact ih (sizeOf rest) hsz.2 rest cid c le_rfl hfind

/-- After a pairwise swap, the two cells hold each other's content
attributes grafted onto their own identity fields. -/
theorem swapPair_find (p : Project) (id1 id2 : String) (v1 v2 : CellData)
    (h1 : Commands.findCellData p id1 = some v1)
    (h2 : Commands.findCellData p id2 = some v2)
    (hne : id1 ≠ id2) :
    Commands.findCellData (Commands.swapPair p id1 id2) id1
      = some (Commands.swapAttrsInto v1 v2)
    ∧ Commands.findCellData (Commands.swapPair p id1 id2) id2
      = some (Commands.swapAttrsInto v2 v1) := by
  have h1' := h1
  have h2' := h2
  unfold Commands.findCellData Project.find_cell_by_id at h1' h2'
  rcases Option.map_eq_some'.mp h1' with ⟨c1, hc1, hd1⟩
  rcases Option.map_eq_some'.mp h2' with ⟨c2, hc2, hd2⟩
  have hid1 : v1.id = id1 := by
    have h := findCellList_id (sizeOf p.cells) p.cells id1 c1 le_rfl hc1
    rw [hd1] at h
    exact h
  have hid2 : v2.id = id2 := by
    have h := findCellList_id (sizeOf p.cells) p.cells id2 c2 le_rfl hc2
    rw [hd2] at h
    exact h
  have hmap := findCellList_mapAllData
    (fun d => if d.id = id1 then Commands.swapAttrsInto d v2
              else if d.id = id2 then Commands.swapAttrsInto d v1 else d)
    (by
      intro d
      dsimp only
      split_ifs <;> rfl)
  unfold Commands.swapPair
  rw [h1, h2]
  dsimp only
  constructor
  · unfold Commands.findCellData Project.find_cell_by_id
    rw [hmap id1 (sizeOf p.cells) p.cells le_rfl, hc1]
    rw [Option.map_some', Option.map_some', mapAllDataCell_data, hd1]
    rw [hid1, if_pos rfl]
  · unfold Commands.findCellData Project.find_cell_by_id
    rw [hmap id2 (sizeOf p.cells) p.cells le_rfl, hc2]
    rw [Option.map_some', Option.map_some', mapAllDataCell_data, hd2]
    rw [hid2, if_neg (Ne.symm hne), if_pos rfl]

/-- A pairwise swap never changes any cell's key (id, row, column), at
any depth, in any branch. -/
theorem swapPair_key (p : Project) (id1 id2 : String) :
    (allCellsList (Commands.swapPair p id1 id2).cells).map (fun c => cellKey c.data)
      = (allCellsList p.cells).map (fun c => cellKey c.data) := by
  unfold Commands.swapPair
  cases h1 : Commands.findCellData p id1 with
  | none => rfl
  | some v1 =>
    cases h2 : Commands.findCellData p id2 with
    | none => rfl
    | some v2 =>
      dsimp only
      exact allCells_mapAllData_key _ (fun d => cellKey d)
        (by
          intro d
          dsimp only
          split_ifs <;> rfl)
        (sizeOf p.cells) p.cells le_rfl

/-- Iterated pairwise swaps never change any cell's key. -/
theorem foldl_swapPair_key :
    ∀ (pairs : List (String × String)) (p : Project),
      (allCellsList ((pairs.foldl (fun q pr => Commands.swapPair q pr.1 pr.2) p).cells)).map
          (fun c => cellKey c.data)
        = (allCellsList p.cells).map (fun c => cellKey c.data) := by
  intro pairs
  induction pairs with
  | nil => intro p; rfl
  | cons pr rest ih =>
    intro p
    rw [List.foldl_cons]
    rw [ih (Commands.swapPair p pr.1 pr.2)]
    exact swapPair_key p pr.1 pr.2

/-- Claim C8 (counterexample). Swapping cells `a` (image `pa`, left
aligned) and `b` (image `pb`, right aligned) moves the image — `a` now
holds `pb` — but leaves `a` left-aligned although `b` was right-aligned:
alignment is not among the exchanged fields, contradicting the claim
that alignment is exchanged between paired cells. -/
theorem C8_counterexample :
    (Commands.findCellData (Commands.SwapCellsCommand.redo ⟨"a", "b"⟩ exSwap) "a").map
        (fun d => (d.image_path, d.align_h)) = some (some "pb", "left")
    ∧ (Commands.findCellData exSwap "a").map (fun d => (d.image_path, d.align_h))
        = some (some "pa", "left")
    ∧ (Commands.findCellData exSwap "b").map (fun d => d.align_h) = some "right" := by
  refine ⟨rfl, rfl, rfl⟩

/-- Claim C8 (amended). Swap and MultiSwap exchange the content fields
image_path, is_placeholder, fit_mode, rotation and the four paddings
between paired cells, while id, row_index, col_index — and also the
alignment fields align_h and align_v, which the claim wrongly lists as
exchanged — stay with the original cell; consequently no cell's
identity or grid position ever moves, so TextItem.parent_id references
remain valid across a swap. -/
theorem C8_amended :
    (∀ d src : CellData,
        (Commands.swapAttrsInto d src).image_path = src.image_path
        ∧ (Commands.swapAttrsInto d src).is_placeholder = src.is_placeholder
        ∧ (Commands.swapAttrsInto d src).fit_mode = src.fit_mode
        ∧ (Commands.swapAttrsInto d src).rotation = src.rotation
        ∧ (Commands.swapAttrsInto d src).padding_top = src.padding_top
        ∧ (Commands.swapAttrsInto d src).padding_bottom = src.padding_bottom
        ∧ (Commands.swapAttrsInto d src).padding_left = src.padding_left
        ∧ (Commands.swapAttrsInto d src).padding_right = src.padding_right
        ∧ (Commands.swapAttrsInto d src).id = d.id
        ∧ (Commands.swapAttrsInto d src).row_index = d.row_index
        ∧ (Commands.swapAttrsInto d src).col_index = d.col_index
        ∧ (Commands.swapAttrsInto d src).align_h = d.align_h
        ∧ (Commands.swapAttrsInto d src).align_v = d.align_v)
    ∧ (∀ (p : Project) (id1 id2 : String) (v1 v2 : CellData),
        Commands.findCellData p id1 = some v1 →
        Commands.findCellData p id2 = some v2 →
        id1 ≠ id2 →
        Commands.findCellData (Commands.SwapCellsCommand.redo ⟨id1, id2⟩ p) id1
          = some (Commands.swapAttrsInto v1 v2)
        ∧ Commands.findCellData (Commands.SwapCellsCommand.redo ⟨id1, id2⟩ p) id2
          = some (Commands.swapAttrsInto v2 v1))
    ∧ (∀ (p : Project) (id1 id2 : String),
        (allCellsList (Commands.SwapCellsCommand.redo ⟨id1, id2⟩ p).cells).map
            (fun c => cellKey c.data)
          = (allCellsList p.cells).map (fun c => cellKey c.data))
    ∧ (∀ (pairs : List (String × String)) (p : Project),
        (allCellsList (Commands.MultiSwapCellsCommand.redo ⟨pairs⟩ p).cells).map
            (fun c => cellKey c.data)
          = (allCellsList p.cells).map (fun c => cellKey c.data)) := by
  refine ⟨?_, ?_, ?_, ?_⟩
  · intro d src
    exact ⟨rfl, rfl, rfl, rfl, rfl, rfl, rfl, rfl, rfl, rfl, rfl, rfl, rfl⟩
  · intro p id1 id2 v1 v2 h1 h2 hne
    exact swapPair_find p id1 id2 v1 v2 h1 h2 hne
  · intro p id1 id2
    exact swapPair_key p id1 id2
  · intro pairs p
    exact foldl_swapPair_key pairs p

/-- Claim C8 (witness). The amended theorem applied to the concrete
two-cell project: after the swap, cell `a` holds `b`'s content grafted
onto `a`'s identity and alignment. -/
theorem C8_amended_witness :
    Commands.findCellData (Commands.SwapCellsCommand.redo ⟨"a", "b"⟩ exSwap) "a"
      = some (Commands.swapAttrsInto exSwapA.data exSwapB.data)
    ∧ Commands.findCellData (Commands.SwapCellsCommand.redo ⟨"a", "b"⟩ exSwap) "b"
      = some (Commands.swapAttrsInto exSwapB.data exSwapA.data) :=
  C8_amended.2.1 exSwap "a" "b" exSwapA.data exSwapB.data rfl rfl (by decide)

/-- Restoring the snapshot of `rows` and `cells` undoes any change that
only touched those two collections. -/
theorem restore_rc (p q : Project) (h : q = { p with rows := q.rows, cells := q.cells }) :
    { q with rows := p.rows, cells := p.cells } = p := by
  rw [h]

/-- Restoring the snapshot of `cells` undoes any change that only
touched that collection. -/
theorem restore_c (p q : Project) (h : q = { p with cells := q.cells }) :
    { q with cells := p.cells } = p := by
  rw [h]

/-- InsertRow round-trip: the snapshot restore is exact. -/
theorem insertRow_roundtrip (p : Project) (i cc : Int) (ids : List String) :
    (Commands.mkInsertRowCommand p i cc ids).undo
      ((Commands.mkInsertRowCommand p i cc ids).redo p) = p := rfl

/-- InsertCell round-trip: the snapshot restore is exact. -/
theorem insertCell_roundtrip (p : Project) (ri ci : Int) (nid : String) :
    (Commands.mkInsertCellCommand p ri ci nid).undo
      ((Commands.mkInsertCellCommand p ri ci nid).redo p) = p := by
  apply restore_rc
  unfold Commands.InsertCellCommand.redo
  split
  · rfl
  · rfl

/-- DeleteRow round-trip: the snapshot restore is exact. -/
theorem deleteRow_roundtrip (p : Project) (ri : Int) :
    (Commands.mkDeleteRowCommand p ri).undo
      ((Commands.mkDeleteRowCommand p ri).redo p) = p := rfl

/-- DeleteCell round-trip: the snapshot restore is exact. -/
theorem deleteCell_roundtrip (p : Project) (ri ci : Int) :
    (Commands.mkDeleteCellCommand p ri ci).undo
      ((Commands.mkDeleteCellCommand p ri ci).redo p) = p := by
  apply restore_rc
  unfold Commands.DeleteCellCommand.redo
  split
  · rfl
  · split_ifs
    · rfl
    · rfl

/-- ChangeRowCount round-trip: the snapshot restore is exact. -/
theorem changeRowCount_roundtrip (p : Project) (nc : Int) (fresh : Int → Int → String) :
    (Commands.mkChangeRowCountCommand p nc fresh).undo
      ((Commands.mkChangeRowCountCommand p nc fresh).redo p) = p := rfl

/-- Split round-trip: the snapshot restore is exact. -/
theorem split_roundtrip (p : Project) (cid dir : String) (count : Int) (ids : List String) :
    (Commands.mkSplitCellCommand p cid dir count ids).undo
      ((Commands.mkSplitCellCommand p cid dir count ids).redo p) = p := by
  apply restore_c
  unfold Commands.SplitCellCommand.redo
  split
  · rfl
  · split_ifs
    · rfl
    · rfl

/-- InsertSubCell round-trip: the snapshot restore is exact. -/
theorem insertSub_roundtrip (p : Project) (cid pos nid : String) :
    (Commands.mkInsertSubCellCommand p cid pos nid).undo
      ((Commands.mkInsertSubCellCommand p cid pos nid).redo p) = p := by
  apply restore_c
  unfold Commands.InsertSubCellCommand.redo
  split
  · rfl
  · split
    · rfl
    · rfl

/-- DeleteSubCell round-trip: the snapshot restore is exact. -/
theorem deleteSub_roundtrip (p : Project) (cid : String) :
    (Commands.mkDeleteSubCellCommand p cid).undo
      ((Commands.mkDeleteSubCellCommand p cid).redo p) = p := by
  apply restore_c
  unfold Commands.DeleteSubCellCommand.redo
  split
  · rfl
  · split_ifs
    · rfl
    · split
      · rfl
      · rfl

/-- WrapAndInsert round-trip: the snapshot restore is exact. -/
theorem wrap_roundtrip (p : Project) (cid dir pos nid : String) :
    (Commands.mkWrapAndInsertCommand p cid dir pos nid).undo
      ((Commands.mkWrapAndInsertCommand p cid dir pos nid).redo p) = p := by
  apply restore_c
  unfold Commands.WrapAndInsertCommand.redo
  split
  · rfl
  · split
    · split_ifs
      · split
        · rfl
        · rfl
      · rfl
    · rfl

/-- ChangeSubCellRatio round-trip: the snapshot restore is exact. -/
theorem changeRatio_roundtrip (p : Project) (cid : String) (r : ℚ) :
    (Commands.mkChangeSubCellRatioCommand p cid r).undo
      ((Commands.mkChangeSubCellRatioCommand p cid r).redo p) = p := by
  apply restore_c
  unfold Commands.ChangeSubCellRatioCommand.redo
  split
  · rfl
  · split
    · rfl
    · rfl

/-- A first-match update with an id-preserving top-data transform
commutes with the depth-first search for the id. -/
theorem find_update (f : CellData → CellData) (hf : ∀ d, (f d).id = d.id) (cid : String) :
    ∀ n : Nat,
      (∀ cs : List Cell, sizeOf cs ≤ n →
        findCellList (updateFirstById cs cid (Cell.mapTopData f)) cid
          = (findCellList cs cid).map (Cell.mapTopData f))
      ∧ (∀ c : Cell, sizeOf c ≤ n →
        findCellIn (updateInById c cid (Cell.mapTopData f)) cid
          = (findCellIn c cid).map (Cell.mapTopData f)) := by
  intro n
  induction n using Nat.strong_induction_on with
  | _ n ih =>
    constructor
    · intro cs hcs
      cases cs with
      | nil => rfl
      | cons c rest =>
        have hsz : sizeOf c < n ∧ sizeOf rest < n := by
          simp only [List.cons.sizeOf_spec] at hcs
          omega
        rw [updateFirstById]
        by_cases hin : (findCellIn c cid).isSome = true
        · rw [if_pos hin]
          rw [findCellList, findCellList]
          rw [(ih (sizeOf c) hsz.1).2 c le_rfl]
          cases hfind : findCellIn c cid with
          | some c0 => rfl
          | none =>
            rw [hfind] at hin
            simp at hin
        · rw [if_neg hin]
          rw [findCellList, findCellList]
          cases hfind : findCellIn c cid with
          | some c0 =>
            rw [hfind] at hin
            simp at hin
          | none =>
            exact (ih (sizeOf rest) hsz.2).1 rest le_rfl
    · intro c hc
      cases c with
      | mk d children =>
        have hsz : sizeOf children < n := by
          simp only [Cell.mk.sizeOf_spec] at hc
          omega
        rw [updateInById]
        by_cases hid : d.id = cid
        · rw [if_pos hid]
          rw [Cell.mapTopData]
          rw [findCellIn, findCellIn]
          rw [hf d]
          rw [if_pos hid, if_pos hid]
          rfl
        · rw [if_neg hid]
          rw [findCellIn, findCellIn]
          rw [if_neg hid, if_neg hid]
          exact (ih (sizeOf children) hsz).1 children le_rfl

/-- Two successive first-match updates with the same id compose, when
the first preserves the id. -/
theorem update_comp (f g : CellData → CellData) (hf : ∀ d, (f d).id = d.id) (cid : String) :
    ∀ n : Nat,
      (∀ cs : List Cell, sizeOf cs ≤ n →
        updateFirstById (updateFirstById cs cid (Cell.mapTopData f)) cid (Cell.mapTopData g)
          = updateFirstById cs cid (Cell.mapTopData (fun d => g (f d))))
      ∧ (∀ c : Cell, sizeOf c ≤ n →
        updateInById (updateInById c cid (Cell.mapTopData f)) cid (Cell.mapTopData g)
          = updateInById c cid (Cell.mapTopData (fun d => g (f d)))) := by
  intro n
  induction n using Nat.strong_induction_on with
  | _ n ih =>
    constructor
    · intro cs hcs
      cases cs with
      | nil => rfl
      | cons c rest =>
        have hsz : sizeOf c < n ∧ sizeOf rest < n := by
          simp only [List.cons.sizeOf_spec] at hcs
          omega
        rw [updateFirstById]
        by_cases hin : (findCellIn c cid).isSome = true
        · rw [if_pos hin]
          rw [updateFirstById]
          have hin2 : (findCellIn (updateInById c cid (Cell.mapTopData f)) cid).isSome = true := by
            rw [(find_update f hf cid (sizeOf c)).2 c le_rfl]
            cases hfind : findCellIn c cid with
            | some c0 => rfl
            | none =>
              rw [hfind] at hin
              simp at hin
          rw [if_pos hin2]
          rw [updateFirstById]
          rw [if_pos hin]
          rw [(ih (sizeOf c) hsz.1).2 c le_rfl]
        · rw [if_neg hin]
          rw [updateFirstById]
          rw [if_neg hin]
          rw [updateFirstById]
          rw [if_neg hin]
          rw [(ih (sizeOf rest) hsz.2).1 rest le_rfl]
    · intro c hc
      cases c with
      | mk d children =>
        have hsz : sizeOf children < n := by
          simp only [Cell.mk.sizeOf_spec] at hc
          omega
        rw [updateInById]
        by_cases hid : d.id = cid
        · rw [if_pos hid]
          rw [Cell.mapTopData]
          rw [updateInById]
          rw [hf d]
          rw [if_pos hid]
          rw [updateInById]
          rw [if_pos hid]
          rw [Cell.mapTopData, Cell.mapTopData]
        · rw [if_neg hid]
          rw [updateInById]
          rw [if_neg hid]
          rw [updateInById]
          rw [if_neg hid]
          rw [(ih (sizeOf children) hsz).1 children le_rfl]

/-- When the id is absent, a first-match update changes nothing. -/
theorem update_not_found (cid : String) (F : Cell → Cell) :
    ∀ (n : Nat) (cs : List Cell), sizeOf cs ≤ n → findCellList cs cid = none →
      updateFirstById cs cid F = cs := by
  intro n
  induction n using Nat.strong_induction_on with
  | _ n ih =>
    intro cs hcs hnone
    cases cs with
    | nil => rfl
    | cons c rest =>
      have hsz : sizeOf c < n ∧ sizeOf rest < n := by
        simp only [List.cons.sizeOf_spec] at hcs
        omega
      rw [findCellList] at hnone
      cases hfind : findCellIn c cid with
      | some c0 =>
        rw [hfind] at hnone
        cases hnone
      | none =>
        rw [hfind] at hnone
        have hrest : findCellList rest cid = none := hnone
        have hcond : ¬ ((findCellIn c cid).isSome = true) := by
          rw [hfind]
          simp
        rw [updateFirstById, if_neg hcond]
        rw [ih (sizeOf rest) hsz.2 rest le_rfl hrest]

/-- A first-match update whose transform fixes the found cell changes
nothing. -/
theorem update_self :
    ∀ n : Nat,
      (∀ (cs : List Cell) (cid : String) (F : Cell → Cell), sizeOf cs ≤ n →
        (∀ c0, findCellList cs cid = some c0 → F c0 = c0) →
        updateFirstById cs cid F = cs)
      ∧ (∀ (c : Cell) (cid : String) (F : Cell → Cell), sizeOf c ≤ n →
        (∀ c0, findCellIn c cid = some c0 → F c0 = c0) →
        updateInById c cid F = c) := by
  intro n
  induction n using Nat.strong_induction_on with
  | _ n ih =>
    constructor
    · intro cs cid F hcs hfix
      cases cs with
      | nil => rfl
      | cons c rest =>
        have hsz : sizeOf c < n ∧ sizeOf rest < n := by
          simp only [List.cons.sizeOf_spec] at hcs
          omega
        by_cases hin : (findCellIn c cid).isSome = true
        · rw [updateFirstById, if_pos hin]
          have hcell : updateInById c cid F = c := by
            apply (ih (sizeOf c) hsz.1).2 c cid F le_rfl
            intro c0 h0
            apply hfix c0
            rw [findCellList, h0]
          rw [hcell]
        · rw [updateFirstById, if_neg hin]
          have hfind : findCellIn c cid = none := by
            cases hf0 : findCellIn c cid with
            | none => rfl
            | some c0 =>
              rw [hf0] at hin
              simp at hin
          have hrest : updateFirstById rest cid F = rest := by
            apply (ih (sizeOf rest) hsz.2).1 rest cid F le_rfl
            intro c0 h0
            apply hfix c0
            rw [findCellList, hfind]
            exact h0
          rw [hrest]
    · intro c cid F hc hfix
      cases c with
      | mk d children =>
        have hsz : sizeOf children < n := by
          simp only [Cell.mk.sizeOf_spec] at hc
          omega
        by_cases hid : d.id = cid
        · rw [updateInById, if_pos hid]
          apply hfix
          rw [findCellIn, if_pos hid]
        · rw [updateInById, if_neg hid]
          have hchildren : updateFirstById children cid F = children := by
            apply (ih (sizeOf children) hsz).1 children cid F le_rfl
            intro c0 h0
            apply hfix c0
            rw [findCellIn, if_neg hid]
            exact h0
          rw [hchildren]

/-- Deep data-maps compose. -/
theorem mapAllData_comp (f g : CellData → CellData) :
    ∀ (n : Nat) (cs : List Cell), sizeOf cs ≤ n →
      mapAllDataList g (mapAllDataList f cs) = mapAllDataList (fun d => g (f d)) cs := by
  intro n
  induction n using Nat.strong_induction_on with
  | _ n ih =>
    intro cs hcs
    cases cs with
    | nil => rfl
    | cons c rest =>
      cases c with
      | mk d children =>
        have hsz : sizeOf children < n ∧ sizeOf rest < n := by
          simp only [List.cons.sizeOf_spec, Cell.mk.sizeOf_spec] at hcs
          omega
        rw [mapAllDataList, mapAllDataCell, mapAllDataList, mapAllDataCell,
          mapAllDataList, mapAllDataCell]
        rw [ih (sizeOf children) hsz.1 children le_rfl, ih (sizeOf rest) hsz.2 rest le_rfl]

/-- A deep data-map whose transform fixes every cell's data changes
nothing. -/
theorem mapAllData_fix (f : CellData → CellData) :
    ∀ (n : Nat) (cs : List Cell), sizeOf cs ≤ n →
      (∀ c ∈ allCellsList cs, f c.data = c.data) →
      mapAllDataList f cs = cs := by
  intro n
  induction n using Nat.strong_induction_on with
  | _ n ih =>
    intro cs hcs hfix
    cases cs with
    | nil => rfl
    | cons c rest =>
      cases c with
      | mk d children =>
        have hsz : sizeOf children < n ∧ sizeOf rest < n := by
          simp only [List.cons.sizeOf_spec, Cell.mk.sizeOf_spec] at hcs
          omega
        have hd : f d = d := by
          have h := hfix (Cell.mk d children) (by
            rw [allCellsList, allCellsIn]
            exact List.mem_append.mpr (Or.inl (List.mem_cons_self _ _)))
          exact h
        have h1 : mapAllDataList f children = children := by
          apply ih (sizeOf children) hsz.1 children le_rfl
          intro c0 hc0
          apply hfix c0
          rw [allCellsList, allCellsIn]
          exact List.mem_append.mpr (Or.inl (List.mem_cons_of_mem _ hc0))
        have h2 : mapAllDataList f rest = rest := by
          apply ih (sizeOf rest) hsz.2 rest le_rfl
          intro c0 hc0
          apply hfix c0
          rw [allCellsList]
          exact List.mem_append.mpr (Or.inr hc0)
        rw [mapAllDataList, mapAllDataCell, hd, h1, h2]

/-- The depth-first search only returns cells of the forest. -/
theorem find_mem :
    ∀ (n : Nat) (cs : List Cell) (cid : String) (c : Cell), sizeOf cs ≤ n →
      findCellList cs cid = some c → c ∈ allCellsList cs := by
  intro n
  induction n using Nat.strong_induction_on with
  | _ n ih =>
    intro cs cid c hcs hfind
    cases cs with
    | nil =>
      rw [findCellList] at hfind
      cases hfind
    | cons c0 rest =>
      cases c0 with
      | mk d children =>
        have hsz : sizeOf children < n ∧ sizeOf rest < n := by
          simp only [List.cons.sizeOf_spec, Cell.mk.sizeOf_spec] at hcs
          omega
        rw [findCellList, findCellIn] at hfind
        by_cases hid : d.id = cid
        · rw [if_pos hid] at hfind
          cases hfind
          rw [allCellsList, allCellsIn]
          exact List.mem_append.mpr (Or.inl (List.mem_cons_self _ _))
        · rw [if_neg hid] at hfind
          cases hchild : findCellList children cid with
          | some found =>
            rw [hchild] at hfind
            cases hfind
            rw [allCellsList, allCellsIn]
            refine List.mem_append.mpr (Or.inl (List.mem_cons_of_mem _ ?_))
            exact ih (sizeOf children) hsz.1 children cid _ le_rfl hchild
          | none =>
            rw [hchild] at hfind
            rw [allCellsList]
            exact List.mem_append.mpr
              (Or.inr (ih (sizeOf rest) hsz.2 rest cid c le_rfl hfind))

/-- Removing the first occurrence of a freshly appended element restores
the list when the element was not already present. -/
theorem eraseFirst_append [DecidableEq α] (l : List α) (a : α) (h : a ∉ l) :
    eraseFirst (l ++ [a]) a = l := by
  induction l with
  | nil =>
    rw [List.nil_append, eraseFirst, if_pos rfl]
  | cons x rest ih =>
    have hx : x ≠ a := fun he => h (he ▸ List.mem_cons_self x rest)
    rw [List.cons_append, eraseFirst, if_neg hx]
    rw [ih (fun hm => h (List.mem_cons_of_mem _ hm))]

/-- The content exchange is an involution on a cell's data. -/
theorem swapAttrsInto_invol (a b : CellData) :
    Commands.swapAttrsInto (Commands.swapAttrsInto a b) (Commands.swapAttrsInto b a) = a := rfl

/-- DropImage round-trip: redoing sets the image, undoing restores the
captured values exactly. -/
theorem dropImage_roundtrip (p : Project) (cid : String) (path : Option String) :
    (Commands.mkDropImageCommand p cid path).undo
      ((Commands.mkDropImageCommand p cid path).redo p) = p := by
  unfold Commands.mkDropImageCommand
  cases hfd : Commands.findCellData p cid with
  | none =>
    have hnone : findCellList p.cells cid = none := by
      unfold Commands.findCellData Project.find_cell_by_id at hfd
      cases hq : findCellList p.cells cid with
      | none => rfl
      | some c =>
        rw [hq] at hfd
        cases hfd
    dsimp only
    unfold Commands.DropImageCommand.redo Commands.DropImageCommand.undo
    dsimp only
    rw [update_not_found cid _ (sizeOf p.cells) p.cells le_rfl hnone]
    rw [update_not_found cid _ (sizeOf p.cells) p.cells le_rfl hnone]
  | some d0 =>
    have hfd' := hfd
    unfold Commands.findCellData Project.find_cell_by_id at hfd'
    rcases Option.map_eq_some'.mp hfd' with ⟨c0, hc0, hd0⟩
    dsimp only
    unfold Commands.DropImageCommand.redo Commands.DropImageCommand.undo
    dsimp only
    rw [(update_comp (fun d => { d with image_path := path, is_placeholder := false })
      _ (fun d => rfl) cid (sizeOf p.cells)).1 p.cells le_rfl]
    have hfix : ∀ c1, findCellList p.cells cid = some c1 →
        Cell.mapTopData (fun d =>
          { { d with image_path := path, is_placeholder := false } with
              image_path := d0.image_path, is_placeholder := d0.is_placeholder }) c1 = c1 := by
      intro c1 h1
      rw [hc0] at h1
      cases h1
      cases c0 with
      | mk dd cs =>
        have hdd : dd = d0 := hd0
        subst hdd
        rfl
    rw [(update_self (sizeOf p.cells)).1 p.cells cid _ le_rfl hfix]

/-- AddText round-trip for an item not already present: the append is
undone by removing the first equal occurrence. -/
theorem addText_roundtrip (p : Project) (t : TextItem) (h : t ∉ p.text_items) :
    (Commands.AddTextCommand.undo ⟨t⟩ (Commands.AddTextCommand.redo ⟨t⟩ p)) = p := by
  unfold Commands.AddTextCommand.redo Commands.AddTextCommand.undo
  dsimp only
  have hmem : t ∈ p.text_items ++ [t] := List.mem_append.mpr (Or.inr (List.mem_cons_self _ _))
  rw [if_pos hmem]
  rw [eraseFirst_append p.text_items t h]

/-- The pairwise content swap of two distinct existing cells is an
involution when no two cells of the project share an id. -/
theorem swapPair_invol (p : Project) (id1 id2 : String) (v1 v2 : CellData)
    (hnd : ((allCellsList p.cells).map (fun c => c.data.id)).Nodup)
    (h1 : Commands.findCellData p id1 = some v1)
    (h2 : Commands.findCellData p id2 = some v2)
    (hne : id1 ≠ id2) :
    Commands.swapPair (Commands.swapPair p id1 id2) id1 id2 = p := by
  have hk := swapPair_find p id1 id2 v1 v2 h1 h2 hne
  have h1' := h1
  have h2' := h2
  unfold Commands.findCellData Project.find_cell_by_id at h1' h2'
  rcases Option.map_eq_some'.mp h1' with ⟨c1, hc1, hd1⟩
  rcases Option.map_eq_some'.mp h2' with ⟨c2, hc2, hd2⟩
  have hid1 : v1.id = id1 := by
    have h := findCellList_id (sizeOf p.cells) p.cells id1 c1 le_rfl hc1
    rw [hd1] at h
    exact h
  have hid2 : v2.id = id2 := by
    have h := findCellList_id (sizeOf p.cells) p.cells id2 c2 le_rfl hc2
    rw [hd2] at h
    exact h
  have hfix : ∀ c ∈ allCellsList p.cells,
      (fun d => if d.id = id1 then Commands.swapAttrsInto d (Commands.swapAttrsInto v2 v1)
                else if d.id = id2 then Commands.swapAttrsInto d (Commands.swapAttrsInto v1 v2)
                else d)
        ((fun d => if d.id = id1 then Commands.swapAttrsInto d v2
                   else if d.id = id2 then Commands.swapAttrsInto d v1
                   else d) c.data) = c.data := by
    intro c hc
    dsimp only
    by_cases ha : c.data.id = id1
    · have hceq : c = c1 := by
        apply List.inj_on_of_nodup_map hnd hc
          (find_mem (sizeOf p.cells) p.cells id1 c1 le_rfl hc1)
        rw [ha]
        exact (findCellList_id (sizeOf p.cells) p.cells id1 c1 le_rfl hc1).symm
      rw [hceq, hd1]
      rw [if_pos hid1]
      have hcond : (Commands.swapAttrsInto v1 v2).id = id1 := hid1
      rw [if_pos hcond]
      exact swapAttrsInto_invol v1 v2
    · by_cases hb : c.data.id = id2
      · have hceq : c = c2 := by
          apply List.inj_on_of_nodup_map hnd hc
            (find_mem (sizeOf p.cells) p.cells id2 c2 le_rfl hc2)
          rw [hb]
          exact (findCellList_id (sizeOf p.cells) p.cells id2 c2 le_rfl hc2).symm
        have hcond1 : ¬ (v2.id = id1) := by
          rw [hid2]
          exact fun h => hne h.symm
        rw [hceq, hd2]
        rw [if_neg hcond1, if_pos hid2]
        have hcond2 : ¬ ((Commands.swapAttrsInto v2 v1).id = id1) := hcond1
        have hcond3 : (Commands.swapAttrsInto v2 v1).id = id2 := hid2
        rw [if_neg hcond2, if_pos hcond3]
        exact swapAttrsInto_invol v2 v1
      · rw [if_neg ha, if_neg hb, if_neg ha, if_neg hb]
  have hcells := mapAllData_fix
    (fun d => (fun e => if e.id = id1 then Commands.swapAttrsInto e (Commands.swapAttrsInto v2 v1)
                        else if e.id = id2 then Commands.swapAttrsInto e (Commands.swapAttrsInto v1 v2)
                        else e)
              ((fun e => if e.id = id1 then Commands.swapAttrsInto e v2
                         else if e.id = id2 then Commands.swapAttrsInto e v1
                         else e) d))
    (sizeOf p.cells) p.cells le_rfl hfix
  set q := Commands.swapPair p id1 id2 with hq
  unfold Commands.swapPair
  rw [hk.1, hk.2]
  dsimp only
  rw [hq]
  unfold Commands.swapPair
  rw [h1, h2]
  dsimp only
  rw [mapAllData_comp _ _ (sizeOf p.cells) p.cells le_rfl]
  rw [hcells]

/-- Claim C6 (counterexample). MultiSwap with overlapping pairs — cell
`b` appears in both pairs — is not undone by its own revert: redo and
undo both replay the same pairwise swap sequence, which is not an
involution when pairs overlap. Starting from images `(pa, pb, pc)`,
apply-then-revert leaves `(pc, pa, pb)`, not the original project. -/
theorem C6_counterexample :
    (Commands.MultiSwapCellsCommand.undo ⟨[("a", "b"), ("b", "c")]⟩
        (Commands.MultiSwapCellsCommand.redo ⟨[("a", "b"), ("b", "c")]⟩ exMulti)).cells.map
        (fun c => c.data.image_path) = [some "pc", some "pa", some "pb"]
    ∧ exMulti.cells.map (fun c => c.data.image_path) = [some "pa", some "pb", some "pc"] := by
  refine ⟨rfl, rfl⟩

/-- Claim C6 (amended). apply-then-revert restores the exact pre-apply
project, and apply-revert-apply equals a single apply, for: the ten
snapshot-restoring commands (InsertRow, InsertCell, DeleteRow,
DeleteCell, ChangeRowCount, Split, InsertSubCell, DeleteSubCell,
WrapAndInsert, ChangeSubCellRatio) unconditionally; DropImage
unconditionally; AddText when the added item is not already present; and
Swap for two distinct existing cells in a project with no duplicate cell
ids. MultiSwap with overlapping pairs violates the round-trip (see the
counterexample), as does DeleteText (its undo appends rather than
reinserting at the original position). -/
theorem C6_amended :
    (∀ (p : Project) (i cc : Int) (ids : List String),
        (Commands.mkInsertRowCommand p i cc ids).undo
          ((Commands.mkInsertRowCommand p i cc ids).redo p) = p
        ∧ (Commands.mkInsertRowCommand p i cc ids).redo
            ((Commands.mkInsertRowCommand p i cc ids).undo
              ((Commands.mkInsertRowCommand p i cc ids).redo p))
          = (Commands.mkInsertRowCommand p i cc ids).redo p)
    ∧ (∀ (p : Project) (ri ci : Int) (nid : String),
        (Commands.mkInsertCellCommand p ri ci nid).undo
          ((Commands.mkInsertCellCommand p ri ci nid).redo p) = p
        ∧ (Commands.mkInsertCellCommand p ri ci nid).redo
            ((Commands.mkInsertCellCommand p ri ci nid).undo
              ((Commands.mkInsertCellCommand p ri ci nid).redo p))
          = (Commands.mkInsertCellCommand p ri ci nid).redo p)
    ∧ (∀ (p : Project) (ri : Int),
        (Commands.mkDeleteRowCommand p ri).undo
          ((Commands.mkDeleteRowCommand p ri).redo p) = p
        ∧ (Commands.mkDeleteRowCommand p ri).redo
            ((Commands.mkDeleteRowCommand p ri).undo
              ((Commands.mkDeleteRowCommand p ri).redo p))
          = (Commands.mkDeleteRowCommand p ri).redo p)
    ∧ (∀ (p : Project) (ri ci : Int),
        (Commands.mkDeleteCellCommand p ri ci).undo
          ((Commands.mkDeleteCellCommand p ri ci).redo p) = p
        ∧ (Commands.mkDeleteCellCommand p ri ci).redo
            ((Commands.mkDeleteCellCommand p ri ci).undo
              ((Commands.mkDeleteCellCommand p ri ci).redo p))
          = (Commands.mkDeleteCellCommand p ri ci).redo p)
    ∧ (∀ (p : Project) (nc : Int) (fresh : Int → Int → String),
        (Commands.mkChangeRowCountCommand p nc fresh).undo
          ((Commands.mkChangeRowCountCommand p nc fresh).redo p) = p
        ∧ (Commands.mkChangeRowCountCommand p nc fresh).redo
            ((Commands.mkChangeRowCountCommand p nc fresh).undo
              ((Commands.mkChangeRowCountCommand p nc fresh).redo p))
          = (Commands.mkChangeRowCountCommand p nc fresh).redo p)
    ∧ (∀ (p : Project) (cid dir : String) (count : Int) (ids : List String),
        (Commands.mkSplitCellCommand p cid dir count ids).undo
          ((Commands.mkSplitCellCommand p cid dir count ids).redo p) = p
        ∧ (Commands.mkSplitCellCommand p cid dir count ids).redo
            ((Commands.mkSplitCellCommand p cid dir count ids).undo
              ((Commands.mkSplitCellCommand p cid dir count ids).redo p))
          = (Commands.mkSplitCellCommand p cid dir count ids).redo p)
    ∧ (∀ (p : Project) (cid pos nid : String),
        (Commands.mkInsertSubCellCommand p cid pos nid).undo
          ((Commands.mkInsertSubCellCommand p cid pos nid).redo p) = p
        ∧ (Commands.mkInsertSubCellCommand p cid pos nid).redo
            ((Commands.mkInsertSubCellCommand p cid pos nid).undo
              ((Commands.mkInsertSubCellCommand p cid pos nid).redo p))
          = (Commands.mkInsertSubCellCommand p cid pos nid).redo p)
    ∧ (∀ (p : Project) (cid : String),
        (Commands.mkDeleteSubCellCommand p cid).undo
          ((Commands.mkDeleteSubCellCommand p cid).redo p) = p
        ∧ (Commands.mkDeleteSubCellCommand p cid).redo
            ((Commands.mkDeleteSubCellCommand p cid).undo
              ((Commands.mkDeleteSubCellCommand p cid).redo p))
          = (Commands.mkDeleteSubCellCommand p cid).redo p)
    ∧ (∀ (p : Project) (cid dir pos nid : String),
        (Commands.mkWrapAndInsertCommand p cid dir pos nid).undo
          ((Commands.mkWrapAndInsertCommand p cid dir pos nid).redo p) = p
        ∧ (Commands.mkWrapAndInsertCommand p cid dir pos nid).redo
            ((Commands.mkWrapAndInsertCommand p cid dir pos nid).undo
              ((Commands.mkWrapAndInsertCommand p cid dir pos nid).redo p))
          = (Commands.mkWrapAndInsertCommand p cid dir pos nid).redo p)
    ∧ (∀ (p : Project) (cid : String) (r : ℚ),
        (Commands.mkChangeSubCellRatioCommand p cid r).undo
          ((Commands.mkChangeSubCellRatioCommand p cid r).redo p) = p
        ∧ (Commands.mkChangeSubCellRatioCommand p cid r).redo
            ((Commands.mkChangeSubCellRatioCommand p cid r).undo
              ((Commands.mkChangeSubCellRatioCommand p cid r).redo p))
          = (Commands.mkChangeSubCellRatioCommand p cid r).redo p)
    ∧ (∀ (p : Project) (cid : String) (path : Option String),
        (Commands.mkDropImageCommand p cid path).undo
          ((Commands.mkDropImageCommand p cid path).redo p) = p
        ∧ (Commands.mkDropImageCommand p cid path).redo
            ((Commands.mkDropImageCommand p cid path).undo
              ((Commands.mkDropImageCommand p cid path).redo p))
          = (Commands.mkDropImageCommand p cid path).redo p)
    ∧ (∀ (p : Project) (t : TextItem), t ∉ p.text_items →
        Commands.AddTextCommand.undo ⟨t⟩ (Commands.AddTextCommand.redo ⟨t⟩ p) = p
        ∧ Commands.AddTextCommand.redo ⟨t⟩
            (Commands.AddTextCommand.undo ⟨t⟩ (Commands.AddTextCommand.redo ⟨t⟩ p))
          = Commands.AddTextCommand.redo ⟨t⟩ p)
    ∧ (∀ (p : Project) (id1 id2 : String) (v1 v2 : CellData),
        ((allCellsList p.cells).map (fun c => c.data.id)).Nodup →
        Commands.findCellData p id1 = some v1 →
        Commands.findCellData p id2 = some v2 →
        id1 ≠ id2 →
        Commands.SwapCellsCommand.undo ⟨id1, id2⟩
          (Commands.SwapCellsCommand.redo ⟨id1, id2⟩ p) = p
        ∧ Commands.SwapCellsCommand.redo ⟨id1, id2⟩
            (Commands.SwapCellsCommand.undo ⟨id1, id2⟩
              (Commands.SwapCellsCommand.redo ⟨id1, id2⟩ p))
          = Commands.SwapCellsCommand.redo ⟨id1, id2⟩ p) := by
  refine ⟨?_, ?_, ?_, ?_, ?_, ?_, ?_, ?_, ?_, ?_, ?_, ?_, ?_⟩
  · intro p i cc ids
    have h := insertRow_roundtrip p i cc ids
    exact ⟨h, by rw [h]⟩
  · intro p ri ci nid
    have h := insertCell_roundtrip p ri ci nid
    exact ⟨h, by rw [h]⟩
  · intro p ri
    have h := deleteRow_roundtrip p ri
    exact ⟨h, by rw [h]⟩
  · intro p ri ci
    have h := deleteCell_roundtrip p ri ci
    exact ⟨h, by rw [h]⟩
  · intro p nc fresh
    have h := changeRowCount_roundtrip p nc fresh
    exact ⟨h, by rw [h]⟩
  · intro p cid dir count ids
    have h := split_roundtrip p cid dir count ids
    exact ⟨h, by rw [h]⟩
  · intro p cid pos nid
    have h := insertSub_roundtrip p cid pos nid
    exact ⟨h, by rw [h]⟩
  · intro p cid
    have h := deleteSub_roundtrip p cid
    exact ⟨h, by rw [h]⟩
  · intro p cid dir pos nid
    have h := wrap_roundtrip p cid dir pos nid
    exact ⟨h, by rw [h]⟩
  · intro p cid r
    have h := changeRatio_roundtrip p cid r
    exact ⟨h, by rw [h]⟩
  · intro p cid path
    have h := dropImage_roundtrip p cid path
    exact ⟨h, by rw [h]⟩
  · intro p t ht
    have h := addText_roundtrip p t ht
    exact ⟨h, by rw [h]⟩
  · intro p id1 id2 v1 v2 hnd h1 h2 hne
    have h : Commands.SwapCellsCommand.undo ⟨id1, id2⟩
        (Commands.SwapCellsCommand.redo ⟨id1, id2⟩ p) = p :=
      swapPair_invol p id1 id2 v1 v2 hnd h1 h2 hne
    exact ⟨h, by rw [h]⟩

/-- Claim C6 (witness). The amended theorem at concrete inputs: the
swap of cells `a` and `b` of the two-cell project round-trips, and an
InsertRow on the one-row project round-trips. -/
theorem C6_amended_witness :
    Commands.SwapCellsCommand.undo ⟨"a", "b"⟩
        (Commands.SwapCellsCommand.redo ⟨"a", "b"⟩ exSwap) = exSwap
    ∧ (Commands.mkInsertRowCommand exOneRow 0 2 ["n1", "n2"]).undo
        ((Commands.mkInsertRowCommand exOneRow 0 2 ["n1", "n2"]).redo exOneRow) = exOneRow :=
  ⟨(C6_amended.2.2.2.2.2.2.2.2.2.2.2.2 exSwap "a" "b" exSwapA.data exSwapB.data
      (by decide) rfl rfl (by decide)).1,
   (C6_amended.1 exOneRow 0 2 ["n1", "n2"]).1⟩

/-- An entry of an overwrite-or-append dict update comes from the old
dict or bears the written key. -/
theorem dictSet_mem [DecidableEq α] (m : List (α × β)) (k : α) (v : β) (e : α × β)
    (he : e ∈ dictSet m k v) : e ∈ m ∨ e.1 = k := by
  induction m with
  | nil =>
    rw [dictSet] at he
    rcases List.mem_singleton.mp he with h
    right
    rw [h]
  | cons kv rest ih =>
    obtain ⟨k1, v1⟩ := kv
    rw [dictSet] at he
    by_cases hk : k1 = k
    · rw [if_pos hk] at he
      rcases List.mem_cons.mp he with h | h
      · right
        rw [h]
      · left
        exact List.mem_cons_of_mem _ h
    · rw [if_neg hk] at he
      rcases List.mem_cons.mp he with h | h
      · left
        rw [h]
        exact List.mem_cons_self _ _
      · rcases ih h with h' | h'
        · left
          exact List.mem_cons_of_mem _ h'
        · right
          exact h'

/-- A key borne by no entry is absent. -/
theorem dictGet_none [DecidableEq α] (m : List (α × β)) (k : α)
    (h : ∀ e ∈ m, e.1 ≠ k) : dictGet m k = none := by
  induction m with
  | nil => rfl
  | cons kv rest ih =>
    obtain ⟨k1, v1⟩ := kv
    rw [dictGet]
    rw [if_neg (h (k1, v1) (List.mem_cons_self _ _))]
    exact ih (fun e he => h e (List.mem_cons_of_mem _ he))

/-- Deep cells of a filtered forest are deep cells of the forest. -/
theorem allCellsList_filter_sub (pred : Cell → Bool) :
    ∀ (cs : List Cell) (c : Cell), c ∈ allCellsList (cs.filter pred) → c ∈ allCellsList cs := by
  intro cs
  induction cs with
  | nil =>
    intro c hc
    rw [List.filter_nil] at hc
    exact hc
  | cons c0 rest ih =>
    intro c hc
    rw [List.filter_cons] at hc
    rw [allCellsList]
    by_cases hp : pred c0 = true
    · rw [if_pos hp] at hc
      rw [allCellsList] at hc
      rcases List.mem_append.mp hc with h | h
      · exact List.mem_append.mpr (Or.inl h)
      · exact List.mem_append.mpr (Or.inr (ih c h))
    · rw [if_neg hp] at hc
      exact List.mem_append.mpr (Or.inr (ih c hc))

/-- A cell's own id is among its tree's deep ids. -/
theorem mem_ids_of_self (c : Cell) : c.data.id ∈ (allCellsIn c).map (fun x => x.data.id) := by
  obtain ⟨d, cs⟩ := c
  rw [allCellsIn]
  exact List.mem_map_of_mem _ (List.mem_cons_self _ _)

/-- Deep ids of the head tree inject into deep ids of the forest. -/
theorem ids_sub_cons (c : Cell) (rest : List Cell) (x : String)
    (h : x ∈ (allCellsIn c).map (fun y => y.data.id)) :
    x ∈ (allCellsList (c :: rest)).map (fun y => y.data.id) := by
  rw [allCellsList, List.map_append]
  exact List.mem_append.mpr (Or.inl h)

/-- Deep ids of the tail forest inject into deep ids of the forest. -/
theorem ids_sub_rest (c : Cell) (rest : List Cell) (x : String)
    (h : x ∈ (allCellsList rest).map (fun y => y.data.id)) :
    x ∈ (allCellsList (c :: rest)).map (fun y => y.data.id) := by
  rw [allCellsList, List.map_append]
  exact List.mem_append.mpr (Or.inr h)

/-- Deep ids of the children inject into deep ids of the parent tree. -/
theorem ids_children_sub (d : CellData) (children : List Cell) (x : String)
    (h : x ∈ (allCellsList children).map (fun y => y.data.id)) :
    x ∈ (allCellsIn (Cell.mk d children)).map (fun y => y.data.id) := by
  rw [allCellsIn, List.map_cons]
  exact List.mem_cons_of_mem _ h

/-- Every geometry produced by the row loop carries one of the walked
templates. -/
theorem row_geoms_loop_mem :
    ∀ (templates : List RowTemplate) (T av gap lrh : ℚ) (lra : Bool) (rwl : List Int)
      (cy : ℚ) (rh : List (Int × ℚ)) (g : LayoutEngine.RowGeom),
      g ∈ (LayoutEngine.row_geoms_loop templates T av gap lrh lra rwl cy rh).1 →
      g.r_temp ∈ templates := by
  intro templates
  induction templates with
  | nil =>
    intro T av gap lrh lra rwl cy rh g hg
    rw [LayoutEngine.row_geoms_loop.eq_def] at hg
    cases hg
  | cons r rest ih =>
    intro T av gap lrh lra rwl cy rh g hg
    rw [LayoutEngine.row_geoms_loop.eq_def] at hg
    dsimp only at hg
    by_cases hc : lra = true ∧ r.index ∈ rwl
    · rw [if_pos hc] at hg
      rcases List.mem_cons.mp hg with h | h
      · rw [h]
        exact List.mem_cons_self _ _
      · exact List.mem_cons_of_mem _ (ih _ _ _ _ _ _ _ _ g h)
    · rw [if_neg hc] at hg
      rcases List.mem_cons.mp hg with h | h
      · rw [h]
        exact List.mem_cons_self _ _
      · exact List.mem_cons_of_mem _ (ih _ _ _ _ _ _ _ _ g h)

/-- Removing an unlabeled top-level cell does not change which rows get
a label row. -/
theorem rows_with_labels_erase (p : Project) (s : Cell) (cs1 cs2 : List Cell)
    (hcells : p.cells = cs1 ++ s :: cs2)
    (hnl : s.data.id ∉ LayoutEngine.labeled_cell_ids p) :
    LayoutEngine.rows_with_labels { p with cells := cs1 ++ cs2 }
      = LayoutEngine.rows_with_labels p := by
  unfold LayoutEngine.rows_with_labels
  have hlra : LayoutEngine.label_row_above { p with cells := cs1 ++ cs2 }
      = LayoutEngine.label_row_above p := rfl
  have hlab : LayoutEngine.labeled_cell_ids { p with cells := cs1 ++ cs2 }
      = LayoutEngine.labeled_cell_ids p := rfl
  rw [hlra, hlab]
  by_cases hA : LayoutEngine.label_row_above p = true
  · rw [if_pos hA, if_pos hA]
    have hpc : ({ p with cells := cs1 ++ cs2 } : Project).cells = cs1 ++ cs2 := rfl
    rw [hpc, hcells]
    rw [List.foldl_append, List.foldl_append, List.foldl_cons]
    rw [if_neg hnl]
  · rw [if_neg hA, if_neg hA]

/-- Removing an unlabeled top-level cell does not change the row
geometries. -/
theorem row_geoms_erase (p : Project) (s : Cell) (cs1 cs2 : List Cell)
    (hcells : p.cells = cs1 ++ s :: cs2)
    (hnl : s.data.id ∉ LayoutEngine.labeled_cell_ids p) :
    LayoutEngine.row_geoms { p with cells := cs1 ++ cs2 } = LayoutEngine.row_geoms p := by
  unfold LayoutEngine.row_geoms LayoutEngine.available_height_for_rows
    LayoutEngine.total_vertical_gaps LayoutEngine.total_label_height LayoutEngine.num_label_rows
  rw [rows_with_labels_erase p s cs1 cs2 hcells hnl]
  rfl

/-- A cell whose column index reaches the column count is skipped: the
row placement is the same with and without it. -/
theorem place_row_cells_skip (s : Cell) (col_widths : List ℚ) (col_count : Int)
    (ml gap : ℚ) (lbl_y : Option ℚ) (lbl_h pic_y pic_h lrh : ℚ)
    (labeled : List String) (lra : Bool)
    (hskip : col_count ≤ s.data.col_index) :
    ∀ (l1 l2 : List Cell) (acc : Rects),
      LayoutEngine.place_row_cells (l1 ++ s :: l2) col_widths col_count ml gap lbl_y lbl_h
        pic_y pic_h lrh labeled lra acc
      = LayoutEngine.place_row_cells (l1 ++ l2) col_widths col_count ml gap lbl_y lbl_h
        pic_y pic_h lrh labeled lra acc := by
  intro l1
  induction l1 with
  | nil =>
    intro l2 acc
    rw [List.nil_append, List.nil_append]
    rw [LayoutEngine.place_row_cells]
    rw [if_pos hskip]
  | cons c l1' ih =>
    intro l2 acc
    rw [List.cons_append, List.cons_append]
    rw [LayoutEngine.place_row_cells, LayoutEngine.place_row_cells]
    by_cases hc : col_count ≤ c.data.col_index
    · rw [if_pos hc, if_pos hc]
      exact ih l2 acc
    · rw [if_neg hc, if_neg hc]
      cases hpi : pyIndex col_widths c.data.col_index with
      | none => rfl
      | some w =>
        dsimp only
        exact ih l2 _

/-- Placing all rows is unchanged by removing a top-level cell that
every geometry of its row index would skip. -/
theorem place_rows_erase (s : Cell) (cs1 cs2 : List Cell) (cw ml gap lrh : ℚ)
    (labeled : List String) (lra : Bool) :
    ∀ (geoms : List LayoutEngine.RowGeom),
      (∀ g ∈ geoms, g.r_temp.index = s.data.row_index →
        g.r_temp.column_count ≤ s.data.col_index) →
      ∀ acc : Rects,
      LayoutEngine.place_rows geoms (cs1 ++ s :: cs2) cw ml gap lrh labeled lra acc
        = LayoutEngine.place_rows geoms (cs1 ++ cs2) cw ml gap lrh labeled lra acc := by
  intro geoms
  induction geoms with
  | nil =>
    intro _ acc
    rfl
  | cons g rest ih =>
    intro hg acc
    rw [LayoutEngine.place_rows, LayoutEngine.place_rows]
    by_cases hcc : g.r_temp.column_count ≤ 0
    · rw [if_pos hcc, if_pos hcc]
      exact ih (fun g' hg' => hg g' (List.mem_cons_of_mem _ hg')) acc
    · rw [if_neg hcc, if_neg hcc]
      by_cases hrow : s.data.row_index = g.r_temp.index
      · have hskip : g.r_temp.column_count ≤ s.data.col_index :=
          hg g (List.mem_cons_self _ _) hrow.symm
        have hfeq : (cs1 ++ s :: cs2).filter (fun c => decide (c.data.row_index = g.r_temp.index))
            = cs1.filter (fun c => decide (c.data.row_index = g.r_temp.index))
              ++ s :: cs2.filter (fun c => decide (c.data.row_index = g.r_temp.index)) := by
          rw [List.filter_append, List.filter_cons]
          rw [if_pos (decide_eq_true hrow)]
        have hfeq2 : (cs1 ++ cs2).filter (fun c => decide (c.data.row_index = g.r_temp.index))
            = cs1.filter (fun c => decide (c.data.row_index = g.r_temp.index))
              ++ cs2.filter (fun c => decide (c.data.row_index = g.r_temp.index)) :=
          List.filter_append _ _
        rw [hfeq, hfeq2]
        rw [place_row_cells_skip s _ _ ml gap g.lbl_y g.lbl_h g.pic_y g.pic_h lrh labeled lra hskip]
        cases hE : LayoutEngine.place_row_cells
            (cs1.filter (fun c => decide (c.data.row_index = g.r_temp.index))
              ++ cs2.filter (fun c => decide (c.data.row_index = g.r_temp.index)))
            ((LayoutEngine.compute_col_widths g.r_temp cw gap).1) g.r_temp.column_count ml gap
            g.lbl_y g.lbl_h g.pic_y g.pic_h lrh labeled lra acc with
        | none => rfl
        | some acc2 =>
          dsimp only
          exact ih (fun g' hg' => hg g' (List.mem_cons_of_mem _ hg')) acc2
      · have hfeq : (cs1 ++ s :: cs2).filter (fun c => decide (c.data.row_index = g.r_temp.index))
            = (cs1 ++ cs2).filter (fun c => decide (c.data.row_index = g.r_temp.index)) := by
          rw [List.filter_append, List.filter_append, List.filter_cons]
          rw [if_neg (by simp only [decide_eq_true_eq]; exact hrow)]
        rw [hfeq]
        cases hE : LayoutEngine.place_row_cells
            ((cs1 ++ cs2).filter (fun c => decide (c.data.row_index = g.r_temp.index)))
            ((LayoutEngine.compute_col_widths g.r_temp cw gap).1) g.r_temp.column_count ml gap
            g.lbl_y g.lbl_h g.pic_y g.pic_h lrh labeled lra acc with
        | none => rfl
        | some acc2 =>
          dsimp only
          exact ih (fun g' hg' => hg g' (List.mem_cons_of_mem _ hg')) acc2

/-- Key provenance of the sub-cell layout recursion: every cell-rect
entry it records comes from the accumulator or bears a deep id of the
laid-out trees. -/
theorem layout_keys_aux : ∀ N : Nat,
    (∀ (parent : Cell) (rect : Rect) (gap lrh : ℚ) (labeled : List String) (lra : Bool)
        (acc : Rects), sizeOf parent ≤ N →
        ∀ e ∈ (LayoutEngine.layout_subcells parent rect gap lrh labeled lra acc).1,
          e ∈ acc.1 ∨ e.1 ∈ (allCellsIn parent).map (fun c => c.data.id))
    ∧ (∀ (children : List Cell) (ratios : List ℚ) (px cy pw available T gap lrh : ℚ)
        (labeled : List String) (lra : Bool) (acc : Rects), sizeOf children ≤ N →
        ∀ e ∈ (LayoutEngine.layout_children_v children ratios px cy pw available T
            gap lrh labeled lra acc).1,
          e ∈ acc.1 ∨ e.1 ∈ (allCellsList children).map (fun c => c.data.id))
    ∧ (∀ (children : List Cell) (ratios : List ℚ) (cx py ph available T gap lrh : ℚ)
        (labeled : List String) (lra : Bool) (acc : Rects), sizeOf children ≤ N →
        ∀ e ∈ (LayoutEngine.layout_children_h children ratios cx py ph available T
            gap lrh labeled lra acc).1,
          e ∈ acc.1 ∨ e.1 ∈ (allCellsList children).map (fun c => c.data.id)) := by
  intro N
  induction N using Nat.strong_induction_on with
  | _ N ih =>
    refine ⟨?_, ?_, ?_⟩
    · intro parent rect gap lrh labeled lra acc hsz e he
      obtain ⟨d, children⟩ := parent
      rw [LayoutEngine.layout_subcells] at he
      dsimp only at he
      have hszc : sizeOf children < N := by
        simp only [Cell.mk.sizeOf_spec] at hsz
        omega
      by_cases hemp : children.isEmpty = true
      · rw [if_pos hemp] at he
        exact Or.inl he
      · rw [if_neg hemp] at he
        by_cases hv : d.split_direction = "vertical"
        · rw [if_pos hv] at he
          rcases (ih _ hszc).2.1 children _ rect.x rect.y rect.w _ _ gap lrh labeled lra acc
            le_rfl e he with h | h
          · exact Or.inl h
          · exact Or.inr (ids_children_sub d children e.1 h)
        · rw [if_neg hv] at he
          by_cases hho : d.split_direction = "horizontal"
          · rw [if_pos hho] at he
            rcases (ih _ hszc).2.2 children _ rect.x rect.y rect.h _ _ gap lrh labeled lra acc
              le_rfl e he with h | h
            · exact Or.inl h
            · exact Or.inr (ids_children_sub d children e.1 h)
          · rw [if_neg hho] at he
            exact Or.inl he
    · intro children ratios px cy pw available T gap lrh labeled lra acc hsz e he
      cases children with
      | nil =>
        rw [LayoutEngine.layout_children_v] at he
        exact Or.inl he
      | cons child rest =>
        cases ratios with
        | nil =>
          rw [LayoutEngine.layout_children_v] at he
          exact Or.inl he
        | cons r rs =>
          rw [LayoutEngine.layout_children_v] at he
          dsimp only at he
          have hszrest : sizeOf rest < N := by
            simp only [List.cons.sizeOf_spec] at hsz
            omega
          have hszchild : sizeOf child < N := by
            simp only [List.cons.sizeOf_spec] at hsz
            omega
          by_cases hlbl : lra = true ∧ child.is_leaf = true ∧ child.data.id ∈ labeled
          · rw [if_pos hlbl] at he
            rcases (ih _ hszrest).2.1 rest rs px _ pw available T gap lrh labeled lra _
              le_rfl e he with h | h
            · by_cases hl : child.is_leaf
              · rw [if_pos hl] at h
                dsimp only at h
                rcases dictSet_mem acc.1 child.data.id _ e h with h' | h'
                · exact Or.inl h'
                · refine Or.inr (ids_sub_cons child rest e.1 ?_)
                  rw [h']
                  exact mem_ids_of_self child
              · rw [if_neg hl] at h
                rcases (ih _ hszchild).1 child _ gap lrh labeled lra _ le_rfl e h with h2 | h2
                · dsimp only at h2
                  rcases dictSet_mem acc.1 child.data.id _ e h2 with h' | h'
                  · exact Or.inl h'
                  · refine Or.inr (ids_sub_cons child rest e.1 ?_)
                    rw [h']
                    exact mem_ids_of_self child
                · exact Or.inr (ids_sub_cons child rest e.1 h2)
            · exact Or.inr (ids_sub_rest child rest e.1 h)
          · rw [if_neg hlbl] at he
            rcases (ih _ hszrest).2.1 rest rs px _ pw available T gap lrh labeled lra _
              le_rfl e he with h | h
            · by_cases hl : child.is_leaf
              · rw [if_pos hl] at h
                dsimp only at h
                rcases dictSet_mem acc.1 child.data.id _ e h with h' | h'
                · exact Or.inl h'
                · refine Or.inr (ids_sub_cons child rest e.1 ?_)
                  rw [h']
                  exact mem_ids_of_self child
              · rw [if_neg hl] at h
                rcases (ih _ hszchild).1 child _ gap lrh labeled lra _ le_rfl e h with h2 | h2
                · dsimp only at h2
                  rcases dictSet_mem acc.1 child.data.id _ e h2 with h' | h'
                  · exact Or.inl h'
                  · refine Or.inr (ids_sub_cons child rest e.1 ?_)
                    rw [h']
                    exact mem_ids_of_self child
                · exact Or.inr (ids_sub_cons child rest e.1 h2)
            · exact Or.inr (ids_sub_rest child rest e.1 h)
    · intro children ratios cx py ph available T gap lrh labeled lra acc hsz e he
      cases children with
      | nil =>
        rw [LayoutEngine.layout_children_h] at he
        exact Or.inl he
      | cons child rest =>
        cases ratios with
        | nil =>
          rw [LayoutEngine.layout_children_h] at he
          exact Or.inl he
        | cons r rs =>
          rw [LayoutEngine.layout_children_h] at he
          have hszrest : sizeOf rest < N := by
            simp only [List.cons.sizeOf_spec] at hsz
            omega
          have hszchild : sizeOf child < N := by
            simp only [List.cons.sizeOf_spec] at hsz
            omega
          rcases (ih _ hszrest).2.2 rest rs _ py ph available T gap lrh labeled lra _
            le_rfl e he with h | h
          · by_cases hl : child.is_leaf
            · rw [if_pos hl] at h
              dsimp only at h
              rcases dictSet_mem acc.1 child.data.id _ e h with h' | h'
              · exact Or.inl h'
              · refine Or.inr (ids_sub_cons child rest e.1 ?_)
                rw [h']
                exact mem_ids_of_self child
            · rw [if_neg hl] at h
              rcases (ih _ hszchild).1 child _ gap lrh labeled lra _ le_rfl e h with h2 | h2
              · dsimp only at h2
                rcases dictSet_mem acc.1 child.data.id _ e h2 with h' | h'
                · exact Or.inl h'
                · refine Or.inr (ids_sub_cons child rest e.1 ?_)
                  rw [h']
                  exact mem_ids_of_self child
              · exact Or.inr (ids_sub_cons child rest e.1 h2)
          · exact Or.inr (ids_sub_rest child rest e.1 h)

/-- Key provenance of one row's placement loop. -/
theorem place_row_cells_keys :
    ∀ (row_cells : List Cell) (col_widths : List ℚ) (col_count : Int)
      (ml gap : ℚ) (lbl_y : Option ℚ) (lbl_h pic_y pic_h lrh : ℚ)
      (labeled : List String) (lra : Bool) (acc res : Rects),
      LayoutEngine.place_row_cells row_cells col_widths col_count ml gap lbl_y lbl_h
        pic_y pic_h lrh labeled lra acc = some res →
      ∀ e ∈ res.1, e ∈ acc.1 ∨ e.1 ∈ (allCellsList row_cells).map (fun c => c.data.id) := by
  intro row_cells
  induction row_cells with
  | nil =>
    intro col_widths col_count ml gap lbl_y lbl_h pic_y pic_h lrh labeled lra acc res hres
    rw [LayoutEngine.place_row_cells] at hres
    cases hres
    intro e he
    exact Or.inl he
  | cons cell rest ih =>
    intro col_widths col_count ml gap lbl_y lbl_h pic_y pic_h lrh labeled lra acc res hres
    rw [LayoutEngine.place_row_cells] at hres
    by_cases hskip : col_count ≤ cell.data.col_index
    · rw [if_pos hskip] at hres
      intro e he
      rcases ih col_widths col_count ml gap lbl_y lbl_h pic_y pic_h lrh labeled lra acc res
        hres e he with h | h
      · exact Or.inl h
      · exact Or.inr (ids_sub_rest cell rest e.1 h)
    · rw [if_neg hskip] at hres
      cases hpi : pyIndex col_widths cell.data.col_index with
      | none =>
        rw [hpi] at hres
        cases hres
      | some w =>
        rw [hpi] at hres
        dsimp only at hres
        intro e he
        rcases ih col_widths col_count ml gap lbl_y lbl_h pic_y pic_h lrh labeled lra _ res
          hres e he with h | h
        · by_cases hl : cell.is_leaf
          · rw [if_pos hl] at h
            dsimp only at h
            rcases dictSet_mem acc.1 cell.data.id _ e h with h' | h'
            · exact Or.inl h'
            · refine Or.inr (ids_sub_cons cell rest e.1 ?_)
              rw [h']
              exact mem_ids_of_self cell
          · rw [if_neg hl] at h
            rcases (layout_keys_aux (sizeOf cell)).1 cell _ gap lrh labeled lra _ le_rfl e h
              with h2 | h2
            · dsimp only at h2
              rcases dictSet_mem acc.1 cell.data.id _ e h2 with h' | h'
              · exact Or.inl h'
              · refine Or.inr (ids_sub_cons cell rest e.1 ?_)
                rw [h']
                exact mem_ids_of_self cell
            · exact Or.inr (ids_sub_cons cell rest e.1 h2)
        · exact Or.inr (ids_sub_rest cell rest e.1 h)

/-- Key provenance of the whole placement: every cell-rect entry comes
from the accumulator or bears a deep id of the project's cells. -/
theorem place_rows_keys :
    ∀ (geoms : List LayoutEngine.RowGeom) (cells : List Cell) (cw ml gap lrh : ℚ)
      (labeled : List String) (lra : Bool) (acc res : Rects),
      LayoutEngine.place_rows geoms cells cw ml gap lrh labeled lra acc = some res →
      ∀ e ∈ res.1, e ∈ acc.1 ∨ e.1 ∈ (allCellsList cells).map (fun c => c.data.id) := by
  intro geoms
  induction geoms with
  | nil =>
    intro cells cw ml gap lrh labeled lra acc res hres
    rw [LayoutEngine.place_rows] at hres
    cases hres
    intro e he
    exact Or.inl he
  | cons g rest ih =>
    intro cells cw ml gap lrh labeled lra acc res hres
    rw [LayoutEngine.place_rows] at hres
    by_cases hcc : g.r_temp.column_count ≤ 0
    · rw [if_pos hcc] at hres
      exact ih cells cw ml gap lrh labeled lra acc res hres
    · rw [if_neg hcc] at hres
      cases hE : LayoutEngine.place_row_cells
          (cells.filter (fun c => decide (c.data.row_index = g.r_temp.index)))
          ((LayoutEngine.compute_col_widths g.r_temp cw gap).1) g.r_temp.column_count ml gap
          g.lbl_y g.lbl_h g.pic_y g.pic_h lrh labeled lra acc with
      | none =>
        rw [hE] at hres
        cases hres
      | some acc2 =>
        rw [hE] at hres
        dsimp only at hres
        intro e he
        rcases ih cells cw ml gap lrh labeled lra acc2 res hres e he with h | h
        · rcases place_row_cells_keys _ _ _ _ _ _ _ _ _ _ _ _ _ _ hE e h with h' | h'
          · exact Or.inl h'
          · right
            rcases List.mem_map.mp h' with ⟨c', hc', hcid⟩
            exact List.mem_map.mpr ⟨c', allCellsList_filter_sub _ cells c' hc', hcid⟩
        · exact Or.inr h

/-- Removing an unlabeled stray top-level cell — one that every row
template of its row index would skip — leaves the layout result
unchanged. -/
theorem calculate_layout_erase (p : Project) (s : Cell) (cs1 cs2 : List Cell)
    (hcells : p.cells = cs1 ++ s :: cs2)
    (hnl : s.data.id ∉ LayoutEngine.labeled_cell_ids p)
    (hstray : ∀ r ∈ p.rows, r.index = s.data.row_index →
      r.column_count ≤ s.data.col_index) :
    (LayoutEngine.calculate_layout p).map Prod.fst
      = (LayoutEngine.calculate_layout { p with cells := cs1 ++ cs2 }).map Prod.fst := by
  have hgeo := row_geoms_erase p s cs1 cs2 hcells hnl
  have hcw : LayoutEngine.content_width { p with cells := cs1 ++ cs2 }
      = LayoutEngine.content_width p := rfl
  have hch : LayoutEngine.content_height { p with cells := cs1 ++ cs2 }
      = LayoutEngine.content_height p := rfl
  have hsr : LayoutEngine.sorted_rows { p with cells := cs1 ++ cs2 }
      = LayoutEngine.sorted_rows p := rfl
  have hlab : LayoutEngine.labeled_cell_ids { p with cells := cs1 ++ cs2 }
      = LayoutEngine.labeled_cell_ids p := rfl
  have hlra : LayoutEngine.label_row_above { p with cells := cs1 ++ cs2 }
      = LayoutEngine.label_row_above p := rfl
  have hlrh : LayoutEngine.label_row_h { p with cells := cs1 ++ cs2 }
      = LayoutEngine.label_row_h p := rfl
  have hml : ({ p with cells := cs1 ++ cs2 } : Project).margin_left_mm = p.margin_left_mm := rfl
  have hgap : ({ p with cells := cs1 ++ cs2 } : Project).gap_mm = p.gap_mm := rfl
  have hpc : ({ p with cells := cs1 ++ cs2 } : Project).cells = cs1 ++ cs2 := rfl
  have hgcond : ∀ g ∈ (LayoutEngine.row_geoms p).1, g.r_temp.index = s.data.row_index →
      g.r_temp.column_count ≤ s.data.col_index := by
    intro g hgm heq
    have hrt : g.r_temp ∈ p.rows := (mem_sorted_rows p g.r_temp).mp
      (row_geoms_loop_mem (LayoutEngine.sorted_rows p) _ _ _ _ _ _ _ _ g hgm)
    exact hstray g.r_temp hrt heq
  unfold LayoutEngine.calculate_layout
  rw [hcw, hch, hsr, hlab, hlra, hlrh, hml, hgap, hpc, hgeo]
  by_cases h1 : LayoutEngine.content_width p ≤ 0 ∨ LayoutEngine.content_height p ≤ 0
  · rw [if_pos h1, if_pos h1]
    rfl
  · rw [if_neg h1, if_neg h1]
    by_cases h2 : (LayoutEngine.sorted_rows p).isEmpty = true
    · rw [if_pos h2, if_pos h2]
      rfl
    · rw [if_neg h2, if_neg h2]
      rw [hcells]
      rw [place_rows_erase s cs1 cs2 (LayoutEngine.content_width p) p.margin_left_mm p.gap_mm
        (LayoutEngine.label_row_h p) (LayoutEngine.labeled_cell_ids p)
        (LayoutEngine.label_row_above p) (LayoutEngine.row_geoms p).1 hgcond ([], [])]
      cases hE : LayoutEngine.place_rows (LayoutEngine.row_geoms p).1 (cs1 ++ cs2)
          (LayoutEngine.content_width p) p.margin_left_mm p.gap_mm (LayoutEngine.label_row_h p)
          (LayoutEngine.labeled_cell_ids p) (LayoutEngine.label_row_above p) ([], []) with
      | none => rfl
      | some acc => rfl

/-- Every key of the returned `cell_rects` is a deep id of the
project's cells. -/
theorem calculate_layout_keys (p : Project) (res : LayoutResult × Project)
    (hres : LayoutEngine.calculate_layout p = some res) :
    ∀ e ∈ res.1.cell_rects, e.1 ∈ (allCellsList p.cells).map (fun c => c.data.id) := by
  unfold LayoutEngine.calculate_layout at hres
  by_cases h1 : LayoutEngine.content_width p ≤ 0 ∨ LayoutEngine.content_height p ≤ 0
  · rw [if_pos h1] at hres
    cases hres
    intro e he
    cases he
  · rw [if_neg h1] at hres
    by_cases h2 : (LayoutEngine.sorted_rows p).isEmpty = true
    · rw [if_pos h2] at hres
      cases hres
      intro e he
      cases he
    · rw [if_neg h2] at hres
      cases hE : LayoutEngine.place_rows (LayoutEngine.row_geoms p).1 p.cells
          (LayoutEngine.content_width p) p.margin_left_mm p.gap_mm (LayoutEngine.label_row_h p)
          (LayoutEngine.labeled_cell_ids p) (LayoutEngine.label_row_above p) ([], []) with
      | none =>
        rw [hE] at hres
        cases hres
      | some acc =>
        rw [hE] at hres
        dsimp only at hres
        cases hres
        intro e he
        dsimp only at he
        rcases place_rows_keys _ _ _ _ _ _ _ _ ([], []) acc hE e he with h | h
        · cases h
        · exact h

/-- Claim C10 (counterexample). The stray cell `s` sits in row 99, which
matches no template, and indeed receives no rect; but because a
numbering label references it under `label_row_above`, row 99 is counted
by `num_label_rows`, shrinking the available height: cell `v` gets
height 1293/5 = 258.6 mm, whereas with the stray removed it gets 277 mm.
The rects of the other cells are NOT the same as if the omitted cell
were absent. -/
theorem C10_counterexample :
    ((LayoutEngine.calculate_layout exC10).map (fun r => dictGet r.1.cell_rects "v"))
      = some (some ⟨10, 10, 190, 1293/5⟩)
    ∧ ((LayoutEngine.calculate_layout exC10b).map (fun r => dictGet r.1.cell_rects "v"))
      = some (some ⟨10, 10, 190, 277⟩)
    ∧ ((LayoutEngine.calculate_layout exC10).map (fun r => dictGet r.1.cell_rects "s"))
      = some none
    ∧ (1293/5 : ℚ) ≠ 277 := by
  refine ⟨?_, ?_, ?_, by norm_num⟩ <;>
  · norm_num [LayoutEngine.calculate_layout, LayoutEngine.content_width,
      LayoutEngine.content_height, LayoutEngine.sorted_rows, sortRowsByIndex, insertRowStable,
      LayoutEngine.label_row_above, LayoutEngine.label_row_h, LayoutEngine.label_row_height_mm,
      LayoutEngine.labeled_cell_ids, LayoutEngine.labeled_ids_step, LayoutEngine.rows_with_labels,
      LayoutEngine.num_label_rows, LayoutEngine.total_vertical_gaps, LayoutEngine.total_label_height,
      LayoutEngine.available_height_for_rows, LayoutEngine.rows_total_ratio, LayoutEngine.row_geoms,
      LayoutEngine.row_geoms_loop, LayoutEngine.compute_col_widths, LayoutEngine.padded_col_ratios,
      LayoutEngine.effective_col_ratios, LayoutEngine.place_rows,
      LayoutEngine.place_row_cells, pyIndex, dictSet, dictGet, topCell, defaultCellData,
      defaultProject, exC10, exC10b, exC10Label, List.insert, Cell.is_leaf, Cell.data,
      Cell.children, LayoutEngine.row_rects_calc, LayoutEngine.share, Int.toNat]
    try simp +decide
    try norm_num

/-- Claim C10 (amended). A top-level cell that every row template of its
row index would skip (in particular one whose `row_index` matches no
template, or whose `col_index` is at least its row's `column_count`) is
omitted without changing anything else — provided no numbering label
references it (under `label_row_above` a labeled stray still enlarges
the reserved label-row budget and shifts every row, as the
counterexample shows): the layout result equals that of the project
with the cell removed, and, when the cell's id is not shared by any
other cell, `cell_rects` has no entry for it. -/
theorem C10_amended (p : Project) (s : Cell) (cs1 cs2 : List Cell)
    (hcells : p.cells = cs1 ++ s :: cs2)
    (hnl : s.data.id ∉ LayoutEngine.labeled_cell_ids p)
    (hstray : ∀ r ∈ p.rows, r.index = s.data.row_index →
      r.column_count ≤ s.data.col_index)
    (hfresh : s.data.id ∉ (allCellsList (cs1 ++ cs2)).map (fun c => c.data.id)) :
    (LayoutEngine.calculate_layout p).map Prod.fst
      = (LayoutEngine.calculate_layout { p with cells := cs1 ++ cs2 }).map Prod.fst
    ∧ ∀ res, LayoutEngine.calculate_layout p = some res →
        dictGet res.1.cell_rects s.data.id = none := by
  have heq := calculate_layout_erase p s cs1 cs2 hcells hnl hstray
  refine ⟨heq, ?_⟩
  intro res hres
  have h1 : (LayoutEngine.calculate_layout { p with cells := cs1 ++ cs2 }).map Prod.fst
      = some res.1 := by
    rw [← heq, hres]
    rfl
  rcases Option.map_eq_some'.mp h1 with ⟨pair, hpair, hfst⟩
  apply dictGet_none
  intro e he hq
  apply hfresh
  rw [← hq]
  apply calculate_layout_keys { p with cells := cs1 ++ cs2 } pair hpair e
  rw [hfst]
  exact he

/-- Claim C10 (witness). The amended theorem on the concrete project
with an unlabeled stray cell in nonexistent row 99: the layout equals
the stray-free layout. -/
theorem C10_amended_witness :
    (LayoutEngine.calculate_layout exC10w).map Prod.fst
      = (LayoutEngine.calculate_layout
          { exC10w with cells := [topCell "a" 0 0, topCell "b" 0 1] }).map Prod.fst :=
  (C10_amended exC10w (topCell "s" 99 0) [topCell "a" 0 0, topCell "b" 0 1] []
    rfl (by decide) (by decide) (by decide)).1

end ILM
